import Mathlib

/-!
# Budget model of Money Manager Ex: estimates, statistics and year copy

A shallow embedding of `src/model/Model_Budget.cpp`.

* `Dbl` stands for the C++ type `double` (IEEE 754 binary64).  A finite value
  is the rational it denotes; every arithmetic result is rounded to the
  nearest binary64 value, ties to even, with overflow to infinity and
  underflow through the subnormal range; both infinities, the negative zero
  and NaN are values.
* `DMap` stands for `std::map<int, T>`: an association list kept in
  ascending key order by `DMap.set`, iterated front to back.
* The record store, the category registry, the budget-year registry and the
  option provider are collaborators of the class; they are passed in through
  `Env`.
-/

namespace MMEX

/-! ## The numeric type -/

/-- A value of the C++ type `double`: `fin q` is the finite value `q`
(`fin 0` is the positive zero), `negZero` the negative zero. -/
inductive Dbl where
  | fin (q : ℚ)
  | negZero
  | pinf
  | ninf
  | nan
  deriving DecidableEq, Repr

namespace Dbl

instance : Inhabited Dbl := ⟨fin 0⟩

/-- Conversion of a C++ `int` to `double`. -/
def ofInt (i : Int) : Dbl := fin (i : ℚ)

/-- The sign bit. -/
def isNeg : Dbl → Bool
  | fin q => decide (q < 0)
  | negZero => true
  | pinf => false
  | ninf => true
  | nan => false

/-- The rational value of a finite double. -/
def toRat? : Dbl → Option ℚ
  | fin q => some q
  | negZero => some 0
  | _ => none

/-- Zero carrying the given sign bit. -/
def signedZero (neg : Bool) : Dbl := if neg then negZero else fin 0

/-- Infinity carrying the given sign bit. -/
def signedInf (neg : Bool) : Dbl := if neg then ninf else pinf

/-- The power `2 ^ k` as a rational. -/
def pow2 (k : Int) : ℚ :=
  if 0 ≤ k then ((2 ^ k.toNat : Nat) : ℚ) else 1 / ((2 ^ (-k).toNat : Nat) : ℚ)

/-- Halving `n` until it is below 2, at most `fuel` times, counting the
steps. -/
def halvings : Nat → Nat → Nat
  | 0, _ => 0
  | fuel + 1, n => if n < 2 then 0 else halvings fuel (n / 2) + 1

/-- The binary logarithm of a positive natural number, rounded down. -/
def natLog2 (n : Nat) : Nat := halvings n n

/-- The binary exponent of a positive rational `a`: the `e` with
`2 ^ e ≤ a < 2 ^ (e + 1)`. -/
def ilog2 (a : ℚ) : Int :=
  let e0 : Int := (natLog2 a.num.natAbs : Int) - (natLog2 a.den : Int)
  if pow2 e0 ≤ a then e0 else e0 - 1

/-- Rounding of a non-negative rational to the nearest integer, ties to
even. -/
def roundHalfEven (q : ℚ) : Int :=
  let f := q.floor
  let r := q - (f : ℚ)
  if r < 1 / 2 then f
  else if 1 / 2 < r then f + 1
  else if f % 2 = 0 then f else f + 1

/-- Rounding of a non-zero exact result to binary64: 53 significant bits,
exponents from -1022 (below it the spacing stays `2 ^ -1074`, the subnormal
range) to 1023, round to nearest, ties to even; a result that rounds to zero
keeps its sign and one of magnitude `2 ^ 1024` or more is an infinity. -/
def round64 (q : ℚ) : Dbl :=
  let a := if q < 0 then -q else q
  let e := max (ilog2 a) (-1022)
  let ulp := pow2 (e - 52)
  let r := (roundHalfEven (a / ulp) : ℚ) * ulp
  if r = 0 then signedZero (decide (q < 0))
  else if pow2 1024 ≤ r then signedInf (decide (q < 0))
  else fin (if q < 0 then -r else r)

/-- Unary minus. -/
def neg : Dbl → Dbl
  | fin q => if q = 0 then negZero else fin (-q)
  | negZero => fin 0
  | pinf => ninf
  | ninf => pinf
  | nan => nan

/-- Addition of doubles: adding a zero is exact, an exact zero sum of two
non-zero operands is the positive zero, any other sum is rounded. -/
def add : Dbl → Dbl → Dbl
  | nan, _ => nan
  | _, nan => nan
  | pinf, ninf => nan
  | ninf, pinf => nan
  | pinf, _ => pinf
  | _, pinf => pinf
  | ninf, _ => ninf
  | _, ninf => ninf
  | negZero, negZero => negZero
  | negZero, fin b => fin b
  | fin a, negZero => fin a
  | fin a, fin b =>
      if a = 0 then fin b else if b = 0 then fin a
      else if a + b = 0 then fin 0 else round64 (a + b)

/-- Subtraction: `a - b` is `a + (-b)`. -/
def sub (a b : Dbl) : Dbl := add a (neg b)

/-- Multiplication of doubles: the exact product, rounded. -/
def mul (a b : Dbl) : Dbl :=
  match a.toRat?, b.toRat? with
  | some x, some y =>
      if x * y = 0 then signedZero (xor a.isNeg b.isNeg) else round64 (x * y)
  | some x, none =>
      if b = nan then nan else if x = 0 then nan else signedInf (xor a.isNeg b.isNeg)
  | none, some y =>
      if a = nan then nan else if y = 0 then nan else signedInf (xor a.isNeg b.isNeg)
  | none, none =>
      if a = nan ∨ b = nan then nan else signedInf (xor a.isNeg b.isNeg)

/-- Division of doubles: the exact quotient, rounded; a non-zero value over
zero is an infinity, zero over zero and infinity over infinity are NaN;
nothing traps. -/
def div (a b : Dbl) : Dbl :=
  match a.toRat?, b.toRat? with
  | some x, some y =>
      if y = 0 then (if x = 0 then nan else signedInf (xor a.isNeg b.isNeg))
      else if x = 0 then signedZero (xor a.isNeg b.isNeg)
      else round64 (x / y)
  | some _, none =>
      if b = nan then nan else signedZero (xor a.isNeg b.isNeg)
  | none, some _ =>
      if a = nan then nan else signedInf (xor a.isNeg b.isNeg)
  | none, none => nan

instance : Add Dbl := ⟨add⟩
instance : Sub Dbl := ⟨sub⟩
instance : Mul Dbl := ⟨mul⟩
instance : Div Dbl := ⟨div⟩
instance : OfNat Dbl n := ⟨fin (n : ℚ)⟩

/-- The comparison `a < b`; false as soon as one side is NaN. -/
def lt : Dbl → Dbl → Bool
  | nan, _ => false
  | _, nan => false
  | _, ninf => false
  | ninf, _ => true
  | pinf, _ => false
  | _, pinf => true
  | a, b => decide ((a.toRat?.getD 0) < (b.toRat?.getD 0))

/-- The comparison `a >= b`; false as soon as one side is NaN. -/
def ge : Dbl → Dbl → Bool
  | nan, _ => false
  | _, nan => false
  | pinf, _ => true
  | _, pinf => false
  | _, ninf => true
  | ninf, _ => false
  | a, b => decide ((b.toRat?.getD 0) ≤ (a.toRat?.getD 0))

/-- The value of a finite double as a rational; 0 for the infinities and
NaN. -/
def val (x : Dbl) : ℚ := x.toRat?.getD 0

/-- Whether a double is finite: neither an infinity nor NaN. -/
def isFinite (x : Dbl) : Bool := x.toRat?.isSome

end Dbl

/-! ## Periods and the estimate function -/

/-- The enumeration `Model_Budget::PERIOD_ENUM`; `MAX` is its last
enumerator and the size of the occurrence table. -/
inductive PERIOD_ENUM where
  | NONE | WEEKLY | BIWEEKLY | MONTHLY | BIMONTHLY | QUARTERLY | HALFYEARLY | YEARLY | DAILY | MAX
  deriving DecidableEq, Repr

namespace PERIOD_ENUM

/-- The integer value of an enumerator. -/
def toNat : PERIOD_ENUM → Nat
  | NONE => 0 | WEEKLY => 1 | BIWEEKLY => 2 | MONTHLY => 3 | BIMONTHLY => 4
  | QUARTERLY => 5 | HALFYEARLY => 6 | YEARLY => 7 | DAILY => 8 | MAX => 9

end PERIOD_ENUM

open PERIOD_ENUM

/-- The table `Model_Budget::PERIOD_ENUM_CHOICES`, in source order. -/
def PERIOD_ENUM_CHOICES : List (PERIOD_ENUM × String) :=
  [ (NONE, "None"), (WEEKLY, "Weekly"), (BIWEEKLY, "Fortnightly"), (MONTHLY, "Monthly"),
    (BIMONTHLY, "Every 2 Months"), (QUARTERLY, "Quarterly"), (HALFYEARLY, "Half-Yearly"),
    (YEARLY, "Yearly"), (DAILY, "Daily") ]

/-- The local table `p` of `getEstimate`: occurrences per year. -/
def p : List Int := [0, 52, 26, 12, 6, 4, 2, 1, 365]

/-- The function `Model_Budget::getEstimate`.  The table has `MAX` = 9 cells;
the source reads outside it for an index of 9 or more, which the model
renders as the default 0 of `getD`. -/
def getEstimate (is_monthly : Bool) (period : PERIOD_ENUM) (amount : Dbl) : Dbl :=
  let estimated := amount * Dbl.ofInt (p.getD period.toNat 0)
  if is_monthly then estimated / 12 else estimated

/-! ## Ordered maps -/

/-- The type `std::map<int, T>`: the bindings in ascending key order. -/
abbrev DMap (α : Type) := List (Int × α)

namespace DMap

/-- Lookup of a key (`find`). -/
def find? {α : Type} : DMap α → Int → Option α
  | [], _ => none
  | (k, v) :: rest, key => if key = k then some v else find? rest key

/-- The value read by `m[key]`: the stored value, or the value-initialised
default when the key is absent. -/
def getD {α : Type} (m : DMap α) (key : Int) (dflt : α) : α :=
  (m.find? key).getD dflt

/-- The assignment `m[key] = v`: replaces the binding of `key` or inserts one
at its place in key order. -/
def set {α : Type} : DMap α → Int → α → DMap α
  | [], key, v => [(key, v)]
  | (k, w) :: rest, key, v =>
      if key < k then (key, v) :: (k, w) :: rest
      else if key = k then (k, v) :: rest
      else (k, w) :: set rest key v

/-- The keys, in iteration order. -/
def keys {α : Type} (m : DMap α) : List Int := m.map Prod.fst

/-- The keys are in strictly ascending order. -/
def Sorted {α : Type} (m : DMap α) : Prop := m.keys.Pairwise (fun a b => a < b)

end DMap

/-- The type `std::map<int, std::map<int, double>>` of the statistics:
category id, then slot (0..11 the months, 12 the year). -/
abbrev Stats := DMap (DMap Dbl)

/-- The value read by `budgetStats[c][slot]`. -/
def cell (budgetStats : Stats) (c slot : Int) : Dbl :=
  (budgetStats.getD c []).getD slot 0

/-- The assignment `budgetStats[c][slot] = v`. -/
def setCell (budgetStats : Stats) (c slot : Int) (v : Dbl) : Stats :=
  budgetStats.set c ((budgetStats.getD c []).set slot v)

/-- The update `budgetStats[c][slot] += x`. -/
def addCell (budgetStats : Stats) (c slot : Int) (x : Dbl) : Stats :=
  setCell budgetStats c slot (cell budgetStats c slot + x)

/-! ## Records and collaborators -/

/-- A row of the budget table: the columns the class reads or writes (the
primary key stays with the store). -/
structure Data where
  BUDGETYEARID : Int
  CATEGID : Int
  PERIOD : String
  AMOUNT : Dbl
  NOTES : String
  deriving DecidableEq, Repr

/-- A row of the category table; only its id is used. -/
structure Category where
  CATEGID : Int
  deriving DecidableEq, Repr

/-- The collaborators of `Model_Budget`: the category registry
(`Model_Category::instance().all()`), the rows of the budget table in store
iteration order, the budget-year registry (`Get` resolves a name to an id,
`get` gives the name of an id, if any) and the two options. -/
structure Env where
  categories : List Category
  budgets : List Data
  Get : String → Int
  get : Int → Option String
  BudgetOverride : Bool
  BudgetDeductMonthly : Bool

/-- Modelled from the spec: the store query `find(BUDGETYEARID(id))`
(`findByYear`), the rows of one budget-year in store iteration order. -/
def find (budgets : List Data) (budgetYearID : Int) : List Data :=
  budgets.filter (fun r => decide (r.BUDGETYEARID = budgetYearID))

/-- Modelled from the spec: the store operation `save` applied to a clone,
which persists the entry as a new record after the existing ones. -/
def save (budgets : List Data) (budgetEntry : Data) : List Data :=
  budgets ++ [budgetEntry]

/-- The test `a.CmpNoCase(b) == 0`: equal lengths and equal characters once
lowered (ASCII letters). -/
def cmpNoCaseEq (a b : String) : Bool :=
  a.data.map Char.toLower == b.data.map Char.toLower

/-- The function `Model_Budget::period`: the first choice whose label
matches the stored text, `NONE` when none does. -/
def period (r : Data) : PERIOD_ENUM :=
  match PERIOD_ENUM_CHOICES.find? (fun entry => cmpNoCaseEq r.PERIOD entry.2) with
  | some entry => entry.1
  | none => NONE

/-! ## getBudgetEntry -/

/-- The three output maps of `getBudgetEntry`. -/
structure EntryMaps where
  budgetPeriod : DMap PERIOD_ENUM
  budgetAmt : DMap Dbl
  budgetNotes : DMap String

/-- The body of the first loop of `getBudgetEntry`. -/
def entryDefault (s : EntryMaps) (category : Category) : EntryMaps :=
  { s with
    budgetPeriod := s.budgetPeriod.set category.CATEGID NONE
    budgetAmt := s.budgetAmt.set category.CATEGID 0 }

/-- The body of the second loop of `getBudgetEntry`. -/
def entryOverlay (s : EntryMaps) (budget : Data) : EntryMaps :=
  { budgetPeriod := s.budgetPeriod.set budget.CATEGID (period budget)
    budgetAmt := s.budgetAmt.set budget.CATEGID budget.AMOUNT
    budgetNotes := s.budgetNotes.set budget.CATEGID budget.NOTES }

/-- The function `Model_Budget::getBudgetEntry`; the three maps are passed by
reference and come back updated. -/
def getBudgetEntry (env : Env) (budgetYearID : Int) (maps : EntryMaps) : EntryMaps :=
  (find env.budgets budgetYearID).foldl entryOverlay (env.categories.foldl entryDefault maps)

/-! ## getBudgetStats -/

/-- The month counter of the loops `for (int month = 0; month < 12; month++)`. -/
def months : List Int := [0, 1, 2, 3, 4, 5, 6, 7, 8, 9, 10, 11]

/-- The format `%02d` on a month number. -/
def fmt02 (d : Int) : String :=
  if 0 ≤ d ∧ d < 10 then "0" ++ toString d else toString d

/-- The name `wxString::Format("%s-%02d", year, month + 1)` of a monthly
budget-year. -/
def budgetYearMonth (year : String) (month : Int) : String :=
  year ++ "-" ++ fmt02 (month + 1)

/-- The local variables of `getBudgetStats`. -/
structure Locals where
  budgetStats : Stats
  monthlyBudgetValue : DMap Dbl
  yearlyBudgetValue : DMap Dbl
  yearDeduction : DMap Dbl
  isBudgeted : DMap Bool
  budgetedMonths : Int

/-- The initialisation loop: every month slot of every known category is set
to zero. -/
def initStats (categories : List Category) (budgetStats : Stats) : Stats :=
  categories.foldl
    (fun bs category => months.foldl (fun bs month => setCell bs category.CATEGID month 0) bs)
    budgetStats

/-- The body of the loop over the entries of the annual budget-year. -/
def annualStep (s : Locals) (budget : Data) : Locals :=
  let mbv := s.monthlyBudgetValue.set budget.CATEGID
    (getEstimate true (period budget) budget.AMOUNT)
  let ybv := s.yearlyBudgetValue.set budget.CATEGID
    (getEstimate false (period budget) budget.AMOUNT)
  { s with
    monthlyBudgetValue := mbv
    yearlyBudgetValue := ybv
    budgetStats := setCell s.budgetStats budget.CATEGID 12 (ybv.getD budget.CATEGID 0) }

/-- The body of the loop over the entries of one monthly budget-year. -/
def monthlyStep (month : Int) (s : Locals) (budget : Data) : Locals :=
  let s1 : Locals :=
    if s.isBudgeted.getD month false then s
    else { s with
           isBudgeted := s.isBudgeted.set month true
           budgetedMonths := s.budgetedMonths + 1 }
  let bs := setCell s1.budgetStats budget.CATEGID month
    (getEstimate true (period budget) budget.AMOUNT)
  { s1 with
    budgetStats := bs
    yearDeduction := s1.yearDeduction.set budget.CATEGID
      (s1.yearDeduction.getD budget.CATEGID 0 + cell bs budget.CATEGID month) }

/-- The first loop over the months: the explicit monthly budgets. -/
def monthlyPass (env : Env) (year : String) (s : Locals) : Locals :=
  months.foldl
    (fun s month =>
      (find env.budgets (env.Get (budgetYearMonth year month))).foldl (monthlyStep month) s)
    s

/-- The body of the loop over `yearlyBudgetValue` (deduct-monthly on). -/
def deductStep (budgetOverride : Bool) (s : Locals) (month : Int) (budgetStats : Stats)
    (categoryBudget : Int × Dbl) : Stats :=
  if Dbl.ge (s.yearDeduction.getD categoryBudget.1 0 / categoryBudget.2) 1 then budgetStats
  else
    let adjusted_amount := categoryBudget.2 - s.yearDeduction.getD categoryBudget.1 0
    if !budgetOverride then
      addCell budgetStats categoryBudget.1 month (adjusted_amount / 12)
    else if !(s.isBudgeted.getD month false) then
      setCell budgetStats categoryBudget.1 month
        (adjusted_amount / Dbl.ofInt (12 - s.budgetedMonths))
    else budgetStats

/-- The body of the loop over `monthlyBudgetValue` (deduct-monthly off). -/
def plainStep (budgetOverride : Bool) (s : Locals) (month : Int) (budgetStats : Stats)
    (categoryBudget : Int × Dbl) : Stats :=
  if !budgetOverride then
    addCell budgetStats categoryBudget.1 month categoryBudget.2
  else if !(s.isBudgeted.getD month false) then
    setCell budgetStats categoryBudget.1 month categoryBudget.2
  else budgetStats

/-- The second loop over the months: the yearly budget is spread. -/
def yearlyPass (env : Env) (s : Locals) : Stats :=
  months.foldl
    (fun bs month =>
      if env.BudgetDeductMonthly then
        s.yearlyBudgetValue.foldl (deductStep env.BudgetOverride s month) bs
      else
        s.monthlyBudgetValue.foldl (plainStep env.BudgetOverride s month) bs)
    s.budgetStats

/-- The block under `if (!groupByMonth)`: one slot 0 per category, the sum of
its twelve month slots. -/
def collapse (categories : List Category) (budgetStats : Stats) : Stats :=
  let yearlyBudgetStats : Stats :=
    categories.foldl (fun ys category => setCell ys category.CATEGID 0 0) []
  budgetStats.foldl
    (fun ys cat =>
      months.foldl (fun ys month => addCell ys cat.1 0 (cell budgetStats cat.1 month)) ys)
    yearlyBudgetStats

/-- The local variables once the initialisation loop has run. -/
def initLocals (env : Env) (budgetStats : Stats) : Locals :=
  { budgetStats := initStats env.categories budgetStats
    monthlyBudgetValue := []
    yearlyBudgetValue := []
    yearDeduction := []
    isBudgeted := []
    budgetedMonths := 0 }

/-- The statistics before the optional collapse. -/
def monthlyStats (env : Env) (budgetStats : Stats) (startYear : Int) : Stats :=
  let year : String := toString startYear
  let s1 := (find env.budgets (env.Get year)).foldl annualStep (initLocals env budgetStats)
  let s2 := monthlyPass env year s1
  yearlyPass env s2

/-- The function `Model_Budget::getBudgetStats`: `budgetStats` is the map
passed by reference, `startYear` the calendar year of the start date of the
date range. -/
def getBudgetStats (env : Env) (budgetStats : Stats) (startYear : Int)
    (groupByMonth : Bool) : Stats :=
  let stats := monthlyStats env budgetStats startYear
  if !groupByMonth then collapse env.categories stats else stats

/-! ## copyBudgetYear -/

/-- The locals `yearDeduction` and `budgetedMonths` of `copyBudgetYear`. -/
structure CopyLocals where
  yearDeduction : DMap Dbl
  budgetedMonths : Int

/-- The body of the loop over the months in `copyBudgetYear`; the year part
of the name is `newBudgetYearName.SubString(0,3)`, its first four characters. -/
def copyMonthStep (env : Env) (newBudgetYearName : String) (s : CopyLocals) (month : Int) :
    CopyLocals :=
  let name := budgetYearMonth (String.mk (newBudgetYearName.data.take 4)) month
  let monthlyBudgetData := find env.budgets (env.Get name)
  let budgetedMonths :=
    if !monthlyBudgetData.isEmpty then s.budgetedMonths + 1 else s.budgetedMonths
  { budgetedMonths := budgetedMonths
    yearDeduction := monthlyBudgetData.foldl
      (fun yd budget => yd.set budget.CATEGID
        (yd.getD budget.CATEGID 0 + getEstimate true (period budget) budget.AMOUNT))
      s.yearDeduction }

/-- The entry that the copy loop saves for one source entry. -/
def copyEntry (optionDeductMonthly : Bool) (s : CopyLocals) (newYearID : Int) (data : Data) :
    Data :=
  let budgetEntry := { data with BUDGETYEARID := newYearID }
  let yearAmount := getEstimate false (period data) data.AMOUNT
  if optionDeductMonthly && decide (s.budgetedMonths > 0) then
    let budgetEntry :=
      { budgetEntry with PERIOD := (PERIOD_ENUM_CHOICES.getD MONTHLY.toNat (NONE, "")).2 }
    if Dbl.lt (s.yearDeduction.getD budgetEntry.CATEGID 0 / yearAmount) 1 then
      { budgetEntry with
        AMOUNT := (yearAmount - s.yearDeduction.getD budgetEntry.CATEGID 0)
                    / Dbl.ofInt (12 - s.budgetedMonths) }
    else { budgetEntry with AMOUNT := 0 }
  else budgetEntry

/-- The function `Model_Budget::copyBudgetYear`: the rows of the budget table
after the call, or `none` when one of the two budget-years does not exist
(the source dereferences the null record). -/
def copyBudgetYear (env : Env) (newYearID baseYearID : Int) : Option (List Data) :=
  match env.get baseYearID, env.get newYearID with
  | some baseBudgetYearName, some newBudgetYearName =>
      let optionDeductMonthly := env.BudgetDeductMonthly &&
        (decide (baseBudgetYearName.length = 4) && decide (newBudgetYearName.length > 4))
      let s0 : CopyLocals := { yearDeduction := [], budgetedMonths := 0 }
      let s := if optionDeductMonthly then months.foldl (copyMonthStep env newBudgetYearName) s0
               else s0
      some ((find env.budgets baseYearID).foldl
        (fun budgets data => save budgets (copyEntry optionDeductMonthly s newYearID data))
        env.budgets)
  | _, _ => none

/-! ## Quantities the statements are phrased with -/

/-- The value `f b` at the last element `b` of a list, `a` for the empty list. -/
def lastOr {ι α : Type} (l : List ι) (f : ι → α) (a : α) : α :=
  match l.getLast? with
  | some b => f b
  | none => a

/-- The stored entries of the annual budget-year named `year`. -/
def annualEntries (env : Env) (year : String) : List Data :=
  find env.budgets (env.Get year)

/-- The stored entries of the monthly budget-year of month `month` (0..11)
of the year named `year`. -/
def monthEntries (env : Env) (year : String) (month : Int) : List Data :=
  find env.budgets (env.Get (budgetYearMonth year month))

/-- The entries of category `c` in a list of entries. -/
def ofCategory (c : Int) (l : List Data) : List Data :=
  l.filter (fun b => decide (b.CATEGID = c))

/-- The explicit monthly estimate E(c, m): the monthly estimate of the
category's entry in month `month` (of the last one, should there be several),
0 when it has none. -/
def explicitEstimate (env : Env) (year : String) (c month : Int) : Dbl :=
  lastOr (ofCategory c (monthEntries env year month))
    (fun b => getEstimate true (period b) b.AMOUNT) 0

/-- The total D(c) of the monthly estimates of all explicit monthly entries
of the category in the twelve monthly budget-years, added month after month
in store order. -/
def explicitTotal (env : Env) (year : String) (c : Int) : Dbl :=
  months.foldl
    (fun acc month => (ofCategory c (monthEntries env year month)).foldl
      (fun acc b => acc + getEstimate true (period b) b.AMOUNT) acc)
    0

/-- The number n of months that have at least one explicit entry, of any
category. -/
def budgetedCount (env : Env) (year : String) : Int :=
  ((months.filter (fun month => !(monthEntries env year month).isEmpty)).length : Int)

/-- The sum of the twelve month slots of a category, added to 0.0 from
month 0 to month 11 as the collapse does. -/
def monthSum (budgetStats : Stats) (c : Int) : Dbl :=
  months.foldl (fun acc month => acc + cell budgetStats c month) 0

/-- The effect of the deduct-monthly branch on the month slot of a category
whose yearly estimate is `y`: `a` is the slot before, `d` the category's
accumulated deduction, `budgeted` whether the month has an explicit budget and
`n` the number of such months. -/
def deductSlot (budgetOverride : Bool) (d : Dbl) (budgeted : Bool) (n : Int) (y a : Dbl) : Dbl :=
  if Dbl.ge (d / y) 1 then a
  else if !budgetOverride then a + (y - d) / 12
  else if !budgeted then (y - d) / Dbl.ofInt (12 - n)
  else a

/-- The effect of the other branch on a month slot: `v` is the category's
monthly estimate of its yearly budget. -/
def plainSlot (budgetOverride : Bool) (budgeted : Bool) (v a : Dbl) : Dbl :=
  if !budgetOverride then a + v
  else if !budgeted then v
  else a

/-- The binding of `budgetStats[c][slot]`, if the map has one. -/
def slot? (budgetStats : Stats) (c slot : Int) : Option Dbl :=
  (DMap.find? budgetStats c).bind (fun inner => DMap.find? inner slot)

/-- The local variables of `getBudgetStats` when the second pass over the
months starts. -/
def passLocals (env : Env) (budgetStats : Stats) (startYear : Int) : Locals :=
  monthlyPass env (toString startYear)
    ((find env.budgets (env.Get (toString startYear))).foldl annualStep
      (initLocals env budgetStats))

/-- The path condition of the statement
`budgetStats[..][month] = adjusted_amount / (12 - budgetedMonths)` in the
deduct-monthly branch of `getBudgetStats`: the ratio test did not skip the
category, override is on and the month is not budgeted. -/
def reachesShareDivision (budgetOverride : Bool) (s : Locals) (month : Int)
    (categoryBudget : Int × Dbl) : Bool :=
  !(Dbl.ge (s.yearDeduction.getD categoryBudget.1 0 / categoryBudget.2) 1)
    && budgetOverride && !(s.isBudgeted.getD month false)

/-- The text `t` is `label` written in some letter case: same length, and
each character is that of the label, its upper case or its lower case. -/
def caseVariant (t label : String) : Prop :=
  List.Forall₂ (fun a b => a = b ∨ a = b.toUpper ∨ a = b.toLower) t.data label.data

/-! ## Sample data -/

/-- A small instance: the categories 1 and 2; the annual budget-year "2024"
(id 10) with a Yearly entry of 1200 for category 1; the monthly budget-years
"2024-01" (id 11), with an entry of 50 for category 1, and "2024-03" (id 12),
with a Weekly entry of 1 for the unregistered category 3; the budget-years
"2024-05" (id 13) and "2025" (id 20) exist and are empty. -/
def sampleEnv (budgetOverride budgetDeductMonthly : Bool) : Env :=
  { categories := [⟨1⟩, ⟨2⟩]
    budgets := [⟨10, 1, "Yearly", 1200, ""⟩, ⟨11, 1, "monthly", 50, "rent"⟩,
                ⟨12, 3, "Weekly", 1, ""⟩]
    Get := fun name =>
      if name = "2024" then 10 else if name = "2024-01" then 11
      else if name = "2024-03" then 12 else if name = "2024-05" then 13
      else if name = "2025" then 20 else -1
    get := fun id =>
      if id = 10 then some "2024" else if id = 11 then some "2024-01"
      else if id = 12 then some "2024-03" else if id = 13 then some "2024-05"
      else if id = 20 then some "2025" else none
    BudgetOverride := budgetOverride
    BudgetDeductMonthly := budgetDeductMonthly }

/-- The sample registries and options with another budget table. -/
def envOf (budgets : List Data) (budgetOverride budgetDeductMonthly : Bool) : Env :=
  { sampleEnv budgetOverride budgetDeductMonthly with budgets := budgets }

/-- A year whose twelve monthly budget-years "2024-01" .. "2024-12" (ids 101
.. 112) each hold an entry of 10 for category 1, next to the annual
budget-year "2024" (id 10) with a Yearly entry of 1200 for that category;
the deduct-monthly option is on. -/
def fullYearEnv : Env :=
  { categories := [⟨1⟩]
    budgets := ⟨10, 1, "Yearly", 1200, ""⟩ ::
      months.map (fun month => ⟨101 + month, 1, "Monthly", 10, ""⟩)
    Get := fun name =>
      if name = "2024" then 10
      else ((months.find? (fun month => budgetYearMonth "2024" month == name)).map
        (fun month => 101 + month)).getD (-1)
    get := fun id =>
      if id = 10 then some "2024"
      else (months.find? (fun month => 101 + month == id)).map
        (fun month => budgetYearMonth "2024" month)
    BudgetOverride := true
    BudgetDeductMonthly := true }

/-! # Theorems -/

/-! ## Folds -/

theorem foldl_obs {σ ι α : Type} (step : σ → ι → σ) (obs : σ → α) (g : ι → α → α)
    (h : ∀ s x, obs (step s x) = g x (obs s)) (l : List ι) (s : σ) :
    obs (l.foldl step s) = l.foldl (fun a x => g x a) (obs s) := by
  induction l generalizing s with
  | nil => rfl
  | cons x xs ih => simp only [List.foldl_cons, ih, h]

theorem foldl_inv {σ ι : Type} (step : σ → ι → σ) (P : σ → Prop)
    (h : ∀ s x, P s → P (step s x)) (l : List ι) (s : σ) (hs : P s) :
    P (l.foldl step s) := by
  induction l generalizing s with
  | nil => exact hs
  | cons x xs ih => exact ih _ (h s x hs)

theorem foldl_ite_last {ι α : Type} (q : ι → Bool) (f : ι → α) (l : List ι) (a : α) :
    l.foldl (fun a x => if q x then f x else a) a = lastOr (l.filter q) f a := by
  unfold lastOr
  induction l using List.reverseRecOn with
  | nil => rfl
  | append_singleton xs x ih =>
    simp only [List.foldl_append, List.foldl_cons, List.foldl_nil, List.filter_append]
    by_cases hq : q x = true
    · simp [List.filter_cons, hq]
    · simp [List.filter_cons, hq, ih]

theorem foldl_ite_filter {ι α : Type} (q : ι → Bool) (f : α → ι → α) (l : List ι) (a : α) :
    l.foldl (fun a x => if q x then f a x else a) a = (l.filter q).foldl f a := by
  induction l generalizing a with
  | nil => rfl
  | cons x xs ih =>
    by_cases hq : q x = true
    · simp [List.filter_cons, hq, ih]
    · simp [List.filter_cons, hq, ih]

theorem foldl_ite_single {α : Type} (m : Int) (G : α → α) (l : List Int) (hl : l.Nodup) (a : α) :
    l.foldl (fun a x => if x = m then G a else a) a = if m ∈ l then G a else a := by
  induction l generalizing a with
  | nil => rfl
  | cons x xs ih =>
    have hx : x ∉ xs := (List.nodup_cons.mp hl).1
    have hxs : xs.Nodup := (List.nodup_cons.mp hl).2
    simp only [List.foldl_cons, ih hxs]
    by_cases hxm : x = m
    · subst hxm; simp [hx]
    · have : ¬ m = x := fun h => hxm h.symm
      simp [hxm, this]

namespace DMap

theorem find?_set {α : Type} (m : DMap α) (k : Int) (v : α) (key : Int) :
    (m.set k v).find? key = if key = k then some v else m.find? key := by
  induction m with
  | nil => simp [set, find?]
  | cons hd tl ih =>
    obtain ⟨k', w⟩ := hd
    simp only [set]
    by_cases h1 : k < k'
    · simp [h1, find?]
    · by_cases h2 : k = k'
      · subst h2
        by_cases h3 : key = k <;> simp [find?, h3]
      · simp only [h1, h2, if_false, find?, ih]
        by_cases h3 : key = k'
        · have h4 : ¬ k' = k := fun h => h2 h.symm
          simp [h3, h4]
        · simp [h3]

theorem getD_set {α : Type} (m : DMap α) (k : Int) (v : α) (key : Int) (d : α) :
    (m.set k v).getD key d = if key = k then v else m.getD key d := by
  unfold getD
  rw [find?_set]
  by_cases h : key = k <;> simp [h]

theorem sorted_nil {α : Type} : Sorted ([] : DMap α) := List.Pairwise.nil

theorem mem_keys_set {α : Type} (m : DMap α) (k : Int) (v : α) (x : Int) :
    x ∈ (m.set k v).keys ↔ x = k ∨ x ∈ m.keys := by
  induction m with
  | nil => simp [set, keys]
  | cons hd tl ih =>
    obtain ⟨k', w⟩ := hd
    simp only [set]
    by_cases h1 : k < k'
    · simp [h1, keys]
    · by_cases h2 : k = k'
      · subst h2; simp [keys]
      · simp only [keys] at ih
        simp only [h1, h2, if_false, keys, List.map_cons, List.mem_cons, ih]
        tauto

theorem sorted_set {α : Type} (m : DMap α) (k : Int) (v : α) (h : Sorted m) :
    Sorted (m.set k v) := by
  induction m with
  | nil => simp [set, Sorted, keys]
  | cons hd tl ih =>
    obtain ⟨k', w⟩ := hd
    have htl : Sorted tl := (List.pairwise_cons.mp h).2
    have hhd : ∀ x ∈ keys tl, k' < x := (List.pairwise_cons.mp h).1
    simp only [set]
    by_cases h1 : k < k'
    · simp only [h1, if_true]
      refine List.pairwise_cons.mpr ⟨?_, h⟩
      intro x hx
      simp only [keys, List.map_cons, List.mem_cons] at hx
      rcases hx with hx | hx
      · omega
      · have := hhd x hx; omega
    · by_cases h2 : k = k'
      · subst h2
        simp only [lt_self_iff_false, if_false, if_true]
        exact h
      · simp only [h1, h2, if_false]
        refine List.pairwise_cons.mpr ⟨?_, ih htl⟩
        intro x hx
        have hx' := (mem_keys_set tl k v x).mp hx
        rcases hx' with hx' | hx'
        · omega
        · exact hhd x hx'

theorem find?_eq_none_of_not_mem {α : Type} (m : DMap α) (c : Int) (h : c ∉ m.keys) :
    m.find? c = none := by
  induction m with
  | nil => rfl
  | cons hd tl ih =>
    obtain ⟨k, w⟩ := hd
    simp only [keys, List.map_cons, List.mem_cons, not_or] at h
    simp only [find?, h.1, if_false]
    exact ih h.2

theorem find?_isSome_iff {α : Type} (m : DMap α) (c : Int) :
    (m.find? c).isSome ↔ c ∈ m.keys := by
  induction m with
  | nil => simp [find?, keys]
  | cons hd tl ih =>
    obtain ⟨k, w⟩ := hd
    simp only [keys] at ih
    by_cases h : c = k
    · simp [find?, keys, h]
    · simp [find?, keys, h, ih]

/-- A loop over a map whose body acts on an observable only at the key `c`
acts once, with the value bound to `c`. -/
theorem foldl_at_key {α β : Type} (m : DMap α) (hm : Sorted m) (c : Int) (g : α → β → β) (a : β) :
    m.foldl (fun a kv => if kv.1 = c then g kv.2 a else a) a
      = (find? m c).elim a (fun y => g y a) := by
  induction m generalizing a with
  | nil => rfl
  | cons hd tl ih =>
    obtain ⟨k, w⟩ := hd
    have htl : Sorted tl := (List.pairwise_cons.mp hm).2
    have hhd : ∀ x ∈ keys tl, k < x := (List.pairwise_cons.mp hm).1
    simp only [List.foldl_cons, ih htl]
    by_cases h : k = c
    · subst h
      have : k ∉ keys tl := fun hx => by have := hhd k hx; omega
      simp [find?, find?_eq_none_of_not_mem tl k this]
    · have h' : ¬ c = k := fun e => h e.symm
      simp [find?, h, h']

end DMap

/-! ## Cells of the statistics -/

theorem cell_setCell (bs : Stats) (c m : Int) (v : Dbl) (c' m' : Int) :
    cell (setCell bs c m v) c' m' = if c' = c ∧ m' = m then v else cell bs c' m' := by
  unfold cell setCell
  rw [DMap.getD_set]
  by_cases hc : c' = c
  · subst hc
    rw [if_pos rfl, DMap.getD_set]
    by_cases hm : m' = m <;> simp [hm]
  · simp [hc]

theorem cell_addCell (bs : Stats) (c m : Int) (x : Dbl) (c' m' : Int) :
    cell (addCell bs c m x) c' m' = if c' = c ∧ m' = m then cell bs c m + x else cell bs c' m' := by
  unfold addCell
  rw [cell_setCell]

theorem find?_setCell (bs : Stats) (c m : Int) (v : Dbl) (c' : Int) :
    DMap.find? (setCell bs c m v) c'
      = if c' = c then some (DMap.set (DMap.getD bs c []) m v) else DMap.find? bs c' := by
  unfold setCell
  rw [DMap.find?_set]

theorem sorted_setCell (bs : Stats) (c m : Int) (v : Dbl) (h : DMap.Sorted bs) :
    DMap.Sorted (setCell bs c m v) :=
  DMap.sorted_set _ _ _ h

theorem sorted_addCell (bs : Stats) (c m : Int) (x : Dbl) (h : DMap.Sorted bs) :
    DMap.Sorted (addCell bs c m x) :=
  DMap.sorted_set _ _ _ h

theorem mem_keys_setCell (bs : Stats) (c m : Int) (v : Dbl) (x : Int) :
    x ∈ DMap.keys (setCell bs c m v) ↔ x = c ∨ x ∈ DMap.keys bs :=
  DMap.mem_keys_set _ _ _ _

theorem mem_keys_addCell (bs : Stats) (c m : Int) (v : Dbl) (x : Int) :
    x ∈ DMap.keys (addCell bs c m v) ↔ x = c ∨ x ∈ DMap.keys bs :=
  DMap.mem_keys_set _ _ _ _

theorem months_nodup : months.Nodup := by decide

theorem twelve_not_mem_months : (12 : Int) ∉ months := by decide

/-! ## The initialisation loop -/

theorem cell_zeroMonths (bs : Stats) (k c m : Int) :
    cell (months.foldl (fun bs month => setCell bs k month 0) bs) c m
      = if c = k ∧ m ∈ months then 0 else cell bs c m := by
  rw [foldl_obs (fun bs month => setCell bs k month 0) (fun t => cell t c m)
    (fun month a => if month = m then (if c = k then 0 else a) else a)]
  · rw [foldl_ite_single m _ months months_nodup]
    by_cases hm : m ∈ months
    · by_cases hc : c = k <;> simp [hm, hc]
    · simp [hm]
  · intro t month
    rw [cell_setCell]
    by_cases hm : month = m
    · subst hm
      by_cases hc : c = k <;> simp [hc]
    · have : ¬ m = month := fun e => hm e.symm
      simp [hm, this]

/-- After the initialisation loop a month slot of a known category reads
zero; the other cells are as before. -/
theorem cell_initStats (categories : List Category) (bs : Stats) (c m : Int)
    (hm : m ∈ months) :
    cell (initStats categories bs) c m
      = if c ∈ categories.map Category.CATEGID then 0 else cell bs c m := by
  unfold initStats
  induction categories using List.reverseRecOn with
  | nil => rfl
  | append_singleton xs x ih =>
    simp only [List.foldl_append, List.foldl_cons, List.foldl_nil, cell_zeroMonths, ih,
      List.map_append, List.map_cons, List.map_nil, List.mem_append, List.mem_singleton]
    by_cases hc : c = x.CATEGID
    · simp [hc, hm]
    · simp [hc]

theorem cell_initStats_zero (categories : List Category) (bs : Stats) (c m : Int)
    (hm : m ∈ months) (hc : c ∈ categories.map Category.CATEGID ∨ bs = []) :
    cell (initStats categories bs) c m = 0 := by
  rw [cell_initStats _ _ _ _ hm]
  rcases hc with hc | hc
  · rw [if_pos hc]
  · subst hc
    split <;> rfl

theorem sorted_initStats (categories : List Category) (bs : Stats) (h : DMap.Sorted bs) :
    DMap.Sorted (initStats categories bs) := by
  unfold initStats
  refine foldl_inv _ DMap.Sorted ?_ categories bs h
  intro bs category hbs
  exact foldl_inv _ DMap.Sorted (fun bs month hbs => sorted_setCell _ _ _ _ hbs) months bs hbs

/-! ## The loop over the annual entries -/

theorem annual_cell (l : List Data) (s : Locals) (c m : Int) (hm : m ≠ 12) :
    cell (l.foldl annualStep s).budgetStats c m = cell s.budgetStats c m := by
  refine foldl_inv annualStep (fun t => cell t.budgetStats c m = cell s.budgetStats c m) ?_ l s rfl
  intro t budget ht
  simp only [annualStep, cell_setCell, hm, and_false, if_false]
  exact ht

theorem annual_yearly (l : List Data) (s : Locals) (c : Int) :
    DMap.find? (l.foldl annualStep s).yearlyBudgetValue c
      = lastOr (l.filter (fun b => decide (b.CATEGID = c)))
          (fun b => some (getEstimate false (period b) b.AMOUNT)) (DMap.find? s.yearlyBudgetValue c) := by
  rw [foldl_obs annualStep (fun t => DMap.find? t.yearlyBudgetValue c)
    (fun b a => if decide (b.CATEGID = c) then some (getEstimate false (period b) b.AMOUNT) else a)]
  · exact foldl_ite_last (fun b => decide (b.CATEGID = c))
      (fun b => some (getEstimate false (period b) b.AMOUNT)) l _
  · intro t b
    simp only [annualStep, DMap.find?_set, decide_eq_true_eq]
    by_cases h : b.CATEGID = c
    · simp [h]
    · have : ¬ c = b.CATEGID := fun e => h e.symm
      simp [h, this]

theorem annual_monthly (l : List Data) (s : Locals) (c : Int) :
    DMap.find? (l.foldl annualStep s).monthlyBudgetValue c
      = lastOr (l.filter (fun b => decide (b.CATEGID = c)))
          (fun b => some (getEstimate true (period b) b.AMOUNT)) (DMap.find? s.monthlyBudgetValue c) := by
  rw [foldl_obs annualStep (fun t => DMap.find? t.monthlyBudgetValue c)
    (fun b a => if decide (b.CATEGID = c) then some (getEstimate true (period b) b.AMOUNT) else a)]
  · exact foldl_ite_last (fun b => decide (b.CATEGID = c))
      (fun b => some (getEstimate true (period b) b.AMOUNT)) l _
  · intro t b
    simp only [annualStep, DMap.find?_set, decide_eq_true_eq]
    by_cases h : b.CATEGID = c
    · simp [h]
    · have : ¬ c = b.CATEGID := fun e => h e.symm
      simp [h, this]

theorem annual_sorted (l : List Data) (s : Locals)
    (h : DMap.Sorted s.budgetStats ∧ DMap.Sorted s.yearlyBudgetValue
      ∧ DMap.Sorted s.monthlyBudgetValue) :
    DMap.Sorted (l.foldl annualStep s).budgetStats
      ∧ DMap.Sorted (l.foldl annualStep s).yearlyBudgetValue
      ∧ DMap.Sorted (l.foldl annualStep s).monthlyBudgetValue := by
  refine foldl_inv annualStep (fun t => DMap.Sorted t.budgetStats ∧ DMap.Sorted t.yearlyBudgetValue
      ∧ DMap.Sorted t.monthlyBudgetValue) ?_ l s h
  intro t b ht
  exact ⟨sorted_setCell _ _ _ _ ht.1, DMap.sorted_set _ _ _ ht.2.1, DMap.sorted_set _ _ _ ht.2.2⟩

theorem annual_values_sorted (l : List Data) (s : Locals)
    (h : DMap.Sorted s.yearlyBudgetValue ∧ DMap.Sorted s.monthlyBudgetValue) :
    DMap.Sorted (l.foldl annualStep s).yearlyBudgetValue
      ∧ DMap.Sorted (l.foldl annualStep s).monthlyBudgetValue := by
  refine foldl_inv annualStep (fun t => DMap.Sorted t.yearlyBudgetValue
      ∧ DMap.Sorted t.monthlyBudgetValue) ?_ l s h
  intro t b ht
  exact ⟨DMap.sorted_set _ _ _ ht.1, DMap.sorted_set _ _ _ ht.2⟩

theorem annual_rest (l : List Data) (s : Locals) :
    (l.foldl annualStep s).yearDeduction = s.yearDeduction
      ∧ (l.foldl annualStep s).isBudgeted = s.isBudgeted
      ∧ (l.foldl annualStep s).budgetedMonths = s.budgetedMonths := by
  refine foldl_inv annualStep (fun t => t.yearDeduction = s.yearDeduction
      ∧ t.isBudgeted = s.isBudgeted ∧ t.budgetedMonths = s.budgetedMonths) ?_ l s ⟨rfl, rfl, rfl⟩
  intro t b ht
  exact ht

/-! ## The loop over the monthly budget-years -/

theorem monthlyStep_cell (month : Int) (s : Locals) (b : Data) (c m : Int) :
    cell (monthlyStep month s b).budgetStats c m
      = if decide (b.CATEGID = c) ∧ m = month then getEstimate true (period b) b.AMOUNT
        else cell s.budgetStats c m := by
  unfold monthlyStep
  by_cases hb : DMap.getD s.isBudgeted month false = true
  · simp only [hb, if_true, cell_setCell, decide_eq_true_eq]
    by_cases h : b.CATEGID = c
    · simp [h]
    · have : ¬ c = b.CATEGID := fun e => h e.symm
      simp [h, this]
  · simp only [hb, if_false, cell_setCell, decide_eq_true_eq]
    by_cases h : b.CATEGID = c
    · simp [h]
    · have : ¬ c = b.CATEGID := fun e => h e.symm
      simp [h, this]

theorem monthlyStep_deduction (month : Int) (s : Locals) (b : Data) (c : Int) :
    DMap.getD (monthlyStep month s b).yearDeduction c 0
      = if decide (b.CATEGID = c)
        then DMap.getD s.yearDeduction c 0 + getEstimate true (period b) b.AMOUNT
        else DMap.getD s.yearDeduction c 0 := by
  unfold monthlyStep
  by_cases hb : DMap.getD s.isBudgeted month false = true
  · simp only [hb, if_true, DMap.getD_set, cell_setCell, decide_eq_true_eq]
    by_cases h : b.CATEGID = c
    · simp [h]
    · have : ¬ c = b.CATEGID := fun e => h e.symm
      simp [h, this]
  · simp only [hb, if_false, DMap.getD_set, cell_setCell, decide_eq_true_eq]
    by_cases h : b.CATEGID = c
    · simp [h]
    · have : ¬ c = b.CATEGID := fun e => h e.symm
      simp [h, this]

theorem monthlyStep_budgeted (month : Int) (s : Locals) (b : Data) (m : Int) :
    DMap.getD (monthlyStep month s b).isBudgeted m false
      = if m = month then true else DMap.getD s.isBudgeted m false := by
  unfold monthlyStep
  by_cases hb : DMap.getD s.isBudgeted month false = true
  · simp only [hb, if_true]
    by_cases h : m = month
    · simp [h, hb]
    · simp [h]
  · simp [hb, DMap.getD_set]

theorem monthlyStep_count (month : Int) (s : Locals) (b : Data) :
    (monthlyStep month s b).budgetedMonths
      = if DMap.getD s.isBudgeted month false then s.budgetedMonths
        else s.budgetedMonths + 1 := by
  unfold monthlyStep
  by_cases hb : DMap.getD s.isBudgeted month false = true
  · simp [hb]
  · simp [hb]

theorem monthlyStep_values (month : Int) (s : Locals) (b : Data) :
    (monthlyStep month s b).yearlyBudgetValue = s.yearlyBudgetValue
      ∧ (monthlyStep month s b).monthlyBudgetValue = s.monthlyBudgetValue := by
  unfold monthlyStep
  by_cases hb : DMap.getD s.isBudgeted month false = true
  · simp [hb]
  · simp [hb]

theorem monthlyStep_sorted (month : Int) (s : Locals) (b : Data)
    (h : DMap.Sorted s.budgetStats) : DMap.Sorted (monthlyStep month s b).budgetStats := by
  unfold monthlyStep
  by_cases hb : DMap.getD s.isBudgeted month false = true
  · simp only [hb, if_true]; exact sorted_setCell _ _ _ _ h
  · have hb' : DMap.getD s.isBudgeted month false = false := by simpa using hb
    simp only [hb']; exact sorted_setCell _ _ _ _ h

/-- The loop over the entries of one month. -/
theorem monthLoop_cell (month : Int) (l : List Data) (s : Locals) (c m : Int) :
    cell (l.foldl (monthlyStep month) s).budgetStats c m
      = if m = month
        then lastOr (l.filter (fun b => decide (b.CATEGID = c)))
          (fun b => getEstimate true (period b) b.AMOUNT) (cell s.budgetStats c m)
        else cell s.budgetStats c m := by
  by_cases hm : m = month
  · rw [if_pos hm, ← foldl_ite_last]
    rw [foldl_obs (monthlyStep month) (fun t => cell t.budgetStats c m)
      (fun b a => if decide (b.CATEGID = c) then getEstimate true (period b) b.AMOUNT else a)]
    intro t b
    rw [monthlyStep_cell]
    simp [hm]
  · rw [if_neg hm]
    refine foldl_inv (monthlyStep month)
      (fun t => cell t.budgetStats c m = cell s.budgetStats c m) ?_ l s rfl
    intro t b ht
    rw [monthlyStep_cell]
    simp only [hm, and_false, if_false]
    exact ht

theorem monthLoop_deduction (month : Int) (l : List Data) (s : Locals) (c : Int) :
    DMap.getD (l.foldl (monthlyStep month) s).yearDeduction c 0
      = (l.filter (fun b => decide (b.CATEGID = c))).foldl
          (fun acc b => acc + getEstimate true (period b) b.AMOUNT)
          (DMap.getD s.yearDeduction c 0) := by
  rw [← foldl_ite_filter]
  rw [foldl_obs (monthlyStep month) (fun t => DMap.getD t.yearDeduction c 0)
    (fun b a => if decide (b.CATEGID = c) then a + getEstimate true (period b) b.AMOUNT else a)]
  intro t b
  exact monthlyStep_deduction month t b c

theorem monthLoop_budgeted (month : Int) (l : List Data) (s : Locals) (m : Int) :
    DMap.getD (l.foldl (monthlyStep month) s).isBudgeted m false
      = if m = month ∧ l ≠ [] then true else DMap.getD s.isBudgeted m false := by
  induction l generalizing s with
  | nil => simp
  | cons b bs ih =>
    simp only [List.foldl_cons, ih, monthlyStep_budgeted]
    by_cases hm : m = month
    · by_cases hbs : bs = [] <;> simp [hm, hbs]
    · simp [hm]

theorem monthLoop_count (month : Int) (l : List Data) (s : Locals) :
    (l.foldl (monthlyStep month) s).budgetedMonths
      = if DMap.getD s.isBudgeted month false = false ∧ l ≠ [] then s.budgetedMonths + 1
        else s.budgetedMonths := by
  induction l generalizing s with
  | nil => simp
  | cons b bs ih =>
    simp only [List.foldl_cons, ih, monthlyStep_budgeted, monthlyStep_count]
    by_cases hb : DMap.getD s.isBudgeted month false = true
    · simp [hb]
    · simp [hb]

theorem monthLoop_values (month : Int) (l : List Data) (s : Locals) :
    (l.foldl (monthlyStep month) s).yearlyBudgetValue = s.yearlyBudgetValue
      ∧ (l.foldl (monthlyStep month) s).monthlyBudgetValue = s.monthlyBudgetValue := by
  refine foldl_inv (monthlyStep month) (fun t => t.yearlyBudgetValue = s.yearlyBudgetValue
    ∧ t.monthlyBudgetValue = s.monthlyBudgetValue) ?_ l s ⟨rfl, rfl⟩
  intro t b ht
  have := monthlyStep_values month t b
  exact ⟨this.1.trans ht.1, this.2.trans ht.2⟩

theorem monthLoop_sorted (month : Int) (l : List Data) (s : Locals)
    (h : DMap.Sorted s.budgetStats) :
    DMap.Sorted (l.foldl (monthlyStep month) s).budgetStats :=
  foldl_inv (monthlyStep month) (fun t => DMap.Sorted t.budgetStats)
    (fun t b ht => monthlyStep_sorted month t b ht) l s h

/-! ## The whole first pass over the months -/

theorem monthsLoop_cell (ent : Int → List Data) (ms : List Int) (hms : ms.Nodup)
    (s : Locals) (c m : Int) :
    cell (ms.foldl (fun s month => (ent month).foldl (monthlyStep month) s) s).budgetStats c m
      = if m ∈ ms
        then lastOr ((ent m).filter (fun b => decide (b.CATEGID = c)))
          (fun b => getEstimate true (period b) b.AMOUNT) (cell s.budgetStats c m)
        else cell s.budgetStats c m := by
  rw [foldl_obs (fun s month => (ent month).foldl (monthlyStep month) s)
    (fun t => cell t.budgetStats c m)
    (fun month a => if month = m
      then lastOr ((ent m).filter (fun b => decide (b.CATEGID = c)))
        (fun b => getEstimate true (period b) b.AMOUNT) a
      else a)]
  · exact foldl_ite_single m _ ms hms _
  · intro t month
    simp only [monthLoop_cell]
    by_cases h : month = m
    · subst h; simp
    · have : ¬ m = month := fun e => h e.symm
      simp [h, this]

theorem monthsLoop_deduction (ent : Int → List Data) (ms : List Int) (s : Locals) (c : Int) :
    DMap.getD (ms.foldl (fun s month => (ent month).foldl (monthlyStep month) s) s).yearDeduction c 0
      = ms.foldl (fun acc month => ((ent month).filter (fun b => decide (b.CATEGID = c))).foldl
          (fun acc b => acc + getEstimate true (period b) b.AMOUNT) acc)
          (DMap.getD s.yearDeduction c 0) := by
  rw [foldl_obs (fun s month => (ent month).foldl (monthlyStep month) s)
    (fun t => DMap.getD t.yearDeduction c 0)
    (fun month acc => ((ent month).filter (fun b => decide (b.CATEGID = c))).foldl
          (fun acc b => acc + getEstimate true (period b) b.AMOUNT) acc)]
  intro t month
  exact monthLoop_deduction month (ent month) t c

theorem monthsLoop_budgeted (ent : Int → List Data) (ms : List Int) (hms : ms.Nodup)
    (s : Locals) (h0 : ∀ m ∈ ms, DMap.getD s.isBudgeted m false = false) :
    (∀ m, DMap.getD
        (ms.foldl (fun s month => (ent month).foldl (monthlyStep month) s) s).isBudgeted m false
        = if m ∈ ms then !(ent m).isEmpty else DMap.getD s.isBudgeted m false)
    ∧ (ms.foldl (fun s month => (ent month).foldl (monthlyStep month) s) s).budgetedMonths
        = s.budgetedMonths + ((ms.filter (fun m => !(ent m).isEmpty)).length : Int) := by
  induction ms generalizing s with
  | nil => simp
  | cons x xs ih =>
    have hx : x ∉ xs := (List.nodup_cons.mp hms).1
    have hxs : xs.Nodup := (List.nodup_cons.mp hms).2
    have hsx : DMap.getD s.isBudgeted x false = false := h0 x (List.mem_cons_self _ _)
    have h1 : ∀ m ∈ xs,
        DMap.getD ((ent x).foldl (monthlyStep x) s).isBudgeted m false = false := by
      intro m hm
      have hmx : ¬ m = x := fun e => hx (e ▸ hm)
      rw [monthLoop_budgeted]
      simp only [hmx, false_and, if_false]
      exact h0 m (List.mem_cons_of_mem _ hm)
    obtain ⟨ihB, ihN⟩ := ih hxs ((ent x).foldl (monthlyStep x) s) h1
    simp only [List.foldl_cons]
    refine ⟨?_, ?_⟩
    · intro m
      rw [ihB m, monthLoop_budgeted]
      by_cases hm : m = x
      · subst hm
        cases hE : ent m <;> simp [hx, hsx]
      · simp [hm]
    · rw [ihN, monthLoop_count, hsx]
      cases hE : ent x with
      | nil => simp [List.filter_cons, hE]
      | cons b bs => simp [List.filter_cons, hE]; omega

theorem monthsLoop_values (ent : Int → List Data) (ms : List Int) (s : Locals) :
    (ms.foldl (fun s month => (ent month).foldl (monthlyStep month) s) s).yearlyBudgetValue
        = s.yearlyBudgetValue
      ∧ (ms.foldl (fun s month => (ent month).foldl (monthlyStep month) s) s).monthlyBudgetValue
        = s.monthlyBudgetValue := by
  refine foldl_inv (fun s month => (ent month).foldl (monthlyStep month) s)
    (fun t => t.yearlyBudgetValue = s.yearlyBudgetValue
      ∧ t.monthlyBudgetValue = s.monthlyBudgetValue) ?_ ms s ⟨rfl, rfl⟩
  intro t month ht
  have := monthLoop_values month (ent month) t
  exact ⟨this.1.trans ht.1, this.2.trans ht.2⟩

theorem monthsLoop_sorted (ent : Int → List Data) (ms : List Int) (s : Locals)
    (h : DMap.Sorted s.budgetStats) :
    DMap.Sorted (ms.foldl (fun s month => (ent month).foldl (monthlyStep month) s) s).budgetStats :=
  foldl_inv (fun s month => (ent month).foldl (monthlyStep month) s)
    (fun t => DMap.Sorted t.budgetStats)
    (fun t month ht => monthLoop_sorted month (ent month) t ht) ms s h

/-! ## The second pass over the months -/

theorem deductStep_cell (ov : Bool) (s : Locals) (month : Int) (bs : Stats) (kv : Int × Dbl)
    (c m : Int) :
    cell (deductStep ov s month bs kv) c m
      = if kv.1 = c ∧ m = month
        then deductSlot ov (DMap.getD s.yearDeduction c 0) (DMap.getD s.isBudgeted m false)
          s.budgetedMonths kv.2 (cell bs c m)
        else cell bs c m := by
  unfold deductStep deductSlot
  by_cases h : kv.1 = c ∧ m = month
  · obtain ⟨h1, h2⟩ := h
    subst h1; subst h2
    simp only [and_self, if_true]
    split
    · rfl
    · split
      · simp [cell_addCell]
      · split
        · simp [cell_setCell]
        · rfl
  · rw [if_neg h]
    have h' : ¬ (c = kv.1 ∧ m = month) := fun e => h ⟨e.1.symm, e.2⟩
    split
    · rfl
    · split
      · simp [cell_addCell, h']
      · split
        · simp [cell_setCell, h']
        · rfl

theorem plainStep_cell (ov : Bool) (s : Locals) (month : Int) (bs : Stats) (kv : Int × Dbl)
    (c m : Int) :
    cell (plainStep ov s month bs kv) c m
      = if kv.1 = c ∧ m = month
        then plainSlot ov (DMap.getD s.isBudgeted m false) kv.2 (cell bs c m)
        else cell bs c m := by
  unfold plainStep plainSlot
  by_cases h : kv.1 = c ∧ m = month
  · obtain ⟨h1, h2⟩ := h
    subst h1; subst h2
    simp only [and_self, if_true]
    split
    · simp [cell_addCell]
    · split
      · simp [cell_setCell]
      · rfl
  · rw [if_neg h]
    have h' : ¬ (c = kv.1 ∧ m = month) := fun e => h ⟨e.1.symm, e.2⟩
    split
    · simp [cell_addCell, h']
    · split
      · simp [cell_setCell, h']
      · rfl

theorem deductStep_sorted (ov : Bool) (s : Locals) (month : Int) (bs : Stats) (kv : Int × Dbl)
    (h : DMap.Sorted bs) : DMap.Sorted (deductStep ov s month bs kv) := by
  unfold deductStep
  split
  · exact h
  · split
    · exact sorted_addCell _ _ _ _ h
    · split
      · exact sorted_setCell _ _ _ _ h
      · exact h

theorem plainStep_sorted (ov : Bool) (s : Locals) (month : Int) (bs : Stats) (kv : Int × Dbl)
    (h : DMap.Sorted bs) : DMap.Sorted (plainStep ov s month bs kv) := by
  unfold plainStep
  split
  · exact sorted_addCell _ _ _ _ h
  · split
    · exact sorted_setCell _ _ _ _ h
    · exact h

/-- The loop over one map of yearly values, for one month. -/
theorem valueLoop_cell (step : Stats → Int × Dbl → Stats) (slot : Dbl → Dbl → Dbl)
    (month : Int) (values : DMap Dbl) (hv : DMap.Sorted values) (c m : Int)
    (hstep : ∀ bs kv, cell (step bs kv) c m
      = if kv.1 = c ∧ m = month then slot kv.2 (cell bs c m) else cell bs c m)
    (bs : Stats) :
    cell (values.foldl step bs) c m
      = if m = month then (DMap.find? values c).elim (cell bs c m) (fun y => slot y (cell bs c m))
        else cell bs c m := by
  by_cases hm : m = month
  · rw [if_pos hm, ← DMap.foldl_at_key values hv c slot]
    rw [foldl_obs step (fun t => cell t c m) (fun kv a => if kv.1 = c then slot kv.2 a else a)]
    intro t kv
    rw [hstep]
    simp [hm]
  · rw [if_neg hm]
    refine foldl_inv step (fun t => cell t c m = cell bs c m) ?_ values bs rfl
    intro t kv ht
    rw [hstep]
    simp only [hm, and_false, if_false]
    exact ht

theorem yearlyPass_cell (env : Env) (s : Locals) (hy : DMap.Sorted s.yearlyBudgetValue)
    (hmv : DMap.Sorted s.monthlyBudgetValue) (c m : Int) (hm : m ∈ months) :
    cell (yearlyPass env s) c m
      = if env.BudgetDeductMonthly then
          (DMap.find? s.yearlyBudgetValue c).elim (cell s.budgetStats c m)
            (fun y => deductSlot env.BudgetOverride (DMap.getD s.yearDeduction c 0)
              (DMap.getD s.isBudgeted m false) s.budgetedMonths y (cell s.budgetStats c m))
        else
          (DMap.find? s.monthlyBudgetValue c).elim (cell s.budgetStats c m)
            (fun v => plainSlot env.BudgetOverride (DMap.getD s.isBudgeted m false) v
              (cell s.budgetStats c m)) := by
  unfold yearlyPass
  by_cases hd : env.BudgetDeductMonthly = true
  · simp only [hd, if_true]
    rw [foldl_obs (fun bs month => s.yearlyBudgetValue.foldl (deductStep env.BudgetOverride s month) bs)
      (fun t => cell t c m)
      (fun month a => if month = m
        then (DMap.find? s.yearlyBudgetValue c).elim a
          (fun y => deductSlot env.BudgetOverride (DMap.getD s.yearDeduction c 0)
              (DMap.getD s.isBudgeted m false) s.budgetedMonths y a)
        else a)]
    · rw [foldl_ite_single m _ months months_nodup, if_pos hm]
    · intro t month
      rw [valueLoop_cell (deductStep env.BudgetOverride s month)
        (deductSlot env.BudgetOverride (DMap.getD s.yearDeduction c 0)
              (DMap.getD s.isBudgeted m false) s.budgetedMonths) month _ hy c m
        (fun bs kv => deductStep_cell _ _ _ _ _ _ _)]
      by_cases h : month = m
      · subst h; simp
      · have : ¬ m = month := fun e => h e.symm
        simp [h, this]
  · have hd' : env.BudgetDeductMonthly = false := by simpa using hd
    simp only [hd', Bool.false_eq_true, if_false]
    rw [foldl_obs (fun bs month => s.monthlyBudgetValue.foldl (plainStep env.BudgetOverride s month) bs)
      (fun t => cell t c m)
      (fun month a => if month = m
        then (DMap.find? s.monthlyBudgetValue c).elim a
          (fun v => plainSlot env.BudgetOverride (DMap.getD s.isBudgeted m false) v a)
        else a)]
    · rw [foldl_ite_single m _ months months_nodup, if_pos hm]
    · intro t month
      rw [valueLoop_cell (plainStep env.BudgetOverride s month)
        (plainSlot env.BudgetOverride (DMap.getD s.isBudgeted m false)) month _ hmv c m
        (fun bs kv => plainStep_cell _ _ _ _ _ _ _)]
      by_cases h : month = m
      · subst h; simp
      · have : ¬ m = month := fun e => h e.symm
        simp [h, this]

theorem yearlyPass_sorted (env : Env) (s : Locals) (h : DMap.Sorted s.budgetStats) :
    DMap.Sorted (yearlyPass env s) := by
  unfold yearlyPass
  refine foldl_inv _ DMap.Sorted ?_ months _ h
  intro bs month hbs
  split
  · exact foldl_inv _ DMap.Sorted (fun t kv ht => deductStep_sorted _ _ _ _ _ ht) _ _ hbs
  · exact foldl_inv _ DMap.Sorted (fun t kv ht => plainStep_sorted _ _ _ _ _ ht) _ _ hbs

/-! ## The statistics as a whole -/

theorem lastOr_elim {ι α β : Type} (l : List ι) (g : ι → α) (f : α → β) (a : β) :
    (lastOr l (fun b => some (g b)) none).elim a f = lastOr l (fun b => f (g b)) a := by
  unfold lastOr
  cases l.getLast? <;> rfl

theorem find?_nil_dmap {α : Type} (c : Int) : DMap.find? ([] : DMap α) c = none := rfl

theorem getD_nil_dmap {α : Type} (c : Int) (d : α) : DMap.getD ([] : DMap α) c d = d := rfl

/-- Every month slot of the statistics, for a known category or an empty
initial map. -/
theorem cell_monthlyStats (env : Env) (budgetStats : Stats) (startYear : Int) (c m : Int)
    (hm : m ∈ months) (hc : c ∈ env.categories.map Category.CATEGID ∨ budgetStats = []) :
    cell (monthlyStats env budgetStats startYear) c m
      = if env.BudgetDeductMonthly then
          lastOr (ofCategory c (annualEntries env (toString startYear)))
            (fun e => deductSlot env.BudgetOverride (explicitTotal env (toString startYear) c)
              (!(monthEntries env (toString startYear) m).isEmpty) (budgetedCount env (toString startYear))
              (getEstimate false (period e) e.AMOUNT) (explicitEstimate env (toString startYear) c m))
            (explicitEstimate env (toString startYear) c m)
        else
          lastOr (ofCategory c (annualEntries env (toString startYear)))
            (fun e => plainSlot env.BudgetOverride (!(monthEntries env (toString startYear) m).isEmpty)
              (getEstimate true (period e) e.AMOUNT) (explicitEstimate env (toString startYear) c m))
            (explicitEstimate env (toString startYear) c m) := by
  have hm12 : m ≠ 12 := fun e => twelve_not_mem_months (e ▸ hm)
  unfold monthlyStats
  simp only []
  generalize hs0 : initLocals env budgetStats = s0
  have h0c : cell s0.budgetStats c m = 0 := by
    rw [← hs0]; exact cell_initStats_zero _ _ _ _ hm hc
  have h0y : s0.yearlyBudgetValue = [] := by rw [← hs0]; rfl
  have h0m : s0.monthlyBudgetValue = [] := by rw [← hs0]; rfl
  have h0d : s0.yearDeduction = [] := by rw [← hs0]; rfl
  have h0b : s0.isBudgeted = [] := by rw [← hs0]; rfl
  have h0n : s0.budgetedMonths = 0 := by rw [← hs0]; rfl
  generalize hs1 : (find env.budgets (env.Get (toString startYear))).foldl annualStep s0 = s1
  have h1c : cell s1.budgetStats c m = 0 := by
    rw [← hs1, annual_cell _ _ _ _ hm12]; exact h0c
  have h1sorted := annual_values_sorted (find env.budgets (env.Get (toString startYear))) s0
    ⟨by rw [h0y]; exact DMap.sorted_nil, by rw [h0m]; exact DMap.sorted_nil⟩
  have h1y := annual_yearly (find env.budgets (env.Get (toString startYear))) s0 c
  have h1m := annual_monthly (find env.budgets (env.Get (toString startYear))) s0 c
  have h1r := annual_rest (find env.budgets (env.Get (toString startYear))) s0
  rw [hs1] at h1sorted h1y h1m h1r
  rw [h0y, find?_nil_dmap] at h1y
  rw [h0m, find?_nil_dmap] at h1m
  rw [h0d, h0b, h0n] at h1r
  unfold monthlyPass
  generalize hs2 : months.foldl (fun s month =>
    (find env.budgets (env.Get (budgetYearMonth (toString startYear) month))).foldl
      (monthlyStep month) s) s1 = s2
  have h2c := monthsLoop_cell
    (fun month => find env.budgets (env.Get (budgetYearMonth (toString startYear) month)))
    months months_nodup s1 c m
  have h2d := monthsLoop_deduction
    (fun month => find env.budgets (env.Get (budgetYearMonth (toString startYear) month)))
    months s1 c
  have h2b := monthsLoop_budgeted
    (fun month => find env.budgets (env.Get (budgetYearMonth (toString startYear) month)))
    months months_nodup s1 (by intro m _; rw [h1r.2.1]; rfl)
  have h2v := monthsLoop_values
    (fun month => find env.budgets (env.Get (budgetYearMonth (toString startYear) month)))
    months s1
  simp only [hs2] at h2c h2d h2b h2v
  rw [if_pos hm, h1c] at h2c
  rw [h1r.1, getD_nil_dmap] at h2d
  have h2bm := h2b.1 m
  rw [if_pos hm] at h2bm
  have h2n := h2b.2
  rw [h1r.2.2, zero_add] at h2n
  rw [yearlyPass_cell env s2 (by rw [h2v.1]; exact h1sorted.1)
    (by rw [h2v.2]; exact h1sorted.2) c m hm]
  rw [h2v.1, h2v.2, h1y, h1m, h2c, h2d, h2bm, h2n, lastOr_elim, lastOr_elim]
  rfl

theorem sorted_monthlyStats (env : Env) (startYear : Int) :
    DMap.Sorted (monthlyStats env [] startYear) := by
  unfold monthlyStats monthlyPass
  simp only []
  apply yearlyPass_sorted
  apply monthsLoop_sorted
  refine (annual_sorted _ _ ⟨?_, DMap.sorted_nil, DMap.sorted_nil⟩).1
  exact sorted_initStats _ _ DMap.sorted_nil

/-! ## Claims on getEstimate -/

/-- C1: at every ordinal `i` of the enumeration order None, Weekly, Biweekly,
Monthly, Bimonthly, Quarterly, HalfYearly, Yearly, Daily (the order of
`PERIOD_ENUM_CHOICES`), `getEstimate false` is the amount times the
occurrence count 0, 52, 26, 12, 6, 4, 2, 1, 365 at that ordinal, and
`getEstimate true` is that product divided by 12. -/
theorem getEstimate_by_ordinal (a : Dbl) (i : Fin 9) :
    (PERIOD_ENUM_CHOICES.map Prod.fst)[i.val]?
        = some (![NONE, WEEKLY, BIWEEKLY, MONTHLY, BIMONTHLY, QUARTERLY, HALFYEARLY, YEARLY,
            DAILY] i)
      ∧ (![NONE, WEEKLY, BIWEEKLY, MONTHLY, BIMONTHLY, QUARTERLY, HALFYEARLY, YEARLY, DAILY]
          i).toNat = i.val
      ∧ getEstimate false
          (![NONE, WEEKLY, BIWEEKLY, MONTHLY, BIMONTHLY, QUARTERLY, HALFYEARLY, YEARLY, DAILY] i) a
        = a * Dbl.ofInt (![0, 52, 26, 12, 6, 4, 2, 1, 365] i)
      ∧ getEstimate true
          (![NONE, WEEKLY, BIWEEKLY, MONTHLY, BIMONTHLY, QUARTERLY, HALFYEARLY, YEARLY, DAILY] i) a
        = a * Dbl.ofInt (![0, 52, 26, 12, 6, 4, 2, 1, 365] i) / 12 := by
  fin_cases i <;> exact ⟨rfl, rfl, rfl, rfl⟩

/-- C2, as stated, fails: a Monthly entry of amount 1200 has the monthly
estimate 1200 (1200 times 12, divided by 12), not 100. -/
theorem getEstimate_monthly_1200_refuted :
    ¬ (getEstimate false MONTHLY 100 = 1200 ∧ getEstimate true MONTHLY 1200 = 100) := by
  decide!

/-- C2, amended: `getEstimate false MONTHLY 100` is 1200 and
`getEstimate true MONTHLY 1200` is 1200. -/
theorem getEstimate_monthly_examples :
    getEstimate false MONTHLY 100 = 1200 ∧ getEstimate true MONTHLY 1200 = 1200 := by
  decide!

/-- C3: a Quarterly entry of amount 300 has the yearly estimate 1200 and the
monthly estimate 100; a Yearly entry of amount 1200 has the yearly estimate
1200 and the monthly estimate 100. -/
theorem getEstimate_quarterly_yearly_examples :
    getEstimate false QUARTERLY 300 = 1200 ∧ getEstimate true QUARTERLY 300 = 100
      ∧ getEstimate false YEARLY 1200 = 1200 ∧ getEstimate true YEARLY 1200 = 100 := by
  decide!

/-! ## The collapse to one slot per category -/

theorem find?_addCell_zero (ys : Stats) (k : Int) (x : Dbl) (c : Int) :
    DMap.find? (addCell ys k 0 x) c
      = if c = k then some (DMap.set ((DMap.find? ys c).getD []) 0
          (DMap.getD ((DMap.find? ys c).getD []) 0 0 + x))
        else DMap.find? ys c := by
  unfold addCell
  rw [find?_setCell]
  by_cases h : c = k
  · subst h; simp [cell, DMap.getD]
  · simp [h]

theorem sumLoop_some (x : Int → Dbl) (l : List Int) (a : Dbl) :
    l.foldl (fun (o : Option (DMap Dbl)) month =>
        some (DMap.set (o.getD []) 0 (DMap.getD (o.getD []) 0 0 + x month)))
        (some [(0, a)])
      = some [(0, l.foldl (fun acc month => acc + x month) a)] := by
  induction l generalizing a with
  | nil => rfl
  | cons m ms ih =>
    simp only [List.foldl_cons]
    rw [← ih (a + x m)]
    rfl

theorem sumLoop_months (x : Int → Dbl) (o : Option (DMap Dbl))
    (ho : o = none ∨ o = some [(0, 0)]) :
    months.foldl (fun (o : Option (DMap Dbl)) month =>
        some (DMap.set (o.getD []) 0 (DMap.getD (o.getD []) 0 0 + x month))) o
      = some [(0, months.foldl (fun acc month => acc + x month) 0)] := by
  rcases ho with ho | ho
  · subst ho
    show List.foldl _ _ (0 :: [1, 2, 3, 4, 5, 6, 7, 8, 9, 10, 11]) = _
    rw [List.foldl_cons]
    exact sumLoop_some x _ _
  · subst ho
    exact sumLoop_some x _ _

theorem collapse_init (categories : List Category) (c : Int) :
    DMap.find? (categories.foldl (fun ys category => setCell ys category.CATEGID 0 0) []) c
      = if c ∈ categories.map Category.CATEGID then some [(0, 0)] else none := by
  induction categories using List.reverseRecOn with
  | nil => rfl
  | append_singleton xs x ih =>
    simp only [List.foldl_append, List.foldl_cons, List.foldl_nil, find?_setCell,
      List.map_append, List.map_cons, List.map_nil, List.mem_append, List.mem_singleton]
    by_cases h : c = x.CATEGID
    · subst h
      simp only [if_true, or_true, DMap.getD, ih]
      by_cases h2 : x.CATEGID ∈ xs.map Category.CATEGID
      · rw [if_pos h2]; rfl
      · rw [if_neg h2]; rfl
    · simp only [h, if_false, or_false, ih]

/-- What `collapse` returns: a category of the input map gets the single slot
0 holding the sum of its month slots; a known category outside the map gets
the single slot 0 holding zero. -/
theorem find?_collapse (categories : List Category) (bs : Stats) (hbs : DMap.Sorted bs)
    (c : Int) :
    DMap.find? (collapse categories bs) c
      = if c ∈ DMap.keys bs then some [(0, monthSum bs c)]
        else if c ∈ categories.map Category.CATEGID then some [(0, 0)] else none := by
  unfold collapse
  simp only []
  rw [foldl_obs
    (fun ys (cat : Int × DMap Dbl) =>
      months.foldl (fun ys month => addCell ys cat.1 0 (cell bs cat.1 month)) ys)
    (fun ys => DMap.find? ys c)
    (fun cat o => if cat.1 = c
      then months.foldl (fun (o : Option (DMap Dbl)) month =>
        some (DMap.set (o.getD []) 0 (DMap.getD (o.getD []) 0 0 + cell bs c month))) o
      else o)]
  · rw [DMap.foldl_at_key bs hbs c
      (fun _ o => months.foldl (fun (o : Option (DMap Dbl)) month =>
        some (DMap.set (o.getD []) 0 (DMap.getD (o.getD []) 0 0 + cell bs c month))) o)]
    rw [collapse_init]
    by_cases hk : c ∈ DMap.keys bs
    · rw [if_pos hk]
      obtain ⟨v, hv⟩ := Option.isSome_iff_exists.mp ((DMap.find?_isSome_iff bs c).mpr hk)
      rw [hv, Option.elim_some]
      apply sumLoop_months
      by_cases h2 : c ∈ categories.map Category.CATEGID
      · right; rw [if_pos h2]
      · left; rw [if_neg h2]
    · rw [if_neg hk, DMap.find?_eq_none_of_not_mem bs c hk, Option.elim_none]
  · intro ys cat
    by_cases h : cat.1 = c
    · subst h
      rw [if_pos rfl]
      rw [foldl_obs (fun ys month => addCell ys cat.1 0 (cell bs cat.1 month))
        (fun ys => DMap.find? ys cat.1)
        (fun month (o : Option (DMap Dbl)) =>
          some (DMap.set (o.getD []) 0 (DMap.getD (o.getD []) 0 0 + cell bs cat.1 month)))]
      intro t month
      rw [find?_addCell_zero, if_pos rfl]
    · rw [if_neg h]
      refine foldl_inv _ (fun t => DMap.find? t c = DMap.find? ys c) ?_ months ys rfl
      intro t month ht
      have h' : ¬ c = cat.1 := fun e => h e.symm
      rw [find?_addCell_zero, if_neg h']
      exact ht

theorem mem_keys_initStats (categories : List Category) (bs : Stats) (c : Int)
    (h : c ∈ categories.map Category.CATEGID) : c ∈ DMap.keys (initStats categories bs) := by
  unfold initStats
  induction categories using List.reverseRecOn with
  | nil => simp at h
  | append_singleton xs x ih =>
    simp only [List.foldl_append, List.foldl_cons, List.foldl_nil]
    simp only [List.map_append, List.map_cons, List.map_nil, List.mem_append,
      List.mem_singleton] at h
    show c ∈ DMap.keys (List.foldl _ _ (0 :: [1, 2, 3, 4, 5, 6, 7, 8, 9, 10, 11]))
    rw [List.foldl_cons]
    refine foldl_inv _ (fun t => c ∈ DMap.keys t) ?_ _ _ ?_
    · intro t month ht
      exact (mem_keys_setCell _ _ _ _ _).mpr (Or.inr ht)
    · refine (mem_keys_setCell _ _ _ _ _).mpr ?_
      rcases h with h | h
      · exact Or.inr (ih h)
      · exact Or.inl h

theorem annualStep_keys (s : Locals) (b : Data) (c : Int) (h : c ∈ DMap.keys s.budgetStats) :
    c ∈ DMap.keys (annualStep s b).budgetStats :=
  (mem_keys_setCell _ _ _ _ _).mpr (Or.inr h)

theorem monthlyStep_keys (month : Int) (s : Locals) (b : Data) (c : Int)
    (h : c ∈ DMap.keys s.budgetStats) : c ∈ DMap.keys (monthlyStep month s b).budgetStats := by
  unfold monthlyStep
  by_cases hb : DMap.getD s.isBudgeted month false = true
  · simp only [hb, if_true]; exact (mem_keys_setCell _ _ _ _ _).mpr (Or.inr h)
  · have hb' : DMap.getD s.isBudgeted month false = false := by simpa using hb
    simp only [hb']; exact (mem_keys_setCell _ _ _ _ _).mpr (Or.inr h)

theorem yearlyPass_keys (env : Env) (s : Locals) (c : Int) (h : c ∈ DMap.keys s.budgetStats) :
    c ∈ DMap.keys (yearlyPass env s) := by
  unfold yearlyPass
  refine foldl_inv _ (fun t => c ∈ DMap.keys t) ?_ months _ h
  intro bs month hbs
  split
  · refine foldl_inv _ (fun t => c ∈ DMap.keys t) ?_ _ _ hbs
    intro t kv ht
    unfold deductStep
    split
    · exact ht
    · split
      · exact (mem_keys_addCell _ _ _ _ _).mpr (Or.inr ht)
      · split
        · exact (mem_keys_setCell _ _ _ _ _).mpr (Or.inr ht)
        · exact ht
  · refine foldl_inv _ (fun t => c ∈ DMap.keys t) ?_ _ _ hbs
    intro t kv ht
    unfold plainStep
    split
    · exact (mem_keys_addCell _ _ _ _ _).mpr (Or.inr ht)
    · split
      · exact (mem_keys_setCell _ _ _ _ _).mpr (Or.inr ht)
      · exact ht

/-- Every known category is a key of the statistics. -/
theorem mem_keys_monthlyStats (env : Env) (bs : Stats) (startYear : Int) (c : Int)
    (h : c ∈ env.categories.map Category.CATEGID) :
    c ∈ DMap.keys (monthlyStats env bs startYear) := by
  unfold monthlyStats monthlyPass
  simp only []
  apply yearlyPass_keys
  refine foldl_inv _ (fun (t : Locals) => c ∈ DMap.keys t.budgetStats) ?_ months _ ?_
  · intro t month ht
    exact foldl_inv _ (fun (t : Locals) => c ∈ DMap.keys t.budgetStats)
      (fun t b ht => monthlyStep_keys month t b c ht) _ _ ht
  · refine foldl_inv _ (fun (t : Locals) => c ∈ DMap.keys t.budgetStats)
      (fun t b ht => annualStep_keys t b c ht) _ _ ?_
    exact mem_keys_initStats _ _ _ h

/-! ## Claims on getBudgetStats -/

/-- C4: started from an empty matrix, the result of `getBudgetStats` with
`groupByMonth = false` has, for every category that is known to the registry
or has a slot in the `groupByMonth = true` result, exactly one slot, slot 0,
whose value is the sum over the month slots 0..11 of the
`groupByMonth = true` result; the slots 1..11 and 12 are absent. -/
theorem getBudgetStats_collapsed (env : Env) (startYear : Int) (c : Int)
    (hc : c ∈ env.categories.map Category.CATEGID
      ∨ c ∈ DMap.keys (getBudgetStats env [] startYear true)) :
    DMap.find? (getBudgetStats env [] startYear false) c
      = some [(0, months.foldl
          (fun acc month => acc + cell (getBudgetStats env [] startYear true) c month) 0)] := by
  have hk : c ∈ DMap.keys (monthlyStats env [] startYear) := by
    rcases hc with hc | hc
    · exact mem_keys_monthlyStats env [] startYear c hc
    · exact hc
  show DMap.find? (collapse env.categories (monthlyStats env [] startYear)) c = _
  rw [find?_collapse _ _ (sorted_monthlyStats env startYear), if_pos hk]
  rfl

/-- Witness of C4 on the sample data: category 1 is known, and its collapsed
slot 0 holds 1200. -/
theorem getBudgetStats_collapsed_witness :
    (1 : Int) ∈ (sampleEnv true true).categories.map Category.CATEGID
      ∧ DMap.find? (getBudgetStats (sampleEnv true true) [] 2024 false) 1
          = some [(0, 1200)] :=
  ⟨by decide, (getBudgetStats_collapsed (sampleEnv true true) 2024 1 (Or.inl (by decide))).trans
    (by decide!)⟩

/-- C5: with the deduct-monthly option on and `groupByMonth = true`, for a
category `c` (known to the registry, or any category when the matrix passed
in is empty) with one annual entry `e` of yearly estimate Y, the explicit
monthly total D, the explicit monthly estimates E(c, m) and the number n of
months with an explicit entry: if D / Y >= 1 every month slot is E(c, m);
otherwise, with override off every month slot is E(c, m) + (Y - D) / 12, and
with override on a month without any explicit entry is (Y - D) / (12 - n)
while a month with one keeps E(c, m). -/
theorem getBudgetStats_deduct (env : Env) (budgetStats : Stats) (startYear : Int) (c : Int)
    (e : Data) (hc : c ∈ env.categories.map Category.CATEGID ∨ budgetStats = [])
    (hd : env.BudgetDeductMonthly = true)
    (he : ofCategory c (annualEntries env (toString startYear)) = [e])
    (m : Int) (hm : m ∈ months) :
    let Y := getEstimate false (period e) e.AMOUNT
    let D := explicitTotal env (toString startYear) c
    let E := explicitEstimate env (toString startYear) c m
    let n := budgetedCount env (toString startYear)
    let slot := cell (getBudgetStats env budgetStats startYear true) c m
    (Dbl.ge (D / Y) 1 = true → slot = E)
      ∧ (Dbl.ge (D / Y) 1 = false → env.BudgetOverride = false → slot = E + (Y - D) / 12)
      ∧ (Dbl.ge (D / Y) 1 = false → env.BudgetOverride = true →
          (monthEntries env (toString startYear) m = [] → slot = (Y - D) / Dbl.ofInt (12 - n))
          ∧ (monthEntries env (toString startYear) m ≠ [] → slot = E)) := by
  intro Y D E n slot
  have key : slot = deductSlot env.BudgetOverride D
      (!(monthEntries env (toString startYear) m).isEmpty) n Y E := by
    show cell (monthlyStats env budgetStats startYear) c m = _
    rw [cell_monthlyStats env budgetStats startYear c m hm hc, if_pos hd, he]
    rfl
  refine ⟨?_, ?_, ?_⟩
  · intro h
    rw [key]; unfold deductSlot; rw [if_pos h]
  · intro h ho
    rw [key]; unfold deductSlot; simp [h, ho]
  · intro h ho
    refine ⟨?_, ?_⟩
    · intro hempty
      rw [key]; unfold deductSlot; simp [h, ho, hempty]
    · intro hne
      rw [key]; unfold deductSlot
      cases hl : monthEntries env (toString startYear) m with
      | nil => exact absurd hl hne
      | cons b bs => simp [h, ho]

/-- Witness of C5 on the sample data (override on): Y = 1200, D = 50 and
n = 2, so the free month 1 holds (1200 - 50) / 10 = 115 and the budgeted
month 0 keeps 50. -/
theorem getBudgetStats_deduct_witness :
    cell (getBudgetStats (sampleEnv true true) [] 2024 true) 1 1 = 115 :=
  (((getBudgetStats_deduct (sampleEnv true true) [] 2024 1 ⟨10, 1, "Yearly", 1200, ""⟩
    (Or.inr rfl) rfl (by decide!) 1 (by decide)).2.2 (by decide!) rfl).1 (by decide!)).trans
    (by decide!)

/-- C6: with the deduct-monthly option off and `groupByMonth = true`, for a
category `c` (known to the registry, or any category when the matrix passed
in is empty) with one annual entry `e` of monthly-equivalent estimate V: with
override off every month slot is E(c, m) + V; with override on a month
without any explicit entry is V and a month with one is E(c, m). -/
theorem getBudgetStats_plain (env : Env) (budgetStats : Stats) (startYear : Int) (c : Int)
    (e : Data) (hc : c ∈ env.categories.map Category.CATEGID ∨ budgetStats = [])
    (hd : env.BudgetDeductMonthly = false)
    (he : ofCategory c (annualEntries env (toString startYear)) = [e])
    (m : Int) (hm : m ∈ months) :
    let V := getEstimate true (period e) e.AMOUNT
    let E := explicitEstimate env (toString startYear) c m
    let slot := cell (getBudgetStats env budgetStats startYear true) c m
    (env.BudgetOverride = false → slot = E + V)
      ∧ (env.BudgetOverride = true →
          (monthEntries env (toString startYear) m = [] → slot = V)
          ∧ (monthEntries env (toString startYear) m ≠ [] → slot = E)) := by
  intro V E slot
  have key : slot = plainSlot env.BudgetOverride
      (!(monthEntries env (toString startYear) m).isEmpty) V E := by
    show cell (monthlyStats env budgetStats startYear) c m = _
    rw [cell_monthlyStats env budgetStats startYear c m hm hc, hd, he]
    rfl
  refine ⟨?_, ?_⟩
  · intro ho
    rw [key]; unfold plainSlot; simp [ho]
  · intro ho
    refine ⟨?_, ?_⟩
    · intro hempty
      rw [key]; unfold plainSlot; simp [ho, hempty]
    · intro hne
      rw [key]; unfold plainSlot
      cases hl : monthEntries env (toString startYear) m with
      | nil => exact absurd hl hne
      | cons b bs => simp [ho]

/-- Witness of C6 on the sample data (override off): V = 100, so the
budgeted month 0 holds 50 + 100 = 150. -/
theorem getBudgetStats_plain_witness :
    cell (getBudgetStats (sampleEnv false false) [] 2024 true) 1 0 = 150 :=
  ((getBudgetStats_plain (sampleEnv false false) [] 2024 1 ⟨10, 1, "Yearly", 1200, ""⟩
    (Or.inr rfl) rfl (by decide!) 0 (by decide)).1 rfl).trans (by decide!)

/-! ## copyBudgetYear -/

theorem foldl_save (f : Data → Data) (l : List Data) (budgets : List Data) :
    l.foldl (fun budgets data => save budgets (f data)) budgets = budgets ++ l.map f := by
  induction l generalizing budgets with
  | nil => simp
  | cons x xs ih =>
    rw [List.foldl_cons, ih]
    simp [save]

theorem foldl_count (q : Int → Bool) (l : List Int) (n : Int) :
    l.foldl (fun n x => if q x then n + 1 else n) n = n + ((l.filter q).length : Int) := by
  induction l generalizing n with
  | nil => simp
  | cons x xs ih =>
    by_cases hq : q x = true
    · simp [List.filter_cons, hq, ih]; omega
    · simp [List.filter_cons, hq, ih]

theorem copyMonthStep_count (env : Env) (newName : String) (s : CopyLocals) (month : Int) :
    (copyMonthStep env newName s month).budgetedMonths
      = if !(monthEntries env (String.mk (newName.data.take 4)) month).isEmpty
        then s.budgetedMonths + 1 else s.budgetedMonths := rfl

theorem copyMonthStep_deduction (env : Env) (newName : String) (s : CopyLocals) (month : Int)
    (c : Int) :
    DMap.getD (copyMonthStep env newName s month).yearDeduction c 0
      = (ofCategory c (monthEntries env (String.mk (newName.data.take 4)) month)).foldl
          (fun acc b => acc + getEstimate true (period b) b.AMOUNT)
          (DMap.getD s.yearDeduction c 0) := by
  unfold copyMonthStep ofCategory monthEntries
  simp only []
  rw [← foldl_ite_filter]
  rw [foldl_obs
    (fun (yd : DMap Dbl) (budget : Data) => DMap.set yd budget.CATEGID
      (DMap.getD yd budget.CATEGID 0 + getEstimate true (period budget) budget.AMOUNT))
    (fun yd => DMap.getD yd c 0)
    (fun b a => if decide (b.CATEGID = c) then a + getEstimate true (period b) b.AMOUNT else a)]
  intro yd b
  rw [DMap.getD_set]
  by_cases h : b.CATEGID = c
  · simp [h]
  · have : ¬ c = b.CATEGID := fun e => h e.symm
    simp [h, this]

/-- The loop over the months in `copyBudgetYear` computes the number of
budgeted months and, per category, the total of the explicit estimates. -/
theorem copyMonths (env : Env) (newName : String) (c : Int) :
    (months.foldl (copyMonthStep env newName) ⟨[], 0⟩).budgetedMonths
        = budgetedCount env (String.mk (newName.data.take 4))
      ∧ DMap.getD (months.foldl (copyMonthStep env newName) ⟨[], 0⟩).yearDeduction c 0
        = explicitTotal env (String.mk (newName.data.take 4)) c := by
  refine ⟨?_, ?_⟩
  · rw [foldl_obs (copyMonthStep env newName) (fun s => s.budgetedMonths)
      (fun month n =>
        if !(monthEntries env (String.mk (newName.data.take 4)) month).isEmpty then n + 1 else n)
      (fun s month => copyMonthStep_count env newName s month)]
    rw [foldl_count]
    simp [budgetedCount]
  · rw [foldl_obs (copyMonthStep env newName) (fun s => DMap.getD s.yearDeduction c 0)
      (fun month acc =>
        (ofCategory c (monthEntries env (String.mk (newName.data.take 4)) month)).foldl
          (fun acc b => acc + getEstimate true (period b) b.AMOUNT) acc)
      (fun s month => copyMonthStep_deduction env newName s month c)]
    rfl

theorem Dbl.not_lt_of_ge (x y : Dbl) (h : Dbl.ge x y = true) : Dbl.lt x y = false := by
  cases x <;> cases y <;> simp_all [Dbl.ge, Dbl.lt, Dbl.toRat?]

/-- An entry whose stored period text is the label written by
`copyBudgetYear` reads back as `MONTHLY`. -/
theorem period_monthly_label (r : Data)
    (h : r.PERIOD = (PERIOD_ENUM_CHOICES.getD MONTHLY.toNat (NONE, "")).2) :
    period r = MONTHLY := by
  unfold period
  rw [h]
  rfl

/-- C7: in `copyBudgetYear`, when the deduct-monthly option is on, the source
name has length 4, the destination name is longer than 4 characters and n > 0
months under the destination's 4-character year part already have entries,
one entry is saved per source entry, for the destination year, with period
Monthly; with Y the yearly estimate of the source entry and D the existing
monthly-estimate sum of its category, its amount is (Y - D) / (12 - n) when
D / Y < 1 and 0 when D / Y >= 1. -/
theorem copyBudgetYear_deducted (env : Env) (newYearID baseYearID : Int)
    (baseName newName : String)
    (hb : env.get baseYearID = some baseName) (hn : env.get newYearID = some newName)
    (hd : env.BudgetDeductMonthly = true)
    (hbl : baseName.length = 4) (hnl : newName.length > 4)
    (hpos : 0 < budgetedCount env (String.mk (newName.data.take 4))) :
    ∃ saved, copyBudgetYear env newYearID baseYearID = some (env.budgets ++ saved)
      ∧ List.Forall₂
          (fun data entry =>
            let Y := getEstimate false (period data) data.AMOUNT
            let D := explicitTotal env (String.mk (newName.data.take 4)) data.CATEGID
            let n := budgetedCount env (String.mk (newName.data.take 4))
            entry.BUDGETYEARID = newYearID ∧ entry.CATEGID = data.CATEGID
              ∧ entry.NOTES = data.NOTES
              ∧ entry.PERIOD = "Monthly" ∧ period entry = MONTHLY
              ∧ (Dbl.lt (D / Y) 1 = true → entry.AMOUNT = (Y - D) / Dbl.ofInt (12 - n))
              ∧ (Dbl.ge (D / Y) 1 = true → entry.AMOUNT = 0))
          (find env.budgets baseYearID) saved := by
  have hopt : (env.BudgetDeductMonthly &&
      (decide (baseName.length = 4) && decide (newName.length > 4))) = true := by
    simp [hd, hbl, hnl]
  refine ⟨(find env.budgets baseYearID).map
    (copyEntry true (months.foldl (copyMonthStep env newName) ⟨[], 0⟩) newYearID), ?_, ?_⟩
  · unfold copyBudgetYear
    simp only [hb, hn, hopt, if_true]
    rw [foldl_save]
  · rw [List.forall₂_map_right_iff, List.forall₂_same]
    intro data _
    have hn' := (copyMonths env newName data.CATEGID).1
    have hD := (copyMonths env newName data.CATEGID).2
    have hcond : (true && decide
        (budgetedCount env (String.mk (newName.data.take 4)) > 0)) = true := by
      simpa using hpos
    unfold copyEntry
    simp only [hD, hn']
    rw [if_pos hcond]
    by_cases hlt : Dbl.lt (explicitTotal env (String.mk (newName.data.take 4)) data.CATEGID
        / getEstimate false (period data) data.AMOUNT) 1 = true
    · rw [if_pos hlt]
      refine ⟨rfl, rfl, rfl, rfl, period_monthly_label _ rfl, fun _ => rfl, ?_⟩
      intro hge
      rw [Dbl.not_lt_of_ge _ _ hge] at hlt
      exact absurd hlt (by decide)
    · rw [if_neg hlt]
      exact ⟨rfl, rfl, rfl, rfl, period_monthly_label _ rfl, fun h => absurd h hlt, fun _ => rfl⟩

/-- Witness of C7 on the sample data: copying the annual year "2024" (id 10)
to "2024-05" (id 13) saves entries after the existing rows. -/
theorem copyBudgetYear_deducted_witness :
    ∃ saved, copyBudgetYear (sampleEnv true true) 13 10
      = some ((sampleEnv true true).budgets ++ saved) :=
  (copyBudgetYear_deducted (sampleEnv true true) 13 10 "2024" "2024-05" rfl rfl rfl
    (by decide) (by decide) (by decide!)).imp (fun _ h => h.1)

/-- C8: in `copyBudgetYear`, when the deduction does not apply (deduct-monthly
option off, or source name length not 4, or destination name length not
greater than 4, or no month under the destination's year part has any
entry), the table after the call is the table before followed by one new
record per source entry, equal to the source entry except for the
budget-year identifier, which is the destination. -/
theorem copyBudgetYear_unchanged (env : Env) (newYearID baseYearID : Int)
    (baseName newName : String)
    (hb : env.get baseYearID = some baseName) (hn : env.get newYearID = some newName)
    (h : env.BudgetDeductMonthly = false ∨ baseName.length ≠ 4 ∨ ¬ newName.length > 4
      ∨ budgetedCount env (String.mk (newName.data.take 4)) = 0) :
    copyBudgetYear env newYearID baseYearID
      = some (env.budgets ++ (find env.budgets baseYearID).map
          (fun data => { data with BUDGETYEARID := newYearID })) := by
  unfold copyBudgetYear
  simp only [hb, hn]
  rw [foldl_save]
  congr 2
  apply List.map_congr_left
  intro data _
  unfold copyEntry
  by_cases hopt : (env.BudgetDeductMonthly &&
      (decide (baseName.length = 4) && decide (newName.length > 4))) = true
  · have hz : budgetedCount env (String.mk (newName.data.take 4)) = 0 := by
      rcases h with h | h | h | h
      · simp [h] at hopt
      · simp [h] at hopt
      · simp [h] at hopt
      · exact h
    simp only [hopt, if_true, (copyMonths env newName data.CATEGID).1, hz]
    rfl
  · have hopt' : (env.BudgetDeductMonthly &&
      (decide (baseName.length = 4) && decide (newName.length > 4))) = false := by
      simpa using hopt
    simp only [hopt']
    rfl

/-- Witness of C8 on the sample data with the deduct-monthly option off:
copying "2024" (id 10) to "2025" (id 20) appends the one entry of 2024 under
the year id 20 and keeps the three existing rows. -/
theorem copyBudgetYear_unchanged_witness :
    copyBudgetYear (sampleEnv true false) 20 10
      = some ([⟨10, 1, "Yearly", 1200, ""⟩, ⟨11, 1, "monthly", 50, "rent"⟩,
          ⟨12, 3, "Weekly", 1, ""⟩] ++ [⟨20, 1, "Yearly", 1200, ""⟩]) :=
  (copyBudgetYear_unchanged (sampleEnv true false) 20 10 "2024" "2025" rfl rfl
    (Or.inl rfl)).trans (by decide!)

/-! ## getBudgetEntry -/

theorem lastOr_of_getLast? {ι α : Type} (l : List ι) (f : ι → α) (a : α) (b : ι)
    (h : l.getLast? = some b) : lastOr l f a = f b := by
  unfold lastOr
  rw [h]

theorem lastOr_eq_map {ι α : Type} (l : List ι) (f : ι → α) :
    lastOr l (fun b => some (f b)) none = l.getLast?.map f := by
  unfold lastOr
  cases l.getLast? <;> rfl

/-- The first loop of `getBudgetEntry`: the defaults of the known
categories. -/
theorem entryDefault_loop (categories : List Category) (maps : EntryMaps) (c : Int) :
    DMap.find? (categories.foldl entryDefault maps).budgetPeriod c
        = (if c ∈ categories.map Category.CATEGID then some NONE
           else DMap.find? maps.budgetPeriod c)
      ∧ DMap.find? (categories.foldl entryDefault maps).budgetAmt c
        = (if c ∈ categories.map Category.CATEGID then some 0
           else DMap.find? maps.budgetAmt c)
      ∧ (categories.foldl entryDefault maps).budgetNotes = maps.budgetNotes := by
  induction categories using List.reverseRecOn with
  | nil => simp
  | append_singleton xs x ih =>
    obtain ⟨ih1, ih2, ih3⟩ := ih
    simp only [List.foldl_append, List.foldl_cons, List.foldl_nil, entryDefault,
      DMap.find?_set, ih1, ih2, ih3, List.map_append, List.map_cons, List.map_nil,
      List.mem_append, List.mem_singleton]
    by_cases h : c = x.CATEGID
    · simp [h]
    · simp [h]

/-- The second loop of `getBudgetEntry`: the stored entries, the last one of
a category winning. -/
theorem entryOverlay_loop (l : List Data) (maps : EntryMaps) (c : Int) :
    DMap.find? (l.foldl entryOverlay maps).budgetPeriod c
        = lastOr (ofCategory c l) (fun b => some (period b)) (DMap.find? maps.budgetPeriod c)
      ∧ DMap.find? (l.foldl entryOverlay maps).budgetAmt c
        = lastOr (ofCategory c l) (fun b => some b.AMOUNT) (DMap.find? maps.budgetAmt c)
      ∧ DMap.find? (l.foldl entryOverlay maps).budgetNotes c
        = lastOr (ofCategory c l) (fun b => some b.NOTES) (DMap.find? maps.budgetNotes c) := by
  unfold ofCategory
  refine ⟨?_, ?_, ?_⟩
  · rw [← foldl_ite_last, foldl_obs entryOverlay (fun t => DMap.find? t.budgetPeriod c)
      (fun b a => if decide (b.CATEGID = c) then some (period b) else a)]
    intro t b
    simp only [entryOverlay, DMap.find?_set, decide_eq_true_eq]
    by_cases h : b.CATEGID = c
    · simp [h]
    · have : ¬ c = b.CATEGID := fun e => h e.symm
      simp [h, this]
  · rw [← foldl_ite_last, foldl_obs entryOverlay (fun t => DMap.find? t.budgetAmt c)
      (fun b a => if decide (b.CATEGID = c) then some b.AMOUNT else a)]
    intro t b
    simp only [entryOverlay, DMap.find?_set, decide_eq_true_eq]
    by_cases h : b.CATEGID = c
    · simp [h]
    · have : ¬ c = b.CATEGID := fun e => h e.symm
      simp [h, this]
  · rw [← foldl_ite_last, foldl_obs entryOverlay (fun t => DMap.find? t.budgetNotes c)
      (fun b a => if decide (b.CATEGID = c) then some b.NOTES else a)]
    intro t b
    simp only [entryOverlay, DMap.find?_set, decide_eq_true_eq]
    by_cases h : b.CATEGID = c
    · simp [h]
    · have : ¬ c = b.CATEGID := fun e => h e.symm
      simp [h, this]

/-- C9: after `getBudgetEntry` for a budget-year, whatever the three maps
held before, every category known to the registry has an entry in the period
and amount maps; with no stored entry of the category in that year the period
is `NONE` and the amount 0; with stored entries the period, amount and notes
are those of the last stored entry of the category in store iteration
order. -/
theorem getBudgetEntry_known (env : Env) (budgetYearID : Int) (maps : EntryMaps) (c : Int)
    (hc : c ∈ env.categories.map Category.CATEGID) :
    (DMap.find? (getBudgetEntry env budgetYearID maps).budgetPeriod c).isSome = true
      ∧ (DMap.find? (getBudgetEntry env budgetYearID maps).budgetAmt c).isSome = true
      ∧ (ofCategory c (find env.budgets budgetYearID) = [] →
          DMap.find? (getBudgetEntry env budgetYearID maps).budgetPeriod c = some NONE
          ∧ DMap.find? (getBudgetEntry env budgetYearID maps).budgetAmt c = some 0)
      ∧ (∀ b, (ofCategory c (find env.budgets budgetYearID)).getLast? = some b →
          DMap.find? (getBudgetEntry env budgetYearID maps).budgetPeriod c = some (period b)
          ∧ DMap.find? (getBudgetEntry env budgetYearID maps).budgetAmt c = some b.AMOUNT
          ∧ DMap.find? (getBudgetEntry env budgetYearID maps).budgetNotes c = some b.NOTES) := by
  obtain ⟨d1, d2, _⟩ := entryDefault_loop env.categories maps c
  rw [if_pos hc] at d1 d2
  obtain ⟨o1, o2, o3⟩ := entryOverlay_loop (find env.budgets budgetYearID)
    (env.categories.foldl entryDefault maps) c
  rw [d1] at o1
  rw [d2] at o2
  unfold getBudgetEntry
  rw [o1, o2, o3]
  refine ⟨?_, ?_, ?_, ?_⟩
  · unfold lastOr; cases (ofCategory c (find env.budgets budgetYearID)).getLast? <;> rfl
  · unfold lastOr; cases (ofCategory c (find env.budgets budgetYearID)).getLast? <;> rfl
  · intro h
    rw [h]
    exact ⟨rfl, rfl⟩
  · intro b hb
    exact ⟨lastOr_of_getLast? _ _ _ b hb, lastOr_of_getLast? _ _ _ b hb,
      lastOr_of_getLast? _ _ _ b hb⟩

/-- Witness of C9 on the sample data: in the budget-year 11 the known
category 1 has the stored period Monthly and amount 50, even when the maps
held something else before. -/
theorem getBudgetEntry_known_witness :
    DMap.find? (getBudgetEntry (sampleEnv true true) 11
        ⟨[(1, YEARLY)], [(1, 7)], []⟩).budgetPeriod 1 = some MONTHLY
      ∧ DMap.find? (getBudgetEntry (sampleEnv true true) 11
        ⟨[(1, YEARLY)], [(1, 7)], []⟩).budgetAmt 1 = some 50
      ∧ DMap.find? (getBudgetEntry (sampleEnv true true) 11
        ⟨[(1, YEARLY)], [(1, 7)], []⟩).budgetNotes 1 = some "rent" :=
  (getBudgetEntry_known (sampleEnv true true) 11 ⟨[(1, YEARLY)], [(1, 7)], []⟩ 1
    (by decide)).2.2.2 ⟨11, 1, "monthly", 50, "rent"⟩ (by decide!)

/-- C10, as stated, fails: on the sample data the category 3 is stored in the
budget-year 12 and is not in the registry, and `getBudgetEntry`, started from
empty maps, gives it a key in each of the three maps. -/
theorem getBudgetEntry_unknown_refuted :
    (3 : Int) ∉ (sampleEnv true true).categories.map Category.CATEGID
      ∧ DMap.find? (getBudgetEntry (sampleEnv true true) 12 ⟨[], [], []⟩).budgetPeriod 3
          = some WEEKLY
      ∧ DMap.find? (getBudgetEntry (sampleEnv true true) 12 ⟨[], [], []⟩).budgetAmt 3
          = some 1
      ∧ DMap.find? (getBudgetEntry (sampleEnv true true) 12 ⟨[], [], []⟩).budgetNotes 3
          = some "" := by
  decide!

/-- C10, amended: `getBudgetEntry` does not filter the stored entries by the
registry.  Started from empty maps, a category outside the registry has a key
in the period, amount and notes maps exactly when the budget-year has a
stored entry of it, and the maps then hold the period, amount and notes of
its last stored entry. -/
theorem getBudgetEntry_unknown (env : Env) (budgetYearID : Int) (c : Int)
    (hc : c ∉ env.categories.map Category.CATEGID) :
    DMap.find? (getBudgetEntry env budgetYearID ⟨[], [], []⟩).budgetPeriod c
        = (ofCategory c (find env.budgets budgetYearID)).getLast?.map period
      ∧ DMap.find? (getBudgetEntry env budgetYearID ⟨[], [], []⟩).budgetAmt c
        = (ofCategory c (find env.budgets budgetYearID)).getLast?.map Data.AMOUNT
      ∧ DMap.find? (getBudgetEntry env budgetYearID ⟨[], [], []⟩).budgetNotes c
        = (ofCategory c (find env.budgets budgetYearID)).getLast?.map Data.NOTES := by
  obtain ⟨d1, d2, d3⟩ := entryDefault_loop env.categories ⟨[], [], []⟩ c
  rw [if_neg hc] at d1 d2
  obtain ⟨o1, o2, o3⟩ := entryOverlay_loop (find env.budgets budgetYearID)
    (env.categories.foldl entryDefault ⟨[], [], []⟩) c
  rw [d1] at o1
  rw [d2] at o2
  rw [d3] at o3
  unfold getBudgetEntry
  rw [o1, o2, o3]
  exact ⟨lastOr_eq_map _ _, lastOr_eq_map _ _, lastOr_eq_map _ _⟩

/-- Witness of the amended C10 on the sample data: the unregistered category
3 gets the period of its stored entry in the budget-year 12. -/
theorem getBudgetEntry_unknown_witness :
    DMap.find? (getBudgetEntry (sampleEnv true true) 12 ⟨[], [], []⟩).budgetPeriod 3
      = (ofCategory 3 (find (sampleEnv true true).budgets 12)).getLast?.map period :=
  (getBudgetEntry_unknown (sampleEnv true true) 12 3 (by decide)).1

/-! ## The locals between the two passes -/

theorem monthlyStats_eq (env : Env) (budgetStats : Stats) (startYear : Int) :
    monthlyStats env budgetStats startYear
      = yearlyPass env (passLocals env budgetStats startYear) := rfl

/-- When the second pass starts, `isBudgeted[month]` tells whether the month
has an explicit entry and `budgetedMonths` counts these months. -/
theorem passLocals_budgeted (env : Env) (budgetStats : Stats) (startYear : Int) :
    (∀ m ∈ months, DMap.getD (passLocals env budgetStats startYear).isBudgeted m false
        = !(monthEntries env (toString startYear) m).isEmpty)
      ∧ (passLocals env budgetStats startYear).budgetedMonths
        = budgetedCount env (toString startYear) := by
  have h1r := annual_rest (find env.budgets (env.Get (toString startYear)))
    (initLocals env budgetStats)
  have h2b := monthsLoop_budgeted
    (fun month => find env.budgets (env.Get (budgetYearMonth (toString startYear) month)))
    months months_nodup
    ((find env.budgets (env.Get (toString startYear))).foldl annualStep
      (initLocals env budgetStats))
    (by intro m _; rw [h1r.2.1]; rfl)
  refine ⟨?_, ?_⟩
  · intro m hm
    have := h2b.1 m
    rw [if_pos hm] at this
    exact this
  · have := h2b.2
    rw [h1r.2.2] at this
    unfold passLocals monthlyPass budgetedCount monthEntries
    rw [this]
    show (0 : Int) + _ = _
    rw [zero_add]

theorem budgetedCount_le (env : Env) (year : String) : budgetedCount env year ≤ 12 := by
  unfold budgetedCount
  have := List.length_filter_le (fun month => !(monthEntries env year month).isEmpty) months
  have h12 : months.length = 12 := rfl
  omega

/-- A month without explicit entries leaves at most eleven budgeted months. -/
theorem budgetedCount_le_eleven (env : Env) (year : String) (m : Int) (hm : m ∈ months)
    (he : monthEntries env year m = []) : budgetedCount env year ≤ 11 := by
  unfold budgetedCount
  have hle := List.length_filter_le (fun month => !(monthEntries env year month).isEmpty) months
  have h12 : months.length = 12 := rfl
  have hne : (months.filter (fun month => !(monthEntries env year month).isEmpty)).length
      ≠ months.length := by
    intro heq
    have := (List.filter_length_eq_length.mp heq) m hm
    simp [he] at this
  omega

theorem budgetedCount_eq_twelve (env : Env) (year : String)
    (h : ∀ m ∈ months, monthEntries env year m ≠ []) : budgetedCount env year = 12 := by
  unfold budgetedCount
  have : months.filter (fun month => !(monthEntries env year month).isEmpty) = months := by
    rw [List.filter_eq_self]
    intro m hm
    have := h m hm
    cases hl : monthEntries env year m with
    | nil => exact absurd hl this
    | cons b bs => rfl
  rw [this]
  rfl

/-- Where the division by `12 - budgetedMonths` is reached, `deductStep`
stores the share; elsewhere it does not divide by that number. -/
theorem deductStep_share (ov : Bool) (s : Locals) (month : Int) (bs : Stats) (kv : Int × Dbl) :
    deductStep ov s month bs kv
      = if reachesShareDivision ov s month kv then
          setCell bs kv.1 month
            ((kv.2 - DMap.getD s.yearDeduction kv.1 0) / Dbl.ofInt (12 - s.budgetedMonths))
        else if Dbl.ge (DMap.getD s.yearDeduction kv.1 0 / kv.2) 1 then bs
        else if !ov then addCell bs kv.1 month ((kv.2 - DMap.getD s.yearDeduction kv.1 0) / 12)
        else bs := by
  unfold deductStep reachesShareDivision
  cases hge : Dbl.ge (DMap.getD s.yearDeduction kv.1 0 / kv.2) 1 <;>
    cases ov <;> cases hb : DMap.getD s.isBudgeted month false <;> simp

theorem lastOr_same {ι α : Type} (l : List ι) (a : α) : lastOr l (fun _ => a) a = a := by
  unfold lastOr
  cases l.getLast? <;> rfl

theorem deductSlot_budgeted (d : Dbl) (n : Int) (y a : Dbl) :
    deductSlot true d true n y a = a := by
  unfold deductSlot
  split <;> rfl

theorem plainSlot_budgeted (v a : Dbl) : plainSlot true true v a = a := rfl

theorem isEmpty_eq_false_of_ne_nil {α : Type} (l : List α) (h : l ≠ []) : l.isEmpty = false := by
  cases l with
  | nil => exact absurd rfl h
  | cons b bs => rfl

/-- C12: in `getBudgetStats`, the division by `12 - budgetedMonths` is only
reached for a month with no explicit entry, and then `budgetedMonths <= 11`,
so the divisor is not zero.  When all 12 months have an explicit entry,
`budgetedMonths` is 12, the division is never reached, and with override on
every month slot of every category (known to the registry, or any category
when the matrix passed in is empty) is the category's explicit monthly
estimate for that month (0 if none). -/
theorem getBudgetStats_share_division (env : Env) (budgetStats : Stats) (startYear : Int) :
    (∀ month ∈ months, ∀ categoryBudget : Int × Dbl,
        reachesShareDivision env.BudgetOverride (passLocals env budgetStats startYear) month
          categoryBudget = true →
        monthEntries env (toString startYear) month = []
          ∧ (passLocals env budgetStats startYear).budgetedMonths ≤ 11
          ∧ 12 - (passLocals env budgetStats startYear).budgetedMonths ≠ 0)
      ∧ ((∀ month ∈ months, monthEntries env (toString startYear) month ≠ []) →
          (passLocals env budgetStats startYear).budgetedMonths = 12
          ∧ (∀ month ∈ months, ∀ categoryBudget : Int × Dbl,
              reachesShareDivision env.BudgetOverride (passLocals env budgetStats startYear)
                month categoryBudget = false)
          ∧ (env.BudgetOverride = true → ∀ c : Int,
              (c ∈ env.categories.map Category.CATEGID ∨ budgetStats = []) →
              ∀ m ∈ months, cell (getBudgetStats env budgetStats startYear true) c m
                = explicitEstimate env (toString startYear) c m)) := by
  obtain ⟨hB, hN⟩ := passLocals_budgeted env budgetStats startYear
  refine ⟨?_, ?_⟩
  · intro month hmonth kv hreach
    have hfree : DMap.getD (passLocals env budgetStats startYear).isBudgeted month false
        = false := by
      unfold reachesShareDivision at hreach
      simp only [Bool.and_eq_true, Bool.not_eq_true'] at hreach
      exact hreach.2
    rw [hB month hmonth] at hfree
    have hempty : monthEntries env (toString startYear) month = [] := by
      cases hl : monthEntries env (toString startYear) month with
      | nil => rfl
      | cons b bs => rw [hl] at hfree; simp at hfree
    have hle := budgetedCount_le_eleven env (toString startYear) month hmonth hempty
    rw [hN]
    exact ⟨hempty, hle, by omega⟩
  · intro hall
    refine ⟨?_, ?_, ?_⟩
    · rw [hN]; exact budgetedCount_eq_twelve env _ hall
    · intro month hmonth kv
      unfold reachesShareDivision
      rw [hB month hmonth, isEmpty_eq_false_of_ne_nil _ (hall month hmonth)]
      simp
    · intro hov c hc m hm
      show cell (monthlyStats env budgetStats startYear) c m = _
      rw [cell_monthlyStats env budgetStats startYear c m hm hc, hov,
        isEmpty_eq_false_of_ne_nil _ (hall m hm)]
      simp only [Bool.not_false, deductSlot_budgeted, plainSlot_budgeted, lastOr_same]
      split <;> rfl

/-- Witness of C12 on a year whose twelve months all hold an entry:
`budgetedMonths` is 12 and the month slot 4 of category 1 is its explicit
estimate 10. -/
theorem getBudgetStats_share_division_witness :
    (passLocals fullYearEnv [] 2024).budgetedMonths = 12
      ∧ cell (getBudgetStats fullYearEnv [] 2024 true) 1 4 = 10 :=
  ⟨((getBudgetStats_share_division fullYearEnv [] 2024).2 (by decide!)).1,
    ((((getBudgetStats_share_division fullYearEnv [] 2024).2 (by decide!)).2.2 rfl 1
      (Or.inr rfl) 4 (by decide)).trans (by decide!))⟩

/-! ## A yearly estimate of zero -/

theorem Dbl.div_def (a b : Dbl) : a / b = Dbl.div a b := rfl

theorem Dbl.sub_def (a b : Dbl) : a - b = Dbl.add a (Dbl.neg b) := rfl

theorem Dbl.add_def (a b : Dbl) : a + b = Dbl.add a b := rfl

theorem Dbl.ofInt_twelve : Dbl.ofInt 12 = 12 := by decide!

theorem Dbl.zero_eq : (0 : Dbl) = Dbl.fin 0 := by decide!

/-- A positive value over the positive zero is plus infinity, which passes
the test `>= 1`. -/
theorem Dbl.ge_div_zero_of_pos (d : Dbl) (h : Dbl.lt 0 d = true) :
    Dbl.ge (d / Dbl.fin 0) 1 = true := by
  rw [Dbl.div_def]
  cases d with
  | fin q =>
    have hq : 0 < q := by
      have : Dbl.lt (Dbl.fin 0) (Dbl.fin q) = true := by rw [← Dbl.zero_eq]; exact h
      simpa [Dbl.lt, Dbl.toRat?] using this
    have hq0 : q ≠ 0 := ne_of_gt hq
    have hneg : ¬ q < 0 := not_lt.mpr (le_of_lt hq)
    simp [Dbl.div, Dbl.toRat?, hq0, Dbl.isNeg, hneg, Dbl.signedInf, Dbl.ge]
  | negZero =>
    have : Dbl.lt (Dbl.fin 0) Dbl.negZero = true := by rw [← Dbl.zero_eq]; exact h
    simp [Dbl.lt, Dbl.toRat?] at this
  | pinf => simp [Dbl.div, Dbl.toRat?, Dbl.isNeg, Dbl.signedInf, Dbl.ge]
  | ninf =>
    have : Dbl.lt (Dbl.fin 0) Dbl.ninf = true := by rw [← Dbl.zero_eq]; exact h
    simp [Dbl.lt] at this
  | nan =>
    have : Dbl.lt (Dbl.fin 0) Dbl.nan = true := by rw [← Dbl.zero_eq]; exact h
    simp [Dbl.lt] at this

/-- Zero over a positive integer is the positive zero. -/
theorem Dbl.zero_div_ofInt (k : Int) (hk : 0 < k) : Dbl.fin 0 / Dbl.ofInt k = Dbl.fin 0 := by
  rw [Dbl.div_def]
  have hk0 : (k : ℚ) ≠ 0 := by exact_mod_cast (ne_of_gt hk)
  have hkn : ¬ (k : ℚ) < 0 := by
    have : (0 : ℚ) < (k : ℚ) := by exact_mod_cast hk
    exact not_lt.mpr (le_of_lt this)
  simp [Dbl.div, Dbl.ofInt, Dbl.toRat?, hk0, Dbl.isNeg, hkn, Dbl.signedZero]

/-- C11, as stated, fails: with the deduct-monthly option on, a yearly
estimate of zero (a Yearly entry of amount 0) and one explicit monthly entry
of -60 in month 0, the ratio -60 / 0 is minus infinity, the step is not
skipped, and the month slot 1 holds 5 while the category has no explicit
entry in that month.  Likewise with the yearly estimate -0.0 (an entry of
period None and amount -5) and one explicit monthly entry of 60: the ratio
60 / -0.0 is minus infinity and the month slot 1 holds -5. -/
theorem getBudgetStats_zero_yearly_refuted :
    (getEstimate false (period ⟨10, 1, "Yearly", 0, ""⟩) 0 = 0
      ∧ explicitTotal
          (envOf [⟨10, 1, "Yearly", 0, ""⟩, ⟨11, 1, "Monthly", Dbl.fin (-60), ""⟩] false true)
          "2024" 1 = Dbl.fin (-60)
      ∧ explicitEstimate
          (envOf [⟨10, 1, "Yearly", 0, ""⟩, ⟨11, 1, "Monthly", Dbl.fin (-60), ""⟩] false true)
          "2024" 1 1 = 0
      ∧ cell (getBudgetStats
          (envOf [⟨10, 1, "Yearly", 0, ""⟩, ⟨11, 1, "Monthly", Dbl.fin (-60), ""⟩] false true)
          [] 2024 true) 1 1 = 5)
    ∧ (getEstimate false (period ⟨10, 1, "None", Dbl.fin (-5), ""⟩) (Dbl.fin (-5)) = Dbl.negZero
      ∧ explicitTotal
          (envOf [⟨10, 1, "None", Dbl.fin (-5), ""⟩, ⟨11, 1, "Monthly", 60, ""⟩] false true)
          "2024" 1 = 60
      ∧ explicitEstimate
          (envOf [⟨10, 1, "None", Dbl.fin (-5), ""⟩, ⟨11, 1, "Monthly", 60, ""⟩] false true)
          "2024" 1 1 = 0
      ∧ cell (getBudgetStats
          (envOf [⟨10, 1, "None", Dbl.fin (-5), ""⟩, ⟨11, 1, "Monthly", 60, ""⟩] false true)
          [] 2024 true) 1 1 = Dbl.fin (-5)) := by
  decide!

/-- A negative value over the negative zero is plus infinity, which passes
the test `>= 1`. -/
theorem Dbl.ge_div_negZero_of_neg (d : Dbl) (h : Dbl.lt d 0 = true) :
    Dbl.ge (d / Dbl.negZero) 1 = true := by
  rw [Dbl.div_def]
  rw [Dbl.zero_eq] at h
  cases d with
  | fin q =>
    have hq : q < 0 := by simpa [Dbl.lt, Dbl.toRat?] using h
    have hq0 : q ≠ 0 := ne_of_lt hq
    simp [Dbl.div, Dbl.toRat?, hq0, Dbl.isNeg, hq, Dbl.signedInf, Dbl.ge]
  | negZero => simp [Dbl.lt, Dbl.toRat?] at h
  | pinf => simp [Dbl.lt] at h
  | ninf => simp [Dbl.div, Dbl.toRat?, Dbl.isNeg, Dbl.signedInf, Dbl.ge]
  | nan => simp [Dbl.lt] at h

/-- A negative value over the positive zero is minus infinity, which fails
the test `>= 1`. -/
theorem Dbl.not_ge_div_zero_of_neg (d : Dbl) (h : Dbl.lt d 0 = true) :
    Dbl.ge (d / Dbl.fin 0) 1 = false := by
  rw [Dbl.div_def]
  rw [Dbl.zero_eq] at h
  cases d with
  | fin q =>
    have hq : q < 0 := by simpa [Dbl.lt, Dbl.toRat?] using h
    have hq0 : q ≠ 0 := ne_of_lt hq
    simp [Dbl.div, Dbl.toRat?, hq0, Dbl.isNeg, hq, Dbl.signedInf, Dbl.ge]
  | negZero => simp [Dbl.lt, Dbl.toRat?] at h
  | pinf => simp [Dbl.lt] at h
  | ninf => simp [Dbl.div, Dbl.toRat?, Dbl.isNeg, Dbl.signedInf, Dbl.ge]
  | nan => simp [Dbl.lt] at h

/-- A positive value over the negative zero is minus infinity, which fails
the test `>= 1`. -/
theorem Dbl.not_ge_div_negZero_of_pos (d : Dbl) (h : Dbl.lt 0 d = true) :
    Dbl.ge (d / Dbl.negZero) 1 = false := by
  rw [Dbl.div_def]
  rw [Dbl.zero_eq] at h
  cases d with
  | fin q =>
    have hq : 0 < q := by simpa [Dbl.lt, Dbl.toRat?] using h
    have hq0 : q ≠ 0 := ne_of_gt hq
    have hneg : ¬ q < 0 := not_lt.mpr (le_of_lt hq)
    simp [Dbl.div, Dbl.toRat?, hq0, Dbl.isNeg, hneg, Dbl.signedInf, Dbl.ge]
  | negZero => simp [Dbl.lt, Dbl.toRat?] at h
  | pinf => simp [Dbl.div, Dbl.toRat?, Dbl.isNeg, Dbl.signedInf, Dbl.ge]
  | ninf => simp [Dbl.lt] at h
  | nan => simp [Dbl.lt] at h

/-- The two zeros are the doubles of value 0. -/
theorem Dbl.zero_cases (x : Dbl) (h : x.toRat? = some 0) :
    x = Dbl.fin 0 ∨ x = Dbl.negZero := by
  cases x with
  | fin q =>
    left
    have hq : q = 0 := by simpa [Dbl.toRat?] using h
    rw [hq]
  | negZero => exact Or.inr rfl
  | pinf => simp [Dbl.toRat?] at h
  | ninf => simp [Dbl.toRat?] at h
  | nan => simp [Dbl.toRat?] at h

/-- Zero over zero is NaN, which fails the test `>= 1`. -/
theorem Dbl.zero_div_zero_not_ge (d y : Dbl) (hd : d.toRat? = some 0)
    (hy : y.toRat? = some 0) : Dbl.ge (d / y) 1 = false := by
  rcases Dbl.zero_cases d hd with h | h <;> rcases Dbl.zero_cases y hy with h' | h' <;>
    rw [h, h'] <;> decide!

/-- The difference of two zeros is a zero. -/
theorem Dbl.zero_sub_zero (y d : Dbl) (hy : y.toRat? = some 0) (hd : d.toRat? = some 0) :
    (y - d).toRat? = some 0 := by
  rcases Dbl.zero_cases d hd with h | h <;> rcases Dbl.zero_cases y hy with h' | h' <;>
    rw [h, h'] <;> decide!

/-- A zero over a positive integer is a zero. -/
theorem Dbl.zero_div_pos (z : Dbl) (hz : z.toRat? = some 0) (k : Int) (hk : 0 < k) :
    (z / Dbl.ofInt k).toRat? = some 0 := by
  have hk0 : (k : ℚ) ≠ 0 := by exact_mod_cast (ne_of_gt hk)
  have hkn : ¬ (k : ℚ) < 0 := by
    have : (0 : ℚ) < (k : ℚ) := by exact_mod_cast hk
    exact not_lt.mpr (le_of_lt this)
  rcases Dbl.zero_cases z hz with h | h
  · rw [h, Dbl.zero_div_ofInt k hk]
    rfl
  · rw [h, Dbl.div_def]
    simp [Dbl.div, Dbl.ofInt, Dbl.toRat?, hk0, Dbl.isNeg, hkn, Dbl.signedZero]

/-- C11, amended: `getBudgetStats` has no guard for a yearly estimate of
zero; the division yields an infinity or NaN and nothing faults.  With the
deduct-monthly option on and a category whose one annual entry has a yearly
estimate Y that is a zero, +0.0 or -0.0: when the explicit monthly total D
is nonzero with the sign of Y (D > 0 for Y = +0.0, D < 0 for Y = -0.0) the
ratio D / Y is plus infinity, the step is skipped and every month slot is the
explicit monthly estimate E(c, m); when D is a zero the ratio is NaN and the
step runs with the share (Y - D) / 12, resp. (Y - D) / (12 - n), which is a
zero: with override off the slot is E(c, m) plus that zero; with override on
a month with explicit entries keeps E(c, m) and a month without holds a zero,
E(c, m) being 0 there; when D is nonzero with the other sign the ratio is
minus infinity and the step is not skipped. -/
theorem getBudgetStats_zero_yearly (env : Env) (budgetStats : Stats) (startYear : Int)
    (c : Int) (e : Data) (hc : c ∈ env.categories.map Category.CATEGID ∨ budgetStats = [])
    (hd : env.BudgetDeductMonthly = true)
    (he : ofCategory c (annualEntries env (toString startYear)) = [e])
    (hY : (getEstimate false (period e) e.AMOUNT).toRat? = some 0)
    (m : Int) (hm : m ∈ months) :
    (((getEstimate false (period e) e.AMOUNT = Dbl.fin 0
          ∧ Dbl.lt 0 (explicitTotal env (toString startYear) c) = true)
        ∨ (getEstimate false (period e) e.AMOUNT = Dbl.negZero
          ∧ Dbl.lt (explicitTotal env (toString startYear) c) 0 = true)) →
        Dbl.ge (explicitTotal env (toString startYear) c
          / getEstimate false (period e) e.AMOUNT) 1 = true
        ∧ cell (getBudgetStats env budgetStats startYear true) c m
          = explicitEstimate env (toString startYear) c m)
      ∧ ((explicitTotal env (toString startYear) c).toRat? = some 0 →
          Dbl.ge (explicitTotal env (toString startYear) c
            / getEstimate false (period e) e.AMOUNT) 1 = false
          ∧ (env.BudgetOverride = false →
            cell (getBudgetStats env budgetStats startYear true) c m
              = explicitEstimate env (toString startYear) c m
                + (getEstimate false (period e) e.AMOUNT
                    - explicitTotal env (toString startYear) c) / 12
            ∧ ((getEstimate false (period e) e.AMOUNT
                  - explicitTotal env (toString startYear) c) / 12).toRat? = some 0)
          ∧ (env.BudgetOverride = true →
            (monthEntries env (toString startYear) m ≠ [] →
              cell (getBudgetStats env budgetStats startYear true) c m
                = explicitEstimate env (toString startYear) c m)
            ∧ (monthEntries env (toString startYear) m = [] →
              (cell (getBudgetStats env budgetStats startYear true) c m).toRat? = some 0
              ∧ explicitEstimate env (toString startYear) c m = 0)))
      ∧ (((getEstimate false (period e) e.AMOUNT = Dbl.fin 0
            ∧ Dbl.lt (explicitTotal env (toString startYear) c) 0 = true)
          ∨ (getEstimate false (period e) e.AMOUNT = Dbl.negZero
            ∧ Dbl.lt 0 (explicitTotal env (toString startYear) c) = true)) →
          Dbl.ge (explicitTotal env (toString startYear) c
            / getEstimate false (period e) e.AMOUNT) 1 = false) := by
  have key : cell (getBudgetStats env budgetStats startYear true) c m
      = deductSlot env.BudgetOverride (explicitTotal env (toString startYear) c)
          (!(monthEntries env (toString startYear) m).isEmpty)
          (budgetedCount env (toString startYear)) (getEstimate false (period e) e.AMOUNT)
          (explicitEstimate env (toString startYear) c m) := by
    show cell (monthlyStats env budgetStats startYear) c m = _
    rw [cell_monthlyStats env budgetStats startYear c m hm hc, if_pos hd, he]
    rfl
  refine ⟨?_, ?_, ?_⟩
  · intro h
    have hge : Dbl.ge (explicitTotal env (toString startYear) c
        / getEstimate false (period e) e.AMOUNT) 1 = true := by
      rcases h with ⟨hy, hpos⟩ | ⟨hy, hneg⟩
      · rw [hy]
        exact Dbl.ge_div_zero_of_pos _ hpos
      · rw [hy]
        exact Dbl.ge_div_negZero_of_neg _ hneg
    refine ⟨hge, ?_⟩
    rw [key]
    unfold deductSlot
    rw [if_pos hge]
  · intro hD
    have hnge := Dbl.zero_div_zero_not_ge _ _ hD hY
    have hadj := Dbl.zero_sub_zero _ _ hY hD
    refine ⟨hnge, ?_, ?_⟩
    · intro hov
      refine ⟨?_, ?_⟩
      · rw [key]
        unfold deductSlot
        simp only [hnge, hov, Bool.false_eq_true, if_false, Bool.not_false, if_true]
      · rw [← Dbl.ofInt_twelve]
        exact Dbl.zero_div_pos _ hadj 12 (by norm_num)
    · intro hov
      refine ⟨?_, ?_⟩
      · intro hne
        rw [key]
        unfold deductSlot
        simp only [hnge, hov, Bool.false_eq_true, if_false, Bool.not_true,
          isEmpty_eq_false_of_ne_nil _ hne, Bool.not_false, if_true]
      · intro hl
        have hle := budgetedCount_le_eleven env (toString startYear) m hm hl
        refine ⟨?_, ?_⟩
        · rw [key]
          unfold deductSlot
          simp only [hnge, hov, hl, Bool.false_eq_true, if_false, Bool.not_true,
            List.isEmpty_nil, Bool.not_false, if_true]
          exact Dbl.zero_div_pos _ hadj _ (by omega)
        · unfold explicitEstimate
          rw [hl]
          rfl
  · intro h
    rcases h with ⟨hy, hneg⟩ | ⟨hy, hpos⟩
    · rw [hy]
      exact Dbl.not_ge_div_zero_of_neg _ hneg
    · rw [hy]
      exact Dbl.not_ge_div_negZero_of_pos _ hpos

/-- Witness of the amended C11: a yearly estimate of +0.0 next to one
explicit monthly entry of 60 in month 0 (D = 60 > 0) leaves the month slot 0
at its explicit estimate 60. -/
theorem getBudgetStats_zero_yearly_witness :
    cell (getBudgetStats
      (envOf [⟨10, 1, "Yearly", 0, ""⟩, ⟨11, 1, "Monthly", 60, ""⟩] false true) [] 2024 true)
      1 0 = 60 :=
  ((((getBudgetStats_zero_yearly
      (envOf [⟨10, 1, "Yearly", 0, ""⟩, ⟨11, 1, "Monthly", 60, ""⟩] false true) [] 2024 1
      ⟨10, 1, "Yearly", 0, ""⟩ (Or.inr rfl) rfl (by decide!) (by decide!) 0 (by decide)).1
    (Or.inl ⟨by decide!, by decide!⟩)).2).trans (by decide!))

/-! ## The divisions of copyBudgetYear -/

/-- C13 does not hold of the code: when all 12 months under the destination's
year part already carry entries, `copyBudgetYear` counts 12 budgeted months,
the ratio 120 / 1200 is below 1, and the amount is computed as
(1200 - 120) / (12 - 12): the divisor is zero and the saved entry has an
infinite amount. -/
theorem copyBudgetYear_divides_by_zero :
    fullYearEnv.get 10 = some "2024" ∧ fullYearEnv.get 105 = some "2024-05"
      ∧ budgetedCount fullYearEnv "2024" = 12
      ∧ Dbl.ofInt (12 - budgetedCount fullYearEnv "2024") = 0
      ∧ Dbl.lt (explicitTotal fullYearEnv "2024" 1
          / getEstimate false (period ⟨10, 1, "Yearly", 1200, ""⟩) 1200) 1 = true
      ∧ copyBudgetYear fullYearEnv 105 10
        = some (fullYearEnv.budgets ++ [⟨105, 1, "Monthly", Dbl.pinf, ""⟩]) := by
  decide!

/-! ## Which slots exist -/

theorem foldl_inv_mem {σ ι : Type} (step : σ → ι → σ) (P : σ → Prop) (l : List ι)
    (h : ∀ s x, x ∈ l → P s → P (step s x)) (s : σ) (hs : P s) :
    P (l.foldl step s) := by
  induction l generalizing s with
  | nil => exact hs
  | cons x xs ih =>
    exact ih (fun s y hy => h s y (List.mem_cons_of_mem _ hy)) _
      (h s x (List.mem_cons_self _ _) hs)

theorem cell_eq_slot? (bs : Stats) (c m : Int) : cell bs c m = (slot? bs c m).getD 0 := by
  unfold cell slot? DMap.getD
  cases DMap.find? bs c <;> rfl

theorem slot?_setCell (bs : Stats) (c m : Int) (v : Dbl) (c' m' : Int) :
    slot? (setCell bs c m v) c' m' = if c' = c ∧ m' = m then some v else slot? bs c' m' := by
  unfold slot?
  rw [find?_setCell]
  by_cases hc : c' = c
  · subst hc
    simp only [if_true, Option.bind, DMap.find?_set, true_and]
    by_cases hm : m' = m
    · simp [hm]
    · simp only [hm, if_false, DMap.getD]
      cases DMap.find? bs c' <;> rfl
  · simp [hc]

theorem slot?_addCell (bs : Stats) (c m : Int) (x : Dbl) (c' m' : Int) :
    slot? (addCell bs c m x) c' m'
      = if c' = c ∧ m' = m then some (cell bs c m + x) else slot? bs c' m' := by
  unfold addCell
  rw [slot?_setCell]

theorem slot?_zeroMonths (bs : Stats) (k c m : Int) :
    slot? (months.foldl (fun bs month => setCell bs k month 0) bs) c m
      = if c = k ∧ m ∈ months then some 0 else slot? bs c m := by
  rw [foldl_obs (fun bs month => setCell bs k month 0) (fun t => slot? t c m)
    (fun month a => if month = m then (if c = k then some 0 else a) else a)]
  · rw [foldl_ite_single m _ months months_nodup]
    by_cases hm : m ∈ months
    · by_cases hc : c = k <;> simp [hm, hc]
    · simp [hm]
  · intro t month
    rw [slot?_setCell]
    by_cases hm : month = m
    · subst hm
      by_cases hc : c = k <;> simp [hc]
    · have : ¬ m = month := fun e => hm e.symm
      simp [hm, this]

/-- After the initialisation loop a known category has its twelve month
slots, holding zero; no other slot is created. -/
theorem slot?_initStats (categories : List Category) (bs : Stats) (c m : Int) :
    slot? (initStats categories bs) c m
      = if c ∈ categories.map Category.CATEGID ∧ m ∈ months then some 0 else slot? bs c m := by
  unfold initStats
  induction categories using List.reverseRecOn with
  | nil => simp
  | append_singleton xs x ih =>
    simp only [List.foldl_append, List.foldl_cons, List.foldl_nil, slot?_zeroMonths, ih,
      List.map_append, List.map_cons, List.map_nil, List.mem_append, List.mem_singleton]
    by_cases hc : c = x.CATEGID
    · by_cases hm : m ∈ months <;> simp [hc, hm]
    · simp [hc]

theorem annual_slot_year (l : List Data) (s : Locals) (c : Int) :
    slot? (l.foldl annualStep s).budgetStats c 12
      = lastOr (ofCategory c l) (fun b => some (getEstimate false (period b) b.AMOUNT))
          (slot? s.budgetStats c 12) := by
  unfold ofCategory
  rw [← foldl_ite_last, foldl_obs annualStep (fun t => slot? t.budgetStats c 12)
    (fun b a => if decide (b.CATEGID = c) then some (getEstimate false (period b) b.AMOUNT)
      else a)]
  intro t b
  simp only [annualStep, slot?_setCell, DMap.getD_set, and_true, if_true, decide_eq_true_eq]
  by_cases h : b.CATEGID = c
  · simp [h]
  · have : ¬ c = b.CATEGID := fun e => h e.symm
    simp [h, this]

/-- A step that only assigns or adds to cells keeps the slots that exist. -/
theorem isSome_slot?_setCell (bs : Stats) (k j : Int) (v : Dbl) (c m : Int)
    (h : (slot? bs c m).isSome = true) : (slot? (setCell bs k j v) c m).isSome = true := by
  rw [slot?_setCell]
  split
  · rfl
  · exact h

theorem annualStep_isSome (s : Locals) (b : Data) (c m : Int)
    (h : (slot? s.budgetStats c m).isSome = true) :
    (slot? (annualStep s b).budgetStats c m).isSome = true :=
  isSome_slot?_setCell _ _ _ _ _ _ h

theorem monthlyStep_slot (month : Int) (s : Locals) (b : Data) (c m : Int) :
    slot? (monthlyStep month s b).budgetStats c m
      = if c = b.CATEGID ∧ m = month then some (getEstimate true (period b) b.AMOUNT)
        else slot? s.budgetStats c m := by
  unfold monthlyStep
  by_cases hb : DMap.getD s.isBudgeted month false = true
  · simp only [hb, if_true, slot?_setCell]
  · have hb' : DMap.getD s.isBudgeted month false = false := by simpa using hb
    simp only [hb', slot?_setCell]
    rfl

theorem deductStep_slot (ov : Bool) (s : Locals) (month : Int) (bs : Stats) (kv : Int × Dbl)
    (c m : Int) :
    (m ≠ month → slot? (deductStep ov s month bs kv) c m = slot? bs c m)
      ∧ ((slot? bs c m).isSome = true → (slot? (deductStep ov s month bs kv) c m).isSome = true) := by
  unfold deductStep
  refine ⟨?_, ?_⟩
  · intro hm
    split
    · rfl
    · split
      · simp [slot?_addCell, hm]
      · split
        · simp [slot?_setCell, hm]
        · rfl
  · intro h
    split
    · exact h
    · split
      · exact isSome_slot?_setCell _ _ _ _ _ _ h
      · split
        · exact isSome_slot?_setCell _ _ _ _ _ _ h
        · exact h

theorem plainStep_slot (ov : Bool) (s : Locals) (month : Int) (bs : Stats) (kv : Int × Dbl)
    (c m : Int) :
    (m ≠ month → slot? (plainStep ov s month bs kv) c m = slot? bs c m)
      ∧ ((slot? bs c m).isSome = true → (slot? (plainStep ov s month bs kv) c m).isSome = true) := by
  unfold plainStep
  refine ⟨?_, ?_⟩
  · intro hm
    split
    · simp [slot?_addCell, hm]
    · split
      · simp [slot?_setCell, hm]
      · rfl
  · intro h
    split
    · exact isSome_slot?_setCell _ _ _ _ _ _ h
    · split
      · exact isSome_slot?_setCell _ _ _ _ _ _ h
      · exact h

theorem monthlyPass_slot (env : Env) (year : String) (s : Locals) (c j : Int) :
    (j ∉ months → slot? (monthlyPass env year s).budgetStats c j = slot? s.budgetStats c j)
      ∧ ((slot? s.budgetStats c j).isSome = true →
          (slot? (monthlyPass env year s).budgetStats c j).isSome = true) := by
  unfold monthlyPass
  refine ⟨?_, ?_⟩
  · intro hj
    refine foldl_inv_mem _ (fun (t : Locals) => slot? t.budgetStats c j = slot? s.budgetStats c j)
      months ?_ s rfl
    intro t month hmonth ht
    refine foldl_inv _ (fun (u : Locals) => slot? u.budgetStats c j = slot? s.budgetStats c j)
      ?_ _ t ht
    intro u b hu
    have hne : ¬ j = month := fun e => hj (e ▸ hmonth)
    rw [monthlyStep_slot]
    simp only [hne, and_false, if_false]
    exact hu
  · intro h
    refine foldl_inv _ (fun (t : Locals) => (slot? t.budgetStats c j).isSome = true) ?_ months s h
    intro t month ht
    refine foldl_inv _ (fun (u : Locals) => (slot? u.budgetStats c j).isSome = true) ?_ _ t ht
    intro u b hu
    rw [monthlyStep_slot]
    split
    · rfl
    · exact hu

theorem yearlyPass_slot (env : Env) (s : Locals) (c j : Int) :
    (j ∉ months → slot? (yearlyPass env s) c j = slot? s.budgetStats c j)
      ∧ ((slot? s.budgetStats c j).isSome = true →
          (slot? (yearlyPass env s) c j).isSome = true) := by
  unfold yearlyPass
  refine ⟨?_, ?_⟩
  · intro hj
    refine foldl_inv_mem _ (fun (t : Stats) => slot? t c j = slot? s.budgetStats c j)
      months ?_ _ rfl
    intro t month hmonth ht
    have hne : j ≠ month := fun e => hj (e ▸ hmonth)
    split
    · refine foldl_inv _ (fun (u : Stats) => slot? u c j = slot? s.budgetStats c j) ?_ _ t ht
      intro u kv hu
      rw [(deductStep_slot _ _ _ _ _ _ _).1 hne]
      exact hu
    · refine foldl_inv _ (fun (u : Stats) => slot? u c j = slot? s.budgetStats c j) ?_ _ t ht
      intro u kv hu
      rw [(plainStep_slot _ _ _ _ _ _ _).1 hne]
      exact hu
  · intro h
    refine foldl_inv _ (fun (t : Stats) => (slot? t c j).isSome = true) ?_ months _ h
    intro t month ht
    split
    · exact foldl_inv _ (fun (u : Stats) => (slot? u c j).isSome = true)
        (fun u kv hu => (deductStep_slot _ _ _ _ _ _ _).2 hu) _ t ht
    · exact foldl_inv _ (fun (u : Stats) => (slot? u c j).isSome = true)
        (fun u kv hu => (plainStep_slot _ _ _ _ _ _ _).2 hu) _ t ht

/-- The annual slot of the statistics: the yearly estimate of the last
annual entry of the category, or what the matrix passed in held. -/
theorem slot?_monthlyStats_year (env : Env) (budgetStats : Stats) (startYear : Int) (c : Int) :
    slot? (monthlyStats env budgetStats startYear) c 12
      = lastOr (ofCategory c (annualEntries env (toString startYear)))
          (fun b => some (getEstimate false (period b) b.AMOUNT)) (slot? budgetStats c 12) := by
  rw [monthlyStats_eq, (yearlyPass_slot env _ c 12).1 twelve_not_mem_months]
  unfold passLocals
  rw [(monthlyPass_slot env _ _ c 12).1 twelve_not_mem_months, annual_slot_year]
  unfold initLocals
  simp only [slot?_initStats, twelve_not_mem_months, and_false, if_false]
  rfl

/-- The month slots of a known category exist in the statistics. -/
theorem isSome_slot?_monthlyStats (env : Env) (budgetStats : Stats) (startYear : Int)
    (c m : Int) (hc : c ∈ env.categories.map Category.CATEGID) (hm : m ∈ months) :
    (slot? (monthlyStats env budgetStats startYear) c m).isSome = true := by
  rw [monthlyStats_eq]
  apply (yearlyPass_slot env _ c m).2
  unfold passLocals
  apply (monthlyPass_slot env _ _ c m).2
  refine foldl_inv annualStep (fun (t : Locals) => (slot? t.budgetStats c m).isSome = true)
    (fun t b ht => annualStep_isSome t b c m ht) _ _ ?_
  unfold initLocals
  simp only [slot?_initStats, hc, hm, and_self, if_true]
  rfl

/-- C14: in `getBudgetStats` with `groupByMonth = true`, started from an empty
matrix, slot 12 of a category holds the yearly estimate
`getEstimate false period amount` of its last stored entry in the annual
budget-year and is absent when it has none; every known category has its
month slots 0..11, and such a slot is zero when the category has neither an
annual entry nor an entry in that month. -/
theorem getBudgetStats_slots (env : Env) (startYear : Int) (c : Int) :
    slot? (getBudgetStats env [] startYear true) c 12
        = (ofCategory c (annualEntries env (toString startYear))).getLast?.map
            (fun e => getEstimate false (period e) e.AMOUNT)
      ∧ (c ∈ env.categories.map Category.CATEGID → ∀ m ∈ months,
          (slot? (getBudgetStats env [] startYear true) c m).isSome = true
          ∧ (ofCategory c (annualEntries env (toString startYear)) = [] →
              ofCategory c (monthEntries env (toString startYear) m) = [] →
              slot? (getBudgetStats env [] startYear true) c m = some 0)) := by
  refine ⟨?_, ?_⟩
  · show slot? (monthlyStats env [] startYear) c 12 = _
    rw [slot?_monthlyStats_year]
    exact lastOr_eq_map _ _
  · intro hc m hm
    have hsome : (slot? (monthlyStats env [] startYear) c m).isSome = true :=
      isSome_slot?_monthlyStats env [] startYear c m hc hm
    refine ⟨hsome, ?_⟩
    intro ha hmo
    have hcell : cell (monthlyStats env [] startYear) c m = 0 := by
      rw [cell_monthlyStats env [] startYear c m hm (Or.inl hc), ha]
      unfold explicitEstimate
      rw [hmo]
      split <;> rfl
    show slot? (monthlyStats env [] startYear) c m = some 0
    rw [cell_eq_slot?] at hcell
    obtain ⟨v, hv⟩ := Option.isSome_iff_exists.mp hsome
    rw [hv] at hcell ⊢
    exact congrArg some hcell

/-- Witness of C14 on the sample data: the known category 2 has neither an
annual nor a monthly entry, so its month slot 3 exists and holds zero. -/
theorem getBudgetStats_slots_witness :
    slot? (getBudgetStats (sampleEnv true true) [] 2024 true) 2 3 = some 0 :=
  ((getBudgetStats_slots (sampleEnv true true) 2024 2).2 (by decide) 3 (by decide)).2
    (by decide!) (by decide!)

/-! ## The sum of the month slots -/

theorem foldl_congr_mem {α ι : Type} (f g : α → ι → α) (l : List ι)
    (h : ∀ a x, x ∈ l → f a x = g a x) (a : α) : l.foldl f a = l.foldl g a := by
  induction l generalizing a with
  | nil => rfl
  | cons x xs ih =>
    simp only [List.foldl_cons]
    rw [h a x (List.mem_cons_self _ _)]
    exact ih (fun a y hy => h a y (List.mem_cons_of_mem _ hy)) _

theorem Dbl.not_ge_of_lt (x y : Dbl) (h : Dbl.lt x y = true) : Dbl.ge x y = false := by
  cases x <;> cases y <;> simp_all [Dbl.ge, Dbl.lt, Dbl.toRat?]

theorem lastOr_singleton {ι α : Type} (x : ι) (f : ι → α) (a : α) : lastOr [x] f a = f x := rfl

/-- A category with an annual entry is a key of the statistics. -/
theorem mem_keys_of_annual (env : Env) (budgetStats : Stats) (startYear : Int) (c : Int)
    (h : ofCategory c (annualEntries env (toString startYear)) ≠ []) :
    c ∈ DMap.keys (monthlyStats env budgetStats startYear) := by
  have hs := slot?_monthlyStats_year env budgetStats startYear c
  rw [← DMap.find?_isSome_iff]
  cases hl : (ofCategory c (annualEntries env (toString startYear))).getLast? with
  | none => exact absurd (List.getLast?_eq_none_iff.mp hl) h
  | some b =>
    rw [lastOr_of_getLast? _ _ _ b hl] at hs
    unfold slot? at hs
    cases hf : DMap.find? (monthlyStats env budgetStats startYear) c with
    | none => rw [hf] at hs; simp at hs
    | some inner => rfl

/-! ## Rounding errors -/

theorem Dbl.pow2_eq (k : Int) : Dbl.pow2 k = (2 : ℚ) ^ k := by
  unfold Dbl.pow2
  split
  · rename_i h
    obtain ⟨n, rfl⟩ := Int.eq_ofNat_of_zero_le h
    simp
  · rename_i h
    obtain ⟨n, hn⟩ := Int.eq_ofNat_of_zero_le (show 0 ≤ -k by omega)
    have hk : k = -(n : Int) := by omega
    subst hk
    simp

theorem Dbl.pow2_pos (k : Int) : 0 < Dbl.pow2 k := by
  rw [Dbl.pow2_eq]
  positivity

theorem Dbl.pow2_add (a b : Int) : Dbl.pow2 (a + b) = Dbl.pow2 a * Dbl.pow2 b := by
  rw [Dbl.pow2_eq, Dbl.pow2_eq, Dbl.pow2_eq, zpow_add₀ (by norm_num)]

theorem Dbl.halvings_spec (fuel n : Nat) (h1 : 1 ≤ n) (h2 : n ≤ fuel) :
    2 ^ Dbl.halvings fuel n ≤ n ∧ n < 2 ^ (Dbl.halvings fuel n + 1) := by
  induction fuel generalizing n with
  | zero => omega
  | succ fuel ih =>
    unfold Dbl.halvings
    by_cases hn : n < 2
    · rw [if_pos hn]
      have : n = 1 := by omega
      subst this
      simp
    · rw [if_neg hn]
      have := ih (n / 2) (by omega) (by omega)
      obtain ⟨ha, hb⟩ := this
      rw [pow_succ, pow_succ]
      constructor
      · omega
      · omega

theorem Dbl.natLog2_spec (n : Nat) (h1 : 1 ≤ n) :
    2 ^ Dbl.natLog2 n ≤ n ∧ n < 2 ^ (Dbl.natLog2 n + 1) :=
  Dbl.halvings_spec n n h1 (le_refl n)

/-- The binary exponent found by `ilog2` is not too large. -/
theorem Dbl.pow2_ilog2_le (a : ℚ) (ha : 0 < a) : Dbl.pow2 (Dbl.ilog2 a) ≤ a := by
  unfold Dbl.ilog2
  simp only
  split
  · assumption
  · have hnum : 0 < a.num := Rat.num_pos.mpr ha
    have hn1 : 1 ≤ a.num.natAbs := by omega
    have hd1 : 1 ≤ a.den := a.den_pos
    obtain ⟨hn, -⟩ := Dbl.natLog2_spec a.num.natAbs hn1
    obtain ⟨-, hd⟩ := Dbl.natLog2_spec a.den hd1
    have hnq : ((2 : ℚ) ^ Dbl.natLog2 a.num.natAbs) ≤ (a.num.natAbs : ℚ) := by exact_mod_cast hn
    have hdq : (a.den : ℚ) < (2 : ℚ) ^ (Dbl.natLog2 a.den + 1) := by exact_mod_cast hd
    have hnumq : (a.num.natAbs : ℚ) = (a.num : ℚ) := by
      rw [Nat.cast_natAbs, abs_of_pos hnum]
    have hdpos : (0 : ℚ) < (a.den : ℚ) := by exact_mod_cast a.den_pos
    rw [Dbl.pow2_eq]
    have he : ((Dbl.natLog2 a.num.natAbs : Int) - (Dbl.natLog2 a.den : Int) - 1)
        = (Dbl.natLog2 a.num.natAbs : Int) - ((Dbl.natLog2 a.den + 1 : Nat) : Int) := by
      push_cast; ring
    rw [he, zpow_sub₀ (by norm_num), zpow_natCast, zpow_natCast]
    rw [div_le_iff₀ (by positivity)]
    calc (2 : ℚ) ^ Dbl.natLog2 a.num.natAbs ≤ (a.num : ℚ) := by rw [← hnumq]; exact hnq
      _ = a * (a.den : ℚ) := (Rat.mul_den_eq_num a).symm
      _ ≤ a * (2 : ℚ) ^ (Dbl.natLog2 a.den + 1) :=
          mul_le_mul_of_nonneg_left (le_of_lt hdq) (le_of_lt ha)

/-- Rounding to an integer moves a value by at most one half. -/
theorem Dbl.roundHalfEven_err (q : ℚ) : |(Dbl.roundHalfEven q : ℚ) - q| ≤ 1 / 2 := by
  have h1 : ((q.floor : Int) : ℚ) ≤ q := Rat.le_floor.mp (le_refl _)
  have h2 : q < ((q.floor : Int) : ℚ) + 1 := by
    by_contra h
    have h' : ((q.floor + 1 : Int) : ℚ) ≤ q := by push_cast; exact not_lt.mp h
    have := Rat.le_floor.mpr h'
    omega
  unfold Dbl.roundHalfEven
  simp only
  rw [abs_le]
  split
  · constructor <;> linarith
  · split
    · push_cast; constructor <;> linarith
    · rename_i ha hb
      have : q - (q.floor : ℚ) = 1 / 2 := le_antisymm (not_lt.mp hb) (not_lt.mp ha)
      split
      · constructor <;> linarith
      · push_cast; constructor <;> linarith

/-- The core of `round64`: scaling, rounding to an integer and scaling back
moves a positive value by at most half a unit in the last place. -/
theorem Dbl.round_core (a : ℚ) (ha : 0 < a) :
    |(Dbl.roundHalfEven (a / Dbl.pow2 (max (Dbl.ilog2 a) (-1022) - 52)) : ℚ)
        * Dbl.pow2 (max (Dbl.ilog2 a) (-1022) - 52) - a| ≤ a / 2 ^ 53 + 1 / 2 ^ 1075 := by
  have hu : 0 < Dbl.pow2 (max (Dbl.ilog2 a) (-1022) - 52) := Dbl.pow2_pos _
  have hk := Dbl.roundHalfEven_err (a / Dbl.pow2 (max (Dbl.ilog2 a) (-1022) - 52))
  have hulp : Dbl.pow2 (max (Dbl.ilog2 a) (-1022) - 52) / 2 ≤ a / 2 ^ 53 + 1 / 2 ^ 1075 := by
    have h52 : Dbl.pow2 (-52) = 1 / 2 ^ 52 := by
      rw [Dbl.pow2_eq]; norm_num [zpow_neg]
    rcases le_total (-1022) (Dbl.ilog2 a) with h | h
    · rw [max_eq_left h, sub_eq_add_neg, Dbl.pow2_add, h52]
      have := Dbl.pow2_ilog2_le a ha
      have h2 : (0 : ℚ) ≤ 1 / 2 ^ 1075 := by positivity
      calc Dbl.pow2 (Dbl.ilog2 a) * (1 / 2 ^ 52) / 2 = Dbl.pow2 (Dbl.ilog2 a) / 2 ^ 53 := by ring
        _ ≤ a / 2 ^ 53 := by gcongr
        _ ≤ a / 2 ^ 53 + 1 / 2 ^ 1075 := by linarith
    · rw [max_eq_right h]
      have h1074 : Dbl.pow2 (-1022 - 52) = 1 / 2 ^ 1074 := by
        rw [Dbl.pow2_eq]; norm_num [zpow_neg]
      rw [h1074]
      have : (0 : ℚ) ≤ a / 2 ^ 53 := by positivity
      have h3 : (1 : ℚ) / 2 ^ 1074 / 2 = 1 / 2 ^ 1075 := by norm_num
      linarith
  generalize Dbl.pow2 (max (Dbl.ilog2 a) (-1022) - 52) = ulp at hu hk hulp ⊢
  generalize (Dbl.roundHalfEven (a / ulp) : ℚ) = k at hk ⊢
  have e1 : k * ulp - a = (k - a / ulp) * ulp := by field_simp
  rw [e1, abs_mul, abs_of_pos hu]
  calc |k - a / ulp| * ulp ≤ 1 / 2 * ulp := by gcongr
    _ = ulp / 2 := by ring
    _ ≤ _ := hulp

/-- A finite result of `round64` is within the relative error `2 ^ -53`,
or the absolute error `2 ^ -1075`, of the exact value. -/
theorem Dbl.round64_err (q : ℚ) (hq : q ≠ 0) (hf : (Dbl.round64 q).isFinite = true) :
    |(Dbl.round64 q).val - q| ≤ |q| / 2 ^ 53 + 1 / 2 ^ 1075 := by
  by_cases hneg : q < 0
  · have ha : 0 < -q := by linarith
    have hk := Dbl.round_core (-q) ha
    unfold Dbl.round64 at hf ⊢
    simp only [hneg, if_true] at hf ⊢
    generalize (Dbl.roundHalfEven (-q / Dbl.pow2 (max (Dbl.ilog2 (-q)) (-1022) - 52)) : ℚ)
        * Dbl.pow2 (max (Dbl.ilog2 (-q)) (-1022) - 52) = r at hf hk ⊢
    rw [abs_of_neg hneg]
    by_cases h0 : r = 0
    · simp only [h0, if_true, decide_True, Dbl.signedZero, Dbl.val, Dbl.toRat?, Option.getD_some]
      rw [h0] at hk
      simpa using hk
    · simp only [h0, if_false] at hf ⊢
      by_cases hbig : Dbl.pow2 1024 ≤ r
      · simp [hbig, Dbl.signedInf, Dbl.isFinite, Dbl.toRat?] at hf
      · simp only [hbig, if_false, Dbl.val, Dbl.toRat?, Option.getD_some]
        have : -r - q = -(r - -q) := by ring
        rw [this, abs_neg]
        exact hk
  · have ha : 0 < q := lt_of_le_of_ne (not_lt.mp hneg) (Ne.symm hq)
    have hk := Dbl.round_core q ha
    unfold Dbl.round64 at hf ⊢
    simp only [hneg, if_false] at hf ⊢
    generalize (Dbl.roundHalfEven (q / Dbl.pow2 (max (Dbl.ilog2 q) (-1022) - 52)) : ℚ)
        * Dbl.pow2 (max (Dbl.ilog2 q) (-1022) - 52) = r at hf hk ⊢
    rw [abs_of_pos ha]
    by_cases h0 : r = 0
    · simp only [h0, if_true, decide_False, Dbl.signedZero, Dbl.val, Dbl.toRat?,
        Option.getD_some]
      rw [h0] at hk
      simpa using hk
    · simp only [h0, if_false] at hf ⊢
      by_cases hbig : Dbl.pow2 1024 ≤ r
      · simp [hbig, Dbl.signedInf, Dbl.isFinite, Dbl.toRat?] at hf
      · simp only [hbig, if_false, Dbl.val, Dbl.toRat?, Option.getD_some]
        exact hk

theorem Dbl.err_nonneg (q : ℚ) : 0 ≤ |q| / 2 ^ 53 + 1 / 2 ^ 1075 := by positivity

/-- A finite sum has finite operands and is within the rounding error of
their exact sum. -/
theorem Dbl.add_err (a b : Dbl) (hf : (a + b).isFinite = true) :
    a.isFinite = true ∧ b.isFinite = true
      ∧ |(a + b).val - (a.val + b.val)| ≤ |a.val + b.val| / 2 ^ 53 + 1 / 2 ^ 1075 := by
  rw [Dbl.add_def] at hf ⊢
  cases a with
  | fin x =>
    cases b with
    | fin y =>
      refine ⟨rfl, rfl, ?_⟩
      unfold Dbl.add at hf ⊢
      by_cases hx : x = 0
      · simp only [hx, if_true, Dbl.val, Dbl.toRat?, Option.getD_some]
        simpa using Dbl.err_nonneg y
      · by_cases hy : y = 0
        · simp only [hx, hy, if_true, if_false, Dbl.val, Dbl.toRat?, Option.getD_some]
          simpa using Dbl.err_nonneg x
        · by_cases hxy : x + y = 0
          · simp only [hx, hy, hxy, if_true, if_false, Dbl.val, Dbl.toRat?, Option.getD_some]
            simp
          · simp only [hx, hy, hxy, if_false] at hf ⊢
            exact Dbl.round64_err (x + y) hxy hf
    | negZero =>
      refine ⟨rfl, rfl, ?_⟩
      simp only [Dbl.add, Dbl.val, Dbl.toRat?, Option.getD_some]
      simpa using Dbl.err_nonneg x
    | pinf => simp [Dbl.add, Dbl.isFinite, Dbl.toRat?] at hf
    | ninf => simp [Dbl.add, Dbl.isFinite, Dbl.toRat?] at hf
    | nan => simp [Dbl.add, Dbl.isFinite, Dbl.toRat?] at hf
  | negZero =>
    cases b with
    | fin y =>
      refine ⟨rfl, rfl, ?_⟩
      simp only [Dbl.add, Dbl.val, Dbl.toRat?, Option.getD_some]
      simpa using Dbl.err_nonneg y
    | negZero =>
      refine ⟨rfl, rfl, ?_⟩
      simp only [Dbl.add, Dbl.val, Dbl.toRat?, Option.getD_some]
      simp
    | pinf => simp [Dbl.add, Dbl.isFinite, Dbl.toRat?] at hf
    | ninf => simp [Dbl.add, Dbl.isFinite, Dbl.toRat?] at hf
    | nan => simp [Dbl.add, Dbl.isFinite, Dbl.toRat?] at hf
  | pinf => cases b <;> simp [Dbl.add, Dbl.isFinite, Dbl.toRat?] at hf
  | ninf => cases b <;> simp [Dbl.add, Dbl.isFinite, Dbl.toRat?] at hf
  | nan => cases b <;> simp [Dbl.add, Dbl.isFinite, Dbl.toRat?] at hf

theorem Dbl.val_neg (b : Dbl) : (Dbl.neg b).val = -b.val := by
  cases b with
  | fin y =>
    by_cases hy : y = 0
    · simp [Dbl.neg, hy, Dbl.val, Dbl.toRat?]
    · simp [Dbl.neg, hy, Dbl.val, Dbl.toRat?]
  | negZero => simp [Dbl.neg, Dbl.val, Dbl.toRat?]
  | pinf => simp [Dbl.neg, Dbl.val, Dbl.toRat?]
  | ninf => simp [Dbl.neg, Dbl.val, Dbl.toRat?]
  | nan => simp [Dbl.neg, Dbl.val, Dbl.toRat?]

theorem Dbl.isFinite_neg (b : Dbl) : (Dbl.neg b).isFinite = b.isFinite := by
  cases b with
  | fin y =>
    by_cases hy : y = 0
    · simp [Dbl.neg, hy, Dbl.isFinite, Dbl.toRat?]
    · simp [Dbl.neg, hy, Dbl.isFinite, Dbl.toRat?]
  | negZero => simp [Dbl.neg, Dbl.isFinite, Dbl.toRat?]
  | pinf => simp [Dbl.neg, Dbl.isFinite, Dbl.toRat?]
  | ninf => simp [Dbl.neg, Dbl.isFinite, Dbl.toRat?]
  | nan => simp [Dbl.neg, Dbl.isFinite, Dbl.toRat?]

/-- A finite difference has finite operands and is within the rounding error
of their exact difference. -/
theorem Dbl.sub_err (a b : Dbl) (hf : (a - b).isFinite = true) :
    a.isFinite = true ∧ b.isFinite = true
      ∧ |(a - b).val - (a.val - b.val)| ≤ |a.val - b.val| / 2 ^ 53 + 1 / 2 ^ 1075 := by
  rw [Dbl.sub_def, ← Dbl.add_def] at hf ⊢
  obtain ⟨h1, h2, h3⟩ := Dbl.add_err a (Dbl.neg b) hf
  rw [Dbl.isFinite_neg] at h2
  rw [Dbl.val_neg] at h3
  exact ⟨h1, h2, by simpa [sub_eq_add_neg] using h3⟩

theorem Dbl.val_signedZero (s : Bool) : (Dbl.signedZero s).val = 0 := by cases s <;> rfl

theorem Dbl.isFinite_signedInf (s : Bool) : (Dbl.signedInf s).isFinite = false := by
  cases s <;> rfl

/-- A finite quotient by a positive integer has a finite dividend and is
within the rounding error of the exact quotient. -/
theorem Dbl.div_int_err (a : Dbl) (k : Int) (hk : 0 < k)
    (hf : (a / Dbl.ofInt k).isFinite = true) :
    a.isFinite = true
      ∧ |(a / Dbl.ofInt k).val - a.val / k| ≤ |a.val / k| / 2 ^ 53 + 1 / 2 ^ 1075 := by
  have hk0 : (k : ℚ) ≠ 0 := by exact_mod_cast (ne_of_gt hk)
  rw [Dbl.div_def] at hf ⊢
  cases a with
  | fin x =>
    refine ⟨rfl, ?_⟩
    have hdiv : Dbl.div (Dbl.fin x) (Dbl.ofInt k)
        = if x = 0 then Dbl.signedZero (xor (Dbl.fin x).isNeg (Dbl.ofInt k).isNeg)
          else Dbl.round64 (x / k) := by
      unfold Dbl.div
      simp only [Dbl.ofInt, Dbl.toRat?, hk0, if_false]
    rw [hdiv] at hf ⊢
    have hv : (Dbl.fin x).val = x := rfl
    rw [hv]
    by_cases hx : x = 0
    · rw [if_pos hx, Dbl.val_signedZero, hx]
      simp
    · rw [if_neg hx] at hf ⊢
      exact Dbl.round64_err (x / k) (div_ne_zero hx hk0) hf
  | negZero =>
    refine ⟨rfl, ?_⟩
    have hdiv : Dbl.div Dbl.negZero (Dbl.ofInt k)
        = Dbl.signedZero (xor Dbl.negZero.isNeg (Dbl.ofInt k).isNeg) := by
      unfold Dbl.div
      simp only [Dbl.ofInt, Dbl.toRat?, hk0, if_false, if_true]
    have hv : Dbl.negZero.val = 0 := rfl
    rw [hdiv, Dbl.val_signedZero, hv]
    simp
  | pinf =>
    have hdiv : Dbl.div Dbl.pinf (Dbl.ofInt k)
        = Dbl.signedInf (xor Dbl.pinf.isNeg (Dbl.ofInt k).isNeg) := by
      unfold Dbl.div
      simp [Dbl.ofInt, Dbl.toRat?]
    rw [hdiv, Dbl.isFinite_signedInf] at hf
    exact absurd hf (by simp)
  | ninf =>
    have hdiv : Dbl.div Dbl.ninf (Dbl.ofInt k)
        = Dbl.signedInf (xor Dbl.ninf.isNeg (Dbl.ofInt k).isNeg) := by
      unfold Dbl.div
      simp [Dbl.ofInt, Dbl.toRat?]
    rw [hdiv, Dbl.isFinite_signedInf] at hf
    exact absurd hf (by simp)
  | nan => simp [Dbl.div, Dbl.ofInt, Dbl.isFinite, Dbl.toRat?] at hf

/-! ## Rounded sums -/

theorem abs_sum_map_le {ι : Type} (x : ι → ℚ) (l : List ι) :
    |(l.map x).sum| ≤ (l.map (fun i => |x i|)).sum := by
  induction l with
  | nil => simp
  | cons a l ih =>
    simp only [List.map_cons, List.sum_cons]
    exact (abs_add _ _).trans (by linarith)

theorem sum_map_abs_nonneg {ι : Type} (x : ι → ℚ) (l : List ι) :
    0 ≤ (l.map (fun i => |x i|)).sum :=
  (abs_nonneg _).trans (abs_sum_map_le x l)

/-- One more rounded addition in a sum of at most twelve terms. -/
theorem sum_err_step (n A B err t : ℚ) (hn0 : 0 ≤ n) (hn : n ≤ 11) (hA : 0 ≤ A) (hAB : A ≤ B)
    (herr : err ≤ 2 * n * (A / 2 ^ 53) + 2 * n / 2 ^ 1075)
    (ht : t ≤ (B + err) / 2 ^ 53 + 1 / 2 ^ 1075 + err) :
    t ≤ 2 * (n + 1) * (B / 2 ^ 53) + 2 * (n + 1) / 2 ^ 1075 := by
  have h1 : n * A ≤ n * B := mul_le_mul_of_nonneg_left hAB hn0
  have h2 : n * B ≤ 11 * B := mul_le_mul_of_nonneg_right hn (hA.trans hAB)
  have h3 : 0 ≤ n * A := mul_nonneg hn0 hA
  have hB : 0 ≤ B := hA.trans hAB
  linarith

/-- The error of a left fold of at most twelve steps, each of which adds
`x i` to the accumulator with the rounding error of one binary64 addition (or
exactly): a finite result means a finite start and it differs from the exact
sum by at most `2 n` relative rounding errors of the sum of the magnitudes. -/
theorem foldl_sum_err {ι : Type} (step : Dbl → ι → Dbl) (x : ι → ℚ) (Q : ι → Prop) (l : List ι) :
    (∀ acc i, i ∈ l → (step acc i).isFinite = true →
      acc.isFinite = true ∧ Q i
        ∧ |(step acc i).val - (acc.val + x i)| ≤ |acc.val + x i| / 2 ^ 53 + 1 / 2 ^ 1075) →
    l.length ≤ 12 → ∀ a0 : Dbl, (l.foldl step a0).isFinite = true →
    a0.isFinite = true ∧ (∀ i ∈ l, Q i)
      ∧ |(l.foldl step a0).val - (a0.val + (l.map x).sum)|
          ≤ 2 * (l.length : ℚ) * ((|a0.val| + (l.map (fun i => |x i|)).sum) / 2 ^ 53)
            + 2 * (l.length : ℚ) / 2 ^ 1075 := by
  induction l using List.reverseRecOn with
  | nil =>
    intro _ _ a0 hf
    exact ⟨hf, by simp, by simp⟩
  | append_singleton l i ih =>
    intro hstep hlen a0 hf
    rw [List.foldl_append] at hf ⊢
    simp only [List.foldl_cons, List.foldl_nil] at hf ⊢
    have hlen' : l.length + 1 ≤ 12 := by simpa using hlen
    obtain ⟨hv, hQ, hs⟩ := hstep (l.foldl step a0) i (by simp) hf
    obtain ⟨ha0, hQl, herr⟩ := ih (fun acc j hj => hstep acc j (by simp [hj])) (by omega) a0 hv
    refine ⟨ha0, ?_, ?_⟩
    · intro j hj
      rcases List.mem_append.mp hj with h | h
      · exact hQl j h
      · rw [List.mem_singleton.mp h]; exact hQ
    · simp only [List.map_append, List.map_cons, List.map_nil, List.sum_append, List.sum_cons,
        List.sum_nil, add_zero, List.length_append, List.length_singleton, Nat.cast_add,
        Nat.cast_one]
      have hsum := abs_sum_map_le x l
      have hA0 := sum_map_abs_nonneg x l
      generalize (l.map x).sum = P at herr hsum ⊢
      generalize (l.map (fun i => |x i|)).sum = A at herr hsum hA0 ⊢
      generalize (l.foldl step a0).val = v at herr hs ⊢
      generalize (step (l.foldl step a0) i).val = w at hs ⊢
      have hn0 : (0 : ℚ) ≤ (l.length : ℚ) := Nat.cast_nonneg _
      have hn : (l.length : ℚ) ≤ 11 := by
        have : l.length ≤ 11 := by omega
        exact_mod_cast this
      generalize (l.length : ℚ) = n at herr hn0 hn ⊢
      have hx := abs_nonneg (x i)
      have hav := abs_nonneg a0.val
      have ht : |v + x i| ≤ |a0.val| + A + |x i| + |v - (a0.val + P)| := by
        have e : v + x i = (a0.val + P + x i) + (v - (a0.val + P)) := by ring
        rw [e]
        refine (abs_add _ _).trans ?_
        have := abs_add (a0.val + P) (x i)
        have := abs_add a0.val P
        linarith
      have hw : |w - (a0.val + (P + x i))| ≤ |w - (v + x i)| + |v - (a0.val + P)| := by
        have e : w - (a0.val + (P + x i)) = (w - (v + x i)) + (v - (a0.val + P)) := by ring
        rw [e]
        exact abs_add _ _
      have e2 : |a0.val| + (A + |x i|) = |a0.val| + A + |x i| := by ring
      rw [e2]
      refine sum_err_step n (|a0.val| + A) (|a0.val| + A + |x i|) (|v - (a0.val + P)|) _ hn0 hn
        (by linarith) (by linarith) herr ?_
      have hd : |v + x i| / 2 ^ 53 ≤ (|a0.val| + A + |x i| + |v - (a0.val + P)|) / 2 ^ 53 := by
        gcongr
      linarith

/-- Sum of values that are each a rounded `e m + c`. -/
theorem sum_near_add {ι : Type} (l : List ι) (s e : ι → ℚ) (c : ℚ)
    (h : ∀ m ∈ l, |s m - (e m + c)| ≤ |e m + c| / 2 ^ 53 + 1 / 2 ^ 1075) :
    |(l.map s).sum - ((l.map e).sum + l.length * c)|
        ≤ ((l.map (fun m => |e m|)).sum + l.length * |c|) / 2 ^ 53 + l.length / 2 ^ 1075
      ∧ (l.map (fun m => |s m|)).sum
        ≤ ((l.map (fun m => |e m|)).sum + l.length * |c|)
          + ((l.map (fun m => |e m|)).sum + l.length * |c|) / 2 ^ 53 + l.length / 2 ^ 1075 := by
  induction l with
  | nil => simp
  | cons a l ih =>
    obtain ⟨ih1, ih2⟩ := ih (fun m hm => h m (List.mem_cons_of_mem _ hm))
    have ha := h a (List.mem_cons_self _ _)
    have hec : |e a + c| ≤ |e a| + |c| := abs_add _ _
    have hec2 : |e a + c| / 2 ^ 53 ≤ (|e a| + |c|) / 2 ^ 53 := by gcongr
    have hsa : |s a| ≤ |e a| + |c| + ((|e a| + |c|) / 2 ^ 53 + 1 / 2 ^ 1075) := by
      have e1 : s a = (e a + c) + (s a - (e a + c)) := by ring
      rw [e1]
      refine (abs_add _ _).trans ?_
      linarith
    simp only [List.map_cons, List.sum_cons, List.length_cons, Nat.cast_add, Nat.cast_one]
    constructor
    · have e1 : s a + (l.map s).sum - (e a + (l.map e).sum + ((l.length : ℚ) + 1) * c)
          = (s a - (e a + c)) + ((l.map s).sum - ((l.map e).sum + l.length * c)) := by ring
      rw [e1]
      refine (abs_add _ _).trans ?_
      have e2 : (|e a| + (l.map (fun m => |e m|)).sum + ((l.length : ℚ) + 1) * |c|) / 2 ^ 53
            + ((l.length : ℚ) + 1) / 2 ^ 1075
          = ((|e a| + |c|) / 2 ^ 53 + 1 / 2 ^ 1075)
            + (((l.map (fun m => |e m|)).sum + l.length * |c|) / 2 ^ 53
              + l.length / 2 ^ 1075) := by ring
      rw [e2]
      linarith
    · have e2 : |e a| + (l.map (fun m => |e m|)).sum + ((l.length : ℚ) + 1) * |c|
            + (|e a| + (l.map (fun m => |e m|)).sum + ((l.length : ℚ) + 1) * |c|) / 2 ^ 53
            + ((l.length : ℚ) + 1) / 2 ^ 1075
          = (|e a| + |c| + ((|e a| + |c|) / 2 ^ 53 + 1 / 2 ^ 1075))
            + (((l.map (fun m => |e m|)).sum + l.length * |c|)
              + ((l.map (fun m => |e m|)).sum + l.length * |c|) / 2 ^ 53
              + l.length / 2 ^ 1075) := by ring
      rw [e2]
      linarith

/-- Sum of values that are `c` where `p` holds, and `e m` elsewhere, when
`e m` is 0 where `p` holds. -/
theorem sum_fill {ι : Type} (l : List ι) (s e : ι → ℚ) (p : ι → Bool) (c : ℚ)
    (h : ∀ m ∈ l, (p m = true → s m = c ∧ e m = 0) ∧ (p m = false → s m = e m)) :
    (l.map s).sum = (l.map e).sum + (l.filter p).length * c
      ∧ (l.map (fun m => |s m|)).sum
        = (l.map (fun m => |e m|)).sum + (l.filter p).length * |c| := by
  induction l with
  | nil => simp
  | cons a l ih =>
    obtain ⟨ih1, ih2⟩ := ih (fun m hm => h m (List.mem_cons_of_mem _ hm))
    have ha := h a (List.mem_cons_self _ _)
    simp only [List.map_cons, List.sum_cons, ih1, ih2]
    cases hp : p a with
    | true =>
      obtain ⟨h1, h2⟩ := ha.1 hp
      rw [List.filter_cons_of_pos hp, h1, h2]
      simp only [List.length_cons, Nat.cast_add, Nat.cast_one, abs_zero]
      constructor <;> ring
    | false =>
      have h1 := ha.2 hp
      rw [List.filter_cons_of_neg (by simp [hp]), h1]
      constructor <;> ring

/-- The error budget of the twelve month slots with override off. -/
theorem conservation_off (y vD vadj vsh Pe σ Ps As vS : ℚ)
    (hσ : |Pe| ≤ σ)
    (hD : |vD - Pe| ≤ 24 * (σ / 2 ^ 53) + 24 / 2 ^ 1075)
    (hadj : |vadj - (y - vD)| ≤ |y - vD| / 2 ^ 53 + 1 / 2 ^ 1075)
    (hsh : |vsh - vadj / 12| ≤ |vadj / 12| / 2 ^ 53 + 1 / 2 ^ 1075)
    (hs1 : |Ps - (Pe + 12 * vsh)| ≤ (σ + 12 * |vsh|) / 2 ^ 53 + 12 / 2 ^ 1075)
    (hs2 : As ≤ (σ + 12 * |vsh|) + (σ + 12 * |vsh|) / 2 ^ 53 + 12 / 2 ^ 1075)
    (hS : |vS - Ps| ≤ 24 * (As / 2 ^ 53) + 24 / 2 ^ 1075) :
    |vS - y| ≤ (|y| + σ) / 2 ^ 46 + 1 / 2 ^ 1065 := by
  have hy := abs_nonneg y
  have hσ0 : 0 ≤ σ := (abs_nonneg _).trans hσ
  have aD : |vD| ≤ σ + |vD - Pe| := by
    have e1 : vD = Pe + (vD - Pe) := by ring
    calc |vD| = |Pe + (vD - Pe)| := by rw [← e1]
      _ ≤ |Pe| + |vD - Pe| := abs_add _ _
      _ ≤ σ + |vD - Pe| := by linarith
  have ayD : |y - vD| ≤ |y| + |vD| := abs_sub _ _
  have aadj : |vadj| ≤ |y - vD| + |vadj - (y - vD)| := by
    have e1 : vadj = (y - vD) + (vadj - (y - vD)) := by ring
    calc |vadj| = |(y - vD) + (vadj - (y - vD))| := by rw [← e1]
      _ ≤ _ := abs_add _ _
  have a12 : |vadj / 12| = |vadj| / 12 := by rw [abs_div]; norm_num
  have ash : |vsh| ≤ |vadj| / 12 + |vsh - vadj / 12| := by
    have e1 : vsh = vadj / 12 + (vsh - vadj / 12) := by ring
    calc |vsh| = |vadj / 12 + (vsh - vadj / 12)| := by rw [← e1]
      _ ≤ |vadj / 12| + |vsh - vadj / 12| := abs_add _ _
      _ = _ := by rw [a12]
  rw [a12] at hsh
  have key : |vS - y| ≤ |vS - Ps| + |Ps - (Pe + 12 * vsh)| + 12 * |vsh - vadj / 12|
      + |vadj - (y - vD)| + |vD - Pe| := by
    have e1 : vS - y = (vS - Ps) + (Ps - (Pe + 12 * vsh)) + 12 * (vsh - vadj / 12)
        + (vadj - (y - vD)) + (-(vD - Pe)) := by ring
    rw [e1]
    have h12 : |12 * (vsh - vadj / 12)| = 12 * |vsh - vadj / 12| := by
      rw [abs_mul]; norm_num
    have := abs_add ((vS - Ps) + (Ps - (Pe + 12 * vsh)) + 12 * (vsh - vadj / 12)
        + (vadj - (y - vD))) (-(vD - Pe))
    have := abs_add ((vS - Ps) + (Ps - (Pe + 12 * vsh)) + 12 * (vsh - vadj / 12))
        (vadj - (y - vD))
    have := abs_add ((vS - Ps) + (Ps - (Pe + 12 * vsh))) (12 * (vsh - vadj / 12))
    have := abs_add (vS - Ps) (Ps - (Pe + 12 * vsh))
    rw [abs_neg] at *
    linarith
  generalize |vS - y| = T at key ⊢
  generalize |vS - Ps| = d1 at key hS
  generalize |Ps - (Pe + 12 * vsh)| = d2 at key hs1
  generalize |vsh - vadj / 12| = d3 at key hsh ash
  generalize |vadj - (y - vD)| = d4 at key hadj aadj
  generalize |vD - Pe| = d5 at key hD aD
  generalize |y - vD| = b1 at hadj aadj ayD
  generalize |vD| = b2 at aD ayD
  generalize |vadj| = b3 at aadj hsh ash
  generalize |vsh| = b4 at ash hs1 hs2
  generalize |y| = b5 at hy ayD ⊢
  linarith

/-- The error budget of the twelve month slots with override on and `k`
months without explicit entries. -/
theorem conservation_on (k y vD vadj vsh Pe σ Ps As vS : ℚ) (hk1 : 1 ≤ k) (hk12 : k ≤ 12)
    (hσ : |Pe| ≤ σ)
    (hD : |vD - Pe| ≤ 24 * (σ / 2 ^ 53) + 24 / 2 ^ 1075)
    (hadj : |vadj - (y - vD)| ≤ |y - vD| / 2 ^ 53 + 1 / 2 ^ 1075)
    (hsh : |vsh - vadj / k| ≤ |vadj / k| / 2 ^ 53 + 1 / 2 ^ 1075)
    (hs1 : Ps = Pe + k * vsh)
    (hs2 : As = σ + k * |vsh|)
    (hS : |vS - Ps| ≤ 24 * (As / 2 ^ 53) + 24 / 2 ^ 1075) :
    |vS - y| ≤ (|y| + σ) / 2 ^ 46 + 1 / 2 ^ 1065 := by
  have hk : 0 < k := by linarith
  have hy := abs_nonneg y
  have hσ0 : 0 ≤ σ := (abs_nonneg _).trans hσ
  have hW : |k * vsh - vadj| ≤ |vadj| / 2 ^ 53 + 12 / 2 ^ 1075 := by
    have e1 : k * vsh - vadj = k * (vsh - vadj / k) := by field_simp; ring
    rw [e1, abs_mul, abs_of_pos hk]
    have e2 : |vadj / k| = |vadj| / k := by rw [abs_div, abs_of_pos hk]
    rw [e2] at hsh
    calc k * |vsh - vadj / k| ≤ k * (|vadj| / k / 2 ^ 53 + 1 / 2 ^ 1075) := by gcongr
      _ = |vadj| / 2 ^ 53 + k / 2 ^ 1075 := by field_simp; ring
      _ ≤ |vadj| / 2 ^ 53 + 12 / 2 ^ 1075 := by gcongr
  have hWa : k * |vsh| = |k * vsh| := by rw [abs_mul, abs_of_pos hk]
  rw [hWa] at hs2
  have aW : |k * vsh| ≤ |vadj| + |k * vsh - vadj| := by
    have e1 : k * vsh = vadj + (k * vsh - vadj) := by ring
    calc |k * vsh| = |vadj + (k * vsh - vadj)| := by rw [← e1]
      _ ≤ _ := abs_add _ _
  have aD : |vD| ≤ σ + |vD - Pe| := by
    have e1 : vD = Pe + (vD - Pe) := by ring
    calc |vD| = |Pe + (vD - Pe)| := by rw [← e1]
      _ ≤ |Pe| + |vD - Pe| := abs_add _ _
      _ ≤ σ + |vD - Pe| := by linarith
  have ayD : |y - vD| ≤ |y| + |vD| := abs_sub _ _
  have aadj : |vadj| ≤ |y - vD| + |vadj - (y - vD)| := by
    have e1 : vadj = (y - vD) + (vadj - (y - vD)) := by ring
    calc |vadj| = |(y - vD) + (vadj - (y - vD))| := by rw [← e1]
      _ ≤ _ := abs_add _ _
  have key : |vS - y| ≤ |vS - Ps| + |k * vsh - vadj| + |vadj - (y - vD)| + |vD - Pe| := by
    have e1 : vS - y = (vS - Ps) + (k * vsh - vadj) + (vadj - (y - vD)) + (-(vD - Pe)) := by
      rw [hs1]; ring
    rw [e1]
    have := abs_add ((vS - Ps) + (k * vsh - vadj) + (vadj - (y - vD))) (-(vD - Pe))
    have := abs_add ((vS - Ps) + (k * vsh - vadj)) (vadj - (y - vD))
    have := abs_add (vS - Ps) (k * vsh - vadj)
    rw [abs_neg] at *
    linarith
  generalize |vS - y| = T at key ⊢
  generalize |vS - Ps| = d1 at key hS
  generalize |k * vsh - vadj| = d3 at key hW aW
  generalize |vadj - (y - vD)| = d4 at key hadj aadj
  generalize |vD - Pe| = d5 at key hD aD
  generalize |y - vD| = b1 at hadj aadj ayD
  generalize |vD| = b2 at aD ayD
  generalize |vadj| = b3 at aadj hW aW
  generalize |k * vsh| = b4 at aW hs2
  generalize |y| = b5 at hy ayD ⊢
  subst hs2
  linarith

theorem Dbl.val_zero : (0 : Dbl).val = 0 := by
  show ((0 : Nat) : ℚ) = 0
  simp

theorem Dbl.isFinite_zero : (0 : Dbl).isFinite = true := rfl

theorem length_filter_not {ι : Type} (p : ι → Bool) (l : List ι) :
    (l.filter p).length + (l.filter (fun i => !p i)).length = l.length := by
  induction l with
  | nil => rfl
  | cons a l ih =>
    cases hp : p a <;> simp [List.filter_cons, hp] <;> omega

/-- Conservation up to rounding for twelve month slots given by the
formulas of the deduct-monthly branch. -/
theorem conservation_core (slot E : Int → Dbl) (Y D : Dbl) (ov : Bool) (empty : Int → Bool)
    (n : Int)
    (hslots : ∀ m ∈ months, slot m
      = if ov then (if empty m then (Y - D) / Dbl.ofInt (12 - n) else E m)
        else E m + (Y - D) / 12)
    (hn : ((months.filter (fun m => !empty m)).length : Int) = n)
    (hE0 : ∀ m ∈ months, empty m = true → E m = 0)
    (hD : D.isFinite = true →
      |D.val - (months.map (fun m => (E m).val)).sum|
        ≤ 24 * ((months.map (fun m => |(E m).val|)).sum / 2 ^ 53) + 24 / 2 ^ 1075)
    (hov : ov = false ∨ n < 12)
    (hfin : (months.foldl (fun acc m => acc + slot m) 0).isFinite = true) :
    Y.isFinite = true
      ∧ |(months.foldl (fun acc m => acc + slot m) 0).val - Y.val|
        ≤ (|Y.val| + (months.map (fun m => |(E m).val|)).sum) / 2 ^ 46 + 1 / 2 ^ 1065 := by
  have hlen : months.length = 12 := rfl
  obtain ⟨-, hQ, hS⟩ := foldl_sum_err (fun acc m => acc + slot m) (fun m => (slot m).val)
    (fun m => (slot m).isFinite = true) months
    (fun acc i _ h => Dbl.add_err acc (slot i) h) (le_of_eq hlen) 0 hfin
  rw [Dbl.val_zero, hlen] at hS
  simp only [abs_zero, zero_add, Nat.cast_ofNat] at hS
  have hS' : |(months.foldl (fun acc m => acc + slot m) 0).val
        - (months.map (fun m => (slot m).val)).sum|
      ≤ 24 * ((months.map (fun m => |(slot m).val|)).sum / 2 ^ 53) + 24 / 2 ^ 1075 := by
    have e1 : (2 : ℚ) * 12 = 24 := by norm_num
    rw [e1] at hS
    exact hS
  have hσ := abs_sum_map_le (fun m => (E m).val) months
  cases ov with
  | false =>
    simp only [Bool.false_eq_true, if_false] at hslots
    have h0 : (0 : Int) ∈ months := by decide
    have hf0 := hQ 0 h0
    rw [hslots 0 h0] at hf0
    obtain ⟨-, hshf, -⟩ := Dbl.add_err _ _ hf0
    rw [← Dbl.ofInt_twelve] at hshf
    obtain ⟨hadjf, hsh⟩ := Dbl.div_int_err _ 12 (by norm_num) hshf
    obtain ⟨hYf, hDf, hadj⟩ := Dbl.sub_err _ _ hadjf
    rw [Dbl.ofInt_twelve] at hsh
    have hnear := sum_near_add months (fun m => (slot m).val) (fun m => (E m).val)
      (((Y - D) / 12).val) (by
        intro m hm
        have hfm := hQ m hm
        simp only [hslots m hm] at hfm ⊢
        exact (Dbl.add_err _ _ hfm).2.2)
    rw [hlen] at hnear
    simp only [Nat.cast_ofNat, Int.cast_ofNat] at hnear hsh
    exact ⟨hYf, conservation_off _ _ _ _ _ _ _ _ _ hσ (hD hDf) hadj hsh hnear.1 hnear.2 hS'⟩
  | true =>
    simp only [if_true] at hslots
    have hn12 : n < 12 := by
      rcases hov with h | h
      · exact absurd h (by simp)
      · exact h
    have hpart := length_filter_not empty months
    rw [hlen] at hpart
    have hk : ((months.filter empty).length : Int) = 12 - n := by omega
    have hex : ∃ m0 ∈ months, empty m0 = true := by
      by_contra hno
      have : months.filter empty = [] := by
        rw [List.filter_eq_nil_iff]
        intro m hm hem
        exact hno ⟨m, hm, hem⟩
      rw [this] at hk
      simp at hk
      omega
    obtain ⟨m0, hm0, hem0⟩ := hex
    have hf0 := hQ m0 hm0
    rw [hslots m0 hm0, if_pos hem0] at hf0
    obtain ⟨hadjf, hsh⟩ := Dbl.div_int_err _ (12 - n) (by omega) hf0
    obtain ⟨hYf, hDf, hadj⟩ := Dbl.sub_err _ _ hadjf
    have hfill := sum_fill months (fun m => (slot m).val) (fun m => (E m).val) empty
      (((Y - D) / Dbl.ofInt (12 - n)).val) (by
        intro m hm
        constructor
        · intro hem
          refine ⟨?_, ?_⟩
          · show (slot m).val = _
            rw [hslots m hm, if_pos hem]
          · show (E m).val = 0
            rw [hE0 m hm hem]
            exact Dbl.val_zero
        · intro hem
          simp only [hslots m hm, hem, Bool.false_eq_true, if_false])
    have hkq : ((months.filter empty).length : ℚ) = ((12 - n : Int) : ℚ) := by
      rw [← hk]
      simp
    rw [hkq] at hfill
    have hk1 : (1 : ℚ) ≤ ((12 - n : Int) : ℚ) := by
      have : (1 : Int) ≤ 12 - n := by omega
      exact_mod_cast this
    have hk12 : ((12 - n : Int) : ℚ) ≤ 12 := by
      have : (12 - n : Int) ≤ 12 := by omega
      exact_mod_cast this
    exact ⟨hYf, conservation_on _ _ _ _ _ _ _ _ _ _ hk1 hk12 hσ (hD hDf) hadj hsh hfill.1
      hfill.2 hS'⟩

/-- C15, as stated, fails: with the deduct-monthly option on, override off,
one Yearly entry of 100 and no explicit monthly entry (D = 0, D / Y = 0 < 1),
each month slot is the double 100 / 12 and the twelve slots add up, in double
arithmetic, to 99.99999999999998579..., not to Y = 100; the collapsed slot 0
differs from slot 12.  And with the yearly estimate -(2 ^ 1024 - 2 ^ 971), the
largest double negated, next to one explicit monthly entry of 2 ^ 1020 in
month 0 (D / Y < 1), the difference Y - D overflows: every month slot and the
collapsed slot 0 are minus infinity while slot 12 is Y. -/
theorem getBudgetStats_conservation_refuted :
    (ofCategory 1 (annualEntries (envOf [⟨10, 1, "Yearly", 100, ""⟩] false true) "2024")
        = [⟨10, 1, "Yearly", 100, ""⟩]
      ∧ getEstimate false (period ⟨10, 1, "Yearly", 100, ""⟩) 100 = 100
      ∧ explicitTotal (envOf [⟨10, 1, "Yearly", 100, ""⟩] false true) "2024" 1 = 0
      ∧ Dbl.lt ((0 : Dbl) / 100) 1 = true
      ∧ cell (getBudgetStats (envOf [⟨10, 1, "Yearly", 100, ""⟩] false true) [] 2024 true) 1 12
        = 100
      ∧ monthSum (getBudgetStats (envOf [⟨10, 1, "Yearly", 100, ""⟩] false true) [] 2024 true) 1
        = Dbl.fin (7036874417766399 / 70368744177664)
      ∧ cell (getBudgetStats (envOf [⟨10, 1, "Yearly", 100, ""⟩] false true) [] 2024 false) 1 0
        ≠ cell (getBudgetStats (envOf [⟨10, 1, "Yearly", 100, ""⟩] false true) [] 2024 true) 1 12)
    ∧ (explicitTotal
          (envOf [⟨10, 1, "Yearly", Dbl.fin (-(2 ^ 1024 - 2 ^ 971)), ""⟩,
            ⟨11, 1, "Monthly", Dbl.fin (2 ^ 1020), ""⟩] false true) "2024" 1
        = Dbl.fin (2 ^ 1020)
      ∧ Dbl.lt (Dbl.fin (2 ^ 1020) / Dbl.fin (-(2 ^ 1024 - 2 ^ 971))) 1 = true
      ∧ cell (getBudgetStats
          (envOf [⟨10, 1, "Yearly", Dbl.fin (-(2 ^ 1024 - 2 ^ 971)), ""⟩,
            ⟨11, 1, "Monthly", Dbl.fin (2 ^ 1020), ""⟩] false true) [] 2024 true) 1 12
        = Dbl.fin (-(2 ^ 1024 - 2 ^ 971))
      ∧ cell (getBudgetStats
          (envOf [⟨10, 1, "Yearly", Dbl.fin (-(2 ^ 1024 - 2 ^ 971)), ""⟩,
            ⟨11, 1, "Monthly", Dbl.fin (2 ^ 1020), ""⟩] false true) [] 2024 true) 1 1
        = Dbl.ninf
      ∧ cell (getBudgetStats
          (envOf [⟨10, 1, "Yearly", Dbl.fin (-(2 ^ 1024 - 2 ^ 971)), ""⟩,
            ⟨11, 1, "Monthly", Dbl.fin (2 ^ 1020), ""⟩] false true) [] 2024 false) 1 0
        = Dbl.ninf) := by
  decide!

/-- The explicit monthly total is a sum of the explicit monthly estimates
rounded at each addition, when no month holds two entries of the category. -/
theorem explicitTotal_err (env : Env) (year : String) (c : Int)
    (hone : ∀ m ∈ months, (ofCategory c (monthEntries env year m)).length ≤ 1)
    (hf : (explicitTotal env year c).isFinite = true) :
    |(explicitTotal env year c).val
        - (months.map (fun m => (explicitEstimate env year c m).val)).sum|
      ≤ 24 * ((months.map (fun m => |(explicitEstimate env year c m).val|)).sum / 2 ^ 53)
        + 24 / 2 ^ 1075 := by
  have hlen : months.length = 12 := rfl
  obtain ⟨-, -, hS⟩ := foldl_sum_err
    (fun acc month => (ofCategory c (monthEntries env year month)).foldl
      (fun acc b => acc + getEstimate true (period b) b.AMOUNT) acc)
    (fun m => (explicitEstimate env year c m).val) (fun _ => True) months
    (by
      intro acc m hm h
      have h1 := hone m hm
      unfold explicitEstimate
      beta_reduce at h ⊢
      cases hl : ofCategory c (monthEntries env year m) with
      | nil =>
        rw [hl] at h
        refine ⟨h, trivial, ?_⟩
        show |acc.val - (acc.val + (0 : Dbl).val)| ≤ |acc.val + (0 : Dbl).val| / 2 ^ 53 + _
        rw [Dbl.val_zero]
        simp only [add_zero, sub_self, abs_zero]
        positivity
      | cons b bs =>
        cases bs with
        | nil =>
          rw [hl] at h
          obtain ⟨h2, -, h3⟩ := Dbl.add_err acc (getEstimate true (period b) b.AMOUNT) h
          exact ⟨h2, trivial, h3⟩
        | cons b2 bs2 =>
          rw [hl] at h1
          simp at h1)
    (le_of_eq hlen) 0 hf
  rw [Dbl.val_zero, hlen] at hS
  simp only [abs_zero, zero_add, Nat.cast_ofNat] at hS
  have e1 : (2 : ℚ) * 12 = 24 := by norm_num
  rw [e1] at hS
  exact hS

/-- C15, amended: conservation holds up to rounding.  With the
deduct-monthly option on, for a category with one annual entry of yearly
estimate Y, at most one explicit monthly entry per month, explicit monthly
total D with D / Y < 1, and either override off or fewer than 12 months
carrying explicit entries: slot 12 is Y, the `groupByMonth = false` slot 0 is
the sum of the 12 month slots, and whenever that sum is finite (no overflow,
no infinite or NaN amount) Y is finite and the sum differs from Y by at most
`2 ^ -46 * (|Y| + |E(c, 0)| + ... + |E(c, 11)|) + 2 ^ -1065`, the rounding
errors of the additions and divisions involved. -/
theorem getBudgetStats_conservation (env : Env) (startYear : Int) (c : Int) (e : Data)
    (hd : env.BudgetDeductMonthly = true)
    (he : ofCategory c (annualEntries env (toString startYear)) = [e])
    (hone : ∀ m ∈ months,
      (ofCategory c (monthEntries env (toString startYear) m)).length ≤ 1)
    (hlt : Dbl.lt (explicitTotal env (toString startYear) c
      / getEstimate false (period e) e.AMOUNT) 1 = true)
    (hov : env.BudgetOverride = false ∨ budgetedCount env (toString startYear) < 12)
    (hfin : (cell (getBudgetStats env [] startYear false) c 0).isFinite = true) :
    slot? (getBudgetStats env [] startYear true) c 12
        = some (getEstimate false (period e) e.AMOUNT)
      ∧ cell (getBudgetStats env [] startYear false) c 0
        = monthSum (getBudgetStats env [] startYear true) c
      ∧ (getEstimate false (period e) e.AMOUNT).isFinite = true
      ∧ |(cell (getBudgetStats env [] startYear false) c 0).val
            - (getEstimate false (period e) e.AMOUNT).val|
          ≤ (|(getEstimate false (period e) e.AMOUNT).val|
              + (months.map
                  (fun m => |(explicitEstimate env (toString startYear) c m).val|)).sum)
              / 2 ^ 46
            + 1 / 2 ^ 1065 := by
  have hge := Dbl.not_ge_of_lt _ _ hlt
  have hk : c ∈ DMap.keys (monthlyStats env [] startYear) :=
    mem_keys_of_annual env [] startYear c (by rw [he]; simp)
  have hcol : cell (getBudgetStats env [] startYear false) c 0
      = monthSum (getBudgetStats env [] startYear true) c := by
    show cell (collapse env.categories (monthlyStats env [] startYear)) c 0
      = monthSum (monthlyStats env [] startYear) c
    unfold cell DMap.getD
    rw [find?_collapse _ _ (sorted_monthlyStats env startYear), if_pos hk]
    rfl
  have hslots : ∀ m ∈ months, cell (getBudgetStats env [] startYear true) c m
      = if env.BudgetOverride then
          (if (monthEntries env (toString startYear) m).isEmpty then
            (getEstimate false (period e) e.AMOUNT - explicitTotal env (toString startYear) c)
              / Dbl.ofInt (12 - budgetedCount env (toString startYear))
          else explicitEstimate env (toString startYear) c m)
        else explicitEstimate env (toString startYear) c m
          + (getEstimate false (period e) e.AMOUNT
              - explicitTotal env (toString startYear) c) / 12 := by
    intro m hm
    show cell (monthlyStats env [] startYear) c m = _
    rw [cell_monthlyStats env [] startYear c m hm (Or.inr rfl), if_pos hd, he, lastOr_singleton]
    unfold deductSlot
    rw [hge]
    cases env.BudgetOverride <;>
      cases (monthEntries env (toString startYear) m).isEmpty <;> simp
  have hE0 : ∀ m ∈ months, (monthEntries env (toString startYear) m).isEmpty = true →
      explicitEstimate env (toString startYear) c m = 0 := by
    intro m _ hem
    unfold explicitEstimate
    rw [List.isEmpty_iff.mp hem]
    rfl
  rw [hcol] at hfin ⊢
  obtain ⟨hYf, hbound⟩ := conservation_core
    (fun m => cell (getBudgetStats env [] startYear true) c m)
    (fun m => explicitEstimate env (toString startYear) c m)
    (getEstimate false (period e) e.AMOUNT) (explicitTotal env (toString startYear) c)
    env.BudgetOverride (fun m => (monthEntries env (toString startYear) m).isEmpty)
    (budgetedCount env (toString startYear)) hslots rfl hE0
    (explicitTotal_err env (toString startYear) c hone) hov hfin
  refine ⟨?_, rfl, hYf, hbound⟩
  show slot? (monthlyStats env [] startYear) c 12 = _
  rw [slot?_monthlyStats_year, he]
  rfl

/-- Witness of the amended C15 on the sample data with override off
(Y = 1200, one explicit entry of 50 in month 0): the collapsed slot 0 is
within `2 ^ -46 * (1200 + 50) + 2 ^ -1065` of 1200. -/
theorem getBudgetStats_conservation_witness :
    |(cell (getBudgetStats (sampleEnv false true) [] 2024 false) 1 0).val - 1200|
      ≤ (1200 + 50) / 2 ^ 46 + 1 / 2 ^ 1065 := by
  have h := (getBudgetStats_conservation (sampleEnv false true) 2024 1
    ⟨10, 1, "Yearly", 1200, ""⟩ rfl (by decide!) (by decide!) (by decide!) (Or.inl rfl)
    (by decide!)).2.2.2
  have hY : (getEstimate false (period ⟨10, 1, "Yearly", 1200, ""⟩) 1200).val = 1200 := by
    decide!
  have hE : (months.map
      (fun m => |(explicitEstimate (sampleEnv false true) (toString (2024 : Int)) 1 m).val|)).sum
      = 50 := by
    decide!
  simp only [hY, hE] at h
  simpa using h

/-! ## A year without monthly budgets -/

theorem toLower_toUpper (b : Char) : b.toUpper.toLower = b.toLower := by
  by_cases h : 97 ≤ b.toNat ∧ b.toNat ≤ 122
  · obtain ⟨h1, h2⟩ := h
    have hb : b = Char.ofNat b.toNat := (Char.ofNat_toNat b).symm
    generalize b.toNat = n at hb h1 h2
    subst hb
    interval_cases n <;> rfl
  · have : b.toUpper = b := by
      unfold Char.toUpper
      simp only [ge_iff_le, h, if_false]
    rw [this]

theorem toLower_toLower (b : Char) : b.toLower.toLower = b.toLower := by
  by_cases h : 65 ≤ b.toNat ∧ b.toNat ≤ 90
  · obtain ⟨h1, h2⟩ := h
    have hb : b = Char.ofNat b.toNat := (Char.ofNat_toNat b).symm
    generalize b.toNat = n at hb h1 h2
    subst hb
    interval_cases n <;> rfl
  · have : b.toLower = b := by
      unfold Char.toLower
      simp only [ge_iff_le, h, if_false]
    rw [this, this]

theorem map_toLower_of_variant (l₁ l₂ : List Char)
    (h : List.Forall₂ (fun a b => a = b ∨ a = b.toUpper ∨ a = b.toLower) l₁ l₂) :
    l₁.map Char.toLower = l₂.map Char.toLower := by
  induction h with
  | nil => rfl
  | cons hab _ ih =>
    simp only [List.map_cons, ih, List.cons.injEq, and_true]
    rcases hab with hab | hab | hab
    · rw [hab]
    · rw [hab, toLower_toUpper]
    · rw [hab, toLower_toLower]

/-- A text that is a label in some letter case passes the comparison of
`period`. -/
theorem cmpNoCaseEq_of_caseVariant (t label : String) (h : caseVariant t label) :
    cmpNoCaseEq t label = true := by
  unfold cmpNoCaseEq
  rw [beq_iff_eq]
  exact map_toLower_of_variant _ _ h

/-- The decoded period depends on the lowered text only. -/
theorem period_congr (r r' : Data)
    (h : r.PERIOD.data.map Char.toLower = r'.PERIOD.data.map Char.toLower) :
    period r = period r' := by
  unfold period cmpNoCaseEq
  rw [h]

theorem period_of_match (r : Data) (entry : PERIOD_ENUM × String)
    (hmem : entry ∈ PERIOD_ENUM_CHOICES) (h : cmpNoCaseEq r.PERIOD entry.2 = true) :
    period r = entry.1 := by
  have hl : r.PERIOD.data.map Char.toLower
      = (⟨0, 0, entry.2, 0, ""⟩ : Data).PERIOD.data.map Char.toLower := by
    unfold cmpNoCaseEq at h
    exact beq_iff_eq.mp h
  rw [period_congr r ⟨0, 0, entry.2, 0, ""⟩ hl]
  simp only [PERIOD_ENUM_CHOICES, List.mem_cons, List.mem_singleton, List.not_mem_nil,
    or_false] at hmem
  rcases hmem with h | h | h | h | h | h | h | h | h <;> (subst h; rfl)

theorem period_of_no_match (r : Data)
    (h : ∀ entry ∈ PERIOD_ENUM_CHOICES, cmpNoCaseEq r.PERIOD entry.2 = false) :
    period r = NONE := by
  unfold period
  have : PERIOD_ENUM_CHOICES.find? (fun entry => cmpNoCaseEq r.PERIOD entry.2) = none := by
    rw [List.find?_eq_none]
    intro entry hmem
    rw [h entry hmem]
    simp
  rw [this]

theorem getEstimate_none_zero (is_monthly : Bool) (amount : Dbl)
    (h : amount.toRat?.isSome = true) :
    (getEstimate is_monthly NONE amount).toRat? = some 0 := by
  have hz : ∀ b : Bool, (Dbl.signedZero b).toRat? = some 0
      ∧ (Dbl.signedZero b / 12).toRat? = some 0 := by
    intro b
    cases b <;> exact ⟨rfl, by decide!⟩
  have hmul : ∃ b, amount * Dbl.ofInt (p.getD NONE.toNat 0) = Dbl.signedZero b := by
    show ∃ b, Dbl.mul amount (Dbl.ofInt 0) = Dbl.signedZero b
    cases amount with
    | fin q =>
      exact ⟨(Dbl.fin q).isNeg ^^ (Dbl.fin 0).isNeg, by simp [Dbl.mul, Dbl.ofInt, Dbl.toRat?]⟩
    | negZero =>
      exact ⟨Dbl.negZero.isNeg ^^ (Dbl.fin 0).isNeg, by simp [Dbl.mul, Dbl.ofInt, Dbl.toRat?]⟩
    | pinf => simp [Dbl.toRat?] at h
    | ninf => simp [Dbl.toRat?] at h
    | nan => simp [Dbl.toRat?] at h
  obtain ⟨b, hb⟩ := hmul
  unfold getEstimate
  simp only [hb]
  cases is_monthly
  · exact (hz b).1
  · exact (hz b).2

/-- C17: `period` decodes the stored text by case-insensitive match against
the nine labels of `PERIOD_ENUM_CHOICES`: a record whose PERIOD text is the
label of an entry in any letter case decodes to the enumerator of that entry
(so the tag written by `copyBudgetYear` reads back as `MONTHLY`); a text that
matches none of the labels decodes to `NONE`, and the estimate of a finite
amount under `NONE` is zero. -/
theorem period_decodes (r : Data) :
    PERIOD_ENUM_CHOICES.map Prod.snd
        = ["None", "Weekly", "Fortnightly", "Monthly", "Every 2 Months", "Quarterly",
            "Half-Yearly", "Yearly", "Daily"]
      ∧ (∀ entry ∈ PERIOD_ENUM_CHOICES, caseVariant r.PERIOD entry.2 → period r = entry.1)
      ∧ (r.PERIOD = (PERIOD_ENUM_CHOICES.getD MONTHLY.toNat (NONE, "")).2 → period r = MONTHLY)
      ∧ ((∀ entry ∈ PERIOD_ENUM_CHOICES, cmpNoCaseEq r.PERIOD entry.2 = false) →
          period r = NONE
          ∧ ∀ (is_monthly : Bool) (amount : Dbl), amount.toRat?.isSome = true →
              (getEstimate is_monthly (period r) amount).toRat? = some 0) := by
  refine ⟨rfl, ?_, period_monthly_label r, ?_⟩
  · intro entry hmem hvar
    exact period_of_match r entry hmem (cmpNoCaseEq_of_caseVariant _ _ hvar)
  · intro hno
    have hp := period_of_no_match r hno
    refine ⟨hp, ?_⟩
    intro is_monthly amount hfin
    rw [hp]
    exact getEstimate_none_zero is_monthly amount hfin

/-- Witness of C17: the text "mONTHLY" is the label "Monthly" in another
letter case and decodes to `MONTHLY`. -/
theorem period_decodes_witness : period ⟨11, 1, "mONTHLY", 50, ""⟩ = MONTHLY :=
  (period_decodes ⟨11, 1, "mONTHLY", 50, ""⟩).2.1 (MONTHLY, "Monthly") (by decide)
    (by
      unfold caseVariant
      refine List.Forall₂.cons (Or.inr (Or.inr rfl)) ?_
      refine List.Forall₂.cons (Or.inr (Or.inl rfl)) ?_
      refine List.Forall₂.cons (Or.inr (Or.inl rfl)) ?_
      refine List.Forall₂.cons (Or.inr (Or.inl rfl)) ?_
      refine List.Forall₂.cons (Or.inr (Or.inl rfl)) ?_
      refine List.Forall₂.cons (Or.inr (Or.inl rfl)) ?_
      refine List.Forall₂.cons (Or.inr (Or.inl rfl)) ?_
      exact List.Forall₂.nil)

/-! ## The table lookup of getEstimate -/

/-- The function `period` returns one of the nine enumerators of
`PERIOD_ENUM_CHOICES`. -/
theorem period_mem (r : Data) :
    period r ∈ [NONE, WEEKLY, BIWEEKLY, MONTHLY, BIMONTHLY, QUARTERLY, HALFYEARLY, YEARLY,
      DAILY] := by
  unfold period
  cases hf : PERIOD_ENUM_CHOICES.find? (fun entry => cmpNoCaseEq r.PERIOD entry.2) with
  | none => simp
  | some entry =>
    have hmem := List.mem_of_find?_eq_some hf
    simp only [PERIOD_ENUM_CHOICES, List.mem_cons, List.mem_singleton, List.not_mem_nil,
      or_false] at hmem
    rcases hmem with h | h | h | h | h | h | h | h | h <;> (subst h; simp)

/-- C18: the read outside the occurrence table of `getEstimate` is not
reachable from `getBudgetStats` and `copyBudgetYear`: their calls of
`getEstimate` pass `period` of a record, and for every record `period`
returns one of the nine enumerators, whose ordinal is an index 0..8 of the
nine-element table, so `getEstimate` multiplies by an entry of the table. -/
theorem period_in_table (r : Data) :
    period r ≠ MAX ∧ (period r).toNat ≤ 8 ∧ p.length = 9
      ∧ (∃ occ, p[(period r).toNat]? = some occ
          ∧ ∀ (is_monthly : Bool) (amount : Dbl),
              getEstimate is_monthly (period r) amount
                = if is_monthly then amount * Dbl.ofInt occ / 12 else amount * Dbl.ofInt occ)
      ∧ (∀ (s : Locals) (budget : Data),
          (annualStep s budget).monthlyBudgetValue
            = DMap.set s.monthlyBudgetValue budget.CATEGID
                (getEstimate true (period budget) budget.AMOUNT)
          ∧ (annualStep s budget).yearlyBudgetValue
            = DMap.set s.yearlyBudgetValue budget.CATEGID
                (getEstimate false (period budget) budget.AMOUNT))
      ∧ (∀ (month : Int) (s : Locals) (budget : Data),
          cell (monthlyStep month s budget).budgetStats budget.CATEGID month
            = getEstimate true (period budget) budget.AMOUNT)
      ∧ (∀ (env : Env) (newBudgetYearName : String) (s : CopyLocals) (month : Int),
          (copyMonthStep env newBudgetYearName s month).yearDeduction
            = (monthEntries env (String.mk (newBudgetYearName.data.take 4)) month).foldl
                (fun yd budget => DMap.set yd budget.CATEGID
                  (DMap.getD yd budget.CATEGID 0
                    + getEstimate true (period budget) budget.AMOUNT))
                s.yearDeduction)
      ∧ (∀ (s : CopyLocals) (newYearID : Int) (data : Data),
          copyEntry false s newYearID data = { data with BUDGETYEARID := newYearID }
          ∧ (copyEntry true s newYearID data).AMOUNT
            = if decide (s.budgetedMonths > 0) then
                (if Dbl.lt (DMap.getD s.yearDeduction data.CATEGID 0
                      / getEstimate false (period data) data.AMOUNT) 1
                 then (getEstimate false (period data) data.AMOUNT
                        - DMap.getD s.yearDeduction data.CATEGID 0)
                      / Dbl.ofInt (12 - s.budgetedMonths)
                 else 0)
              else data.AMOUNT) := by
  have hmem := period_mem r
  refine ⟨?_, ?_, rfl, ?_, fun s budget => ⟨rfl, rfl⟩, ?_, fun env name s month => rfl, ?_⟩
  · intro h
    rw [h] at hmem
    simp at hmem
  · simp only [List.mem_cons, List.mem_singleton, List.not_mem_nil, or_false] at hmem
    rcases hmem with h | h | h | h | h | h | h | h | h <;> (rw [h]; decide)
  · simp only [List.mem_cons, List.mem_singleton, List.not_mem_nil, or_false] at hmem
    rcases hmem with h | h | h | h | h | h | h | h | h <;>
      (rw [h]; exact ⟨_, rfl, fun is_monthly amount => by cases is_monthly <;> rfl⟩)
  · intro month s budget
    rw [monthlyStep_cell]
    simp
  · intro s newYearID data
    refine ⟨rfl, ?_⟩
    unfold copyEntry
    by_cases hn : s.budgetedMonths > 0
    · simp only [Bool.true_and, hn, decide_True, if_true]
      split <;> rfl
    · simp only [Bool.true_and, hn, decide_False, Bool.false_eq_true, if_false]

end MMEX
